import Mathlib

/-!
# MapVote: a shallow embedding of `MapVote.cpp`

The BZFlag plugin `MapVote.cpp` keeps one `MapVoteHandler` object: a list of maps, an
open/closed poll with a tally and the set of players who voted, and the pending restart
(`restartTime`, `nextMap`).  Every member function is embedded as a pure function from the
handler state (and the answers of the host at that moment) to the new state and the list of
host calls it makes, in the order it makes them.

Conventions of the embedding.

* `std::string` is `List Char`.  The source holds positions in `unsigned int` variables and
  compares them with `string::npos`, a `string::size_type`.  In `startMapVote`, `voteMap`,
  `changeMap` and `loadMaplist` a position is an `Option Nat` with `none` for
  `string::npos`: the program where the two types have the same width.  In
  `startMapVoteOn` and `loadMaplistOn` a position is the number the variable holds on a given
  `Build`, whose `size_type` may be wider; `startMapVoteOn_ilp32` and `loadMaplistOn_ilp32`
  relate the two.
* `std::map<std::string, V>` is an association list kept in increasing key order (`StdMap`), iterated
  from the head; `std::set<int>` is a `Finset Int`.
* `int` values are unbounded integers; the `double` timestamps are integers.
* A result `none` is undefined behaviour of the C++ code (a remainder by zero), an exception
  that nothing catches (`std::out_of_range` in `loadMaplist`) or, for the one loop that is
  run with fuel, exhausted fuel; `startMapVoteLoop_isSome` shows that the fuel given by
  `startMapVote` is always enough.  The functions on a `Build` give an `Outcome`, which tells
  an exception from a loop that has not ended.
-/

namespace MapVote

/-! ## Strings -/

/-- The type `std::string`. -/
abbrev CppString := List Char

/-- The call `s.find_first_of(c, pos)` for a one-character set; `none` is `string::npos`. -/
def find_first_of (s : CppString) (c : Char) (pos : Nat) : Option Nat :=
  if (s.drop pos).indexOf c < (s.drop pos).length then
    some (pos + (s.drop pos).indexOf c)
  else
    none

/-- The call `s.substr(pos)`. -/
def substr (s : CppString) (pos : Nat) : CppString :=
  s.drop pos

/-- The call `s.substr(pos, n)`. -/
def substrN (s : CppString) (pos n : Nat) : CppString :=
  (s.drop pos).take n

/-! ## Ordered maps -/

/-- The type `std::map<std::string, V>`: its entries in iteration order. -/
abbrev StdMap (V : Type) := List (CppString × V)

namespace StdMap

variable {V : Type}

/-- A well-formed map has strictly increasing keys. -/
def WF (m : StdMap V) : Prop :=
  (m.map Prod.fst).Pairwise (· < ·)

/-- The call `m.find(k)`, giving the value of the entry found; `none` is `m.end()`. -/
def find : StdMap V → CppString → Option V
  | [], _ => none
  | (k', v') :: rest, k => if k = k' then some v' else find rest k

/-- The assignment `m[k] = v`. -/
def assign : StdMap V → CppString → V → StdMap V
  | [], k, v => [(k, v)]
  | (k', v') :: rest, k, v =>
    if k < k' then (k, v) :: (k', v') :: rest
    else if k = k' then (k, v) :: rest
    else (k', v') :: assign rest k v

/-- The expression `m[k]` read as a value: the value found and the map afterwards, which
has gained a default-valued entry when `k` was absent. -/
def index [Inhabited V] (m : StdMap V) (k : CppString) : V × StdMap V :=
  match find m k with
  | some v => (v, m)
  | none => (default, assign m k default)

/-- The statement `iter->second++` for the iterator returned by `m.find(k)`. -/
def increment : StdMap Int → CppString → StdMap Int
  | [], _ => []
  | (k', v') :: rest, k =>
    if k = k' then (k', v' + 1) :: rest else (k', v') :: increment rest k

/-- The call `m.size()`. -/
def size (m : StdMap V) : Nat :=
  m.length

/-- The keys in iteration order. -/
def keys (m : StdMap V) : List CppString :=
  m.map Prod.fst

end StdMap

/-! ## The host -/

/-- Constants of the host header `bzfsAPI.h`, which the plugin includes. -/
structure Api where
  /-- The player id that stands for the server. -/
  BZ_SERVER : Int
  /-- The player id that stands for every player. -/
  BZ_ALLUSERS : Int
  /-- The team of observers. -/
  eObservers : Int
deriving DecidableEq

/-- What the host answers while one event is handled. -/
structure Host where
  /-- The field `admin` of `bz_getPlayerByIndex(id)`. -/
  admin : Int → Bool
  /-- The field `op` of `bz_getPlayerByIndex(id)`. -/
  op : Int → Bool
  /-- The field `team` of `bz_getPlayerByIndex(id)`. -/
  team : Int → Int
  /-- The field `callsign` of `bz_getPlayerByIndex(id)`. -/
  callsign : Int → CppString
  /-- The size of the list filled by `bz_getPlayerIndexList`. -/
  playerIndexListSize : Nat
  /-- The function `bz_getTeamCount`. -/
  teamCount : Int → Int
  /-- The value of `bz_getCurrentTime()`. -/
  currentTime : Int
  /-- The value of `random()`. -/
  random : Nat

/-- The calls the handler makes on the host. -/
inductive Effect where
  /-- Call `bz_sendTextMessage(sender, recipient, text)`. -/
  | sendTextMessage (sender recipient : Int) (text : CppString)
  /-- Call `bz_sendTextMessagef(sender, recipient, format, arg)`. -/
  | sendTextMessagef (sender recipient : Int) (format : CppString) (arg : Int)
  /-- Call `bz_registerEvent(bz_eTickEvent, this)`. -/
  | registerEvent
  /-- Call `bz_removeEvent(bz_eTickEvent, this)`. -/
  | removeEvent
  /-- Call `bz_restart()`. -/
  | restart
  /-- Assignment `event->worldFile = path`. -/
  | worldFile (path : CppString)
  /-- Assignment `event->handled = true`. -/
  | handled
deriving DecidableEq

/-- The events `process` receives. -/
inductive bz_EventData where
  /-- A `bz_eUnknownSlashCommand` event with its fields `from` and `message`. -/
  | unknownSlashCommand (sender : Int) (message : CppString)
  /-- A `bz_eGetWorldEvent` event. -/
  | getWorld
  /-- A `bz_eGameEndEvent` event. -/
  | gameEnd
  /-- A `bz_eTickEvent` event with its field `time`. -/
  | tick (time : Int)
  /-- Any other event. -/
  | other
deriving DecidableEq

/-! ## The handler -/

def MAPVOTE_NOMAP : CppString := "NOMAP".toList

def RESTART_WAIT_TIME : Int := 5

/-- The data members of `MapVoteHandler`. -/
structure MapVoteHandler where
  mapList : StdMap CppString
  votingOpen : Bool
  voteTally : StdMap Int
  playersVoted : Finset Int
  restartTime : Int
  nextMap : CppString
deriving DecidableEq

/-- The handler after the constructor and a successful `loadMaplist` that produced
`mapList`. -/
def MapVoteHandler.init (mapList : StdMap CppString) : MapVoteHandler :=
  { mapList := mapList, votingOpen := false, voteTally := [], playersVoted := ∅,
    restartTime := 0, nextMap := MAPVOTE_NOMAP }

def VOTEMAP_COMMAND : CppString := "/votemap".toList
def LISTVOTES_COMMAND : CppString := "/listvotes".toList
def LISTMAPS_COMMAND : CppString := "/listmaps".toList
def STARTVOTE_COMMAND : CppString := "/startmapvote".toList
def ENDVOTE_COMMAND : CppString := "/endmapvote".toList
def CANCELVOTE_COMMAND : CppString := "/cancelmapvote".toList
def CHANGEMAP_COMMAND : CppString := "/changemap".toList

def getCallsign (host : Host) (playerID : Int) : CppString :=
  host.callsign playerID

def resetVoting (h : MapVoteHandler) : MapVoteHandler :=
  { h with votingOpen := false, voteTally := [], playersVoted := ∅ }

def verifyAdminOp (api : Api) (host : Host) (playerID : Int) : Bool × List Effect :=
  let isAdminOrOp := host.admin playerID || host.op playerID
  (isAdminOrOp,
    if !isAdminOrOp then
      [Effect.sendTextMessage api.BZ_SERVER playerID
        "You must be an administrator or operator to use that command.".toList]
    else [])

def verifyNotObserver (api : Api) (host : Host) (playerID : Int) : Bool × List Effect :=
  let isObserver := decide (host.team playerID = api.eObservers)
  (!isObserver,
    if isObserver then
      [Effect.sendTextMessage api.BZ_SERVER playerID
        "MapVote Error: Sorry, observers may not vote.".toList]
    else [])

def verifyVotingOpen (api : Api) (h : MapVoteHandler) (playerID : Int) : Bool × List Effect :=
  (h.votingOpen,
    if !h.votingOpen then
      [Effect.sendTextMessage api.BZ_SERVER playerID
        "MapVote Error: There is no map vote active.".toList]
    else [])

def restartTimeReached : List Effect :=
  [Effect.removeEvent, Effect.restart]

def loadMap (h : MapVoteHandler) : MapVoteHandler × List Effect :=
  ({ h with nextMap := MAPVOTE_NOMAP },
    if h.nextMap ≠ MAPVOTE_NOMAP then [Effect.worldFile h.nextMap] else [])

/-- The end of the body of the loop of `startMapVote`: what is done with the map name cut
out of the command, on the tally and the messages so far. -/
def startMapVoteStep (api : Api) (mapList : StdMap CppString) (requestor : Int)
    (acc : StdMap Int × List Effect) (mapName : CppString) : StdMap Int × List Effect :=
  if StdMap.find mapList mapName = none then
    (acc.1, acc.2 ++ [Effect.sendTextMessage api.BZ_SERVER requestor
      ("MapVote Error: Could not find map named '".toList ++ mapName ++ "'".toList)])
  else
    (StdMap.assign acc.1 mapName 0, acc.2)

/-- The loop of `startMapVote` over the maps listed in the command, from the position
`index` of a space (or `none`), with the tally and the messages so far, where `size_type`
is as wide as `unsigned int`: the test `index != string::npos` fails exactly when no space
was found. -/
def startMapVoteLoop (api : Api) (mapList : StdMap CppString)
    (command : CppString) (requestor : Int) :
    Nat → Option Nat → StdMap Int × List Effect →
    Option (StdMap Int × List Effect)
  | _, none, acc => some acc
  | 0, some _, _ => none
  | fuel + 1, some index, acc =>
    let index := index + 1
    let nextIndex := find_first_of command ' ' index
    let mapName :=
      match nextIndex with
      | some n => substrN command index (n - index)
      | none => substr command index
    startMapVoteLoop api mapList command requestor fuel nextIndex
      (startMapVoteStep api mapList requestor acc mapName)

/-- The function `startMapVote` where `size_type` is as wide as `unsigned int`: the test
`index == string::npos` holds exactly when the command has no space.  The function on any
build is `startMapVoteOn`. -/
def startMapVote (api : Api) (host : Host) (h : MapVoteHandler) (command : CppString)
    (requestor : Int) : Option (MapVoteHandler × List Effect) :=
  if requestor ≠ api.BZ_SERVER ∧ (verifyAdminOp api host requestor).1 = false then
    some (h, (verifyAdminOp api host requestor).2)
  else if h.votingOpen = true ∧ requestor = api.BZ_SERVER then
    some (h, [])
  else
    let h1 := if h.votingOpen then resetVoting h else h
    match find_first_of command ' ' 0 with
    | none =>
      some ({ h1 with
              voteTally := h1.mapList.foldl (fun t e => StdMap.assign t e.1 0) h1.voteTally,
              votingOpen := true },
        [Effect.sendTextMessage api.BZ_SERVER api.BZ_ALLUSERS
          (if requestor ≠ api.BZ_SERVER then
            "MapVote: ".toList ++ getCallsign host requestor ++
              " initiated a new map poll with all maps.".toList
          else "MapVote: initiating new map poll with all maps.".toList)])
    | some index =>
      match startMapVoteLoop api h1.mapList command requestor (command.length + 1)
          (some index) (h1.voteTally, []) with
      | none => none
      | some (voteTally, effects) =>
        if StdMap.size voteTally > 1 then
          some ({ h1 with voteTally := voteTally, votingOpen := true },
            effects ++
            [Effect.sendTextMessage api.BZ_SERVER api.BZ_ALLUSERS
              ("MapVote: ".toList ++ getCallsign host requestor ++
                " initiated a new map vote with the following maps:".toList)] ++
            voteTally.map (fun e => Effect.sendTextMessage api.BZ_SERVER api.BZ_ALLUSERS e.1))
        else
          some (resetVoting { h1 with voteTally := voteTally },
            effects ++
            [Effect.sendTextMessage api.BZ_SERVER requestor
              "MapVote Error: Polls must contain at least two valid maps.".toList,
             Effect.sendTextMessage api.BZ_SERVER requestor
              "               Use /listmaps for a list of valid maps.".toList])

def gameEnded (api : Api) (host : Host) (h : MapVoteHandler) :
    Option (MapVoteHandler × List Effect) :=
  startMapVote api host h [] api.BZ_SERVER

/-- The body of the tally loop of `endMapVote`, on the values of `maxVotes` and `topMaps`
and the entry `*iter`. -/
def tallyStep (acc : Int × List CppString) (e : CppString × Int) : Int × List CppString :=
  if e.2 > acc.1 then (e.2, [e.1])
  else if e.2 = acc.1 then (acc.1, acc.2 ++ [e.1])
  else acc

/-- The tally loop of `endMapVote`: the final values of `maxVotes` and `topMaps`. -/
def tallyVotes (voteTally : StdMap Int) : Int × List CppString :=
  voteTally.foldl tallyStep (-1, [])

/-- The winner `topMaps[random() % topMaps.size()]` of `endMapVote`; `none` when `topMaps`
is empty, where the remainder is undefined. -/
def pickMap (voteTally : StdMap Int) (random : Nat) : Option CppString :=
  (tallyVotes voteTally).2[random % (tallyVotes voteTally).2.length]?

def endMapVote (api : Api) (host : Host) (h : MapVoteHandler) (requestor : Int) :
    Option (MapVoteHandler × List Effect) :=
  if requestor ≠ api.BZ_SERVER ∧ (verifyAdminOp api host requestor).1 = false then
    some (h, (verifyAdminOp api host requestor).2)
  else if requestor ≠ api.BZ_SERVER ∧ (verifyVotingOpen api h requestor).1 = false then
    some (h, (verifyVotingOpen api h requestor).2)
  else
    match pickMap h.voteTally host.random with
    | none => none
    | some mapName =>
      some (
        { resetVoting { h with
            nextMap := (StdMap.index h.mapList mapName).1,
            mapList := (StdMap.index h.mapList mapName).2 } with
          restartTime := host.currentTime + RESTART_WAIT_TIME },
        (if requestor ≠ api.BZ_SERVER then
          [Effect.sendTextMessage api.BZ_SERVER api.BZ_ALLUSERS
            ("MapVote: ".toList ++ getCallsign host requestor ++
              " ended the map voting.".toList)]
         else []) ++
        [Effect.sendTextMessagef api.BZ_SERVER api.BZ_ALLUSERS
          ("MapVote: ".toList ++ mapName ++
            " has won the map vote! Server will restart in %d seconds.".toList)
          RESTART_WAIT_TIME,
         Effect.registerEvent])

def cancelMapVote (api : Api) (host : Host) (h : MapVoteHandler) (requestor : Int) :
    MapVoteHandler × List Effect :=
  if (verifyAdminOp api host requestor).1 = false then
    (h, (verifyAdminOp api host requestor).2)
  else if (verifyVotingOpen api h requestor).1 = false then
    (h, (verifyVotingOpen api h requestor).2)
  else
    (resetVoting h,
      [Effect.sendTextMessage api.BZ_SERVER api.BZ_ALLUSERS
        ("MapVote: ".toList ++ getCallsign host requestor ++
          " cancelled the map vote.".toList)])

/-- The function `changeMap`.  Its branch for a command without a space is that of a build
where `size_type` is as wide as `unsigned int`, on which the test `index == string::npos`
holds for such a command. -/
def changeMap (api : Api) (host : Host) (h : MapVoteHandler) (command : CppString)
    (requestor : Int) : MapVoteHandler × List Effect :=
  if (verifyAdminOp api host requestor).1 = false then
    (h, (verifyAdminOp api host requestor).2)
  else
    match find_first_of command ' ' 0 with
    | none =>
      (h, [Effect.sendTextMessage api.BZ_SERVER requestor
            "MapVote Error: You must specify a map to switch to!".toList,
           Effect.sendTextMessage api.BZ_SERVER requestor
            "               Use /listmaps for a list of maps.".toList])
    | some index =>
      let mapName := substr command (index + 1)
      match StdMap.find h.mapList mapName with
      | none =>
        (h, [Effect.sendTextMessage api.BZ_SERVER requestor
              ("MapVote Error: Could not find map named '".toList ++ mapName ++ "'.".toList),
             Effect.sendTextMessage api.BZ_SERVER requestor
              "               Use /listmaps for a list of maps.".toList])
      | some path =>
        ({ resetVoting { h with nextMap := path } with
            restartTime := host.currentTime + RESTART_WAIT_TIME },
          [Effect.sendTextMessage api.BZ_SERVER api.BZ_ALLUSERS
            ("MapVote: ".toList ++ getCallsign host requestor ++
              " has changed the map to ".toList ++ mapName ++ "!".toList),
           Effect.sendTextMessagef api.BZ_SERVER api.BZ_ALLUSERS
            "         Server will restart in %d seconds.".toList RESTART_WAIT_TIME,
           Effect.registerEvent])

def printMapList (api : Api) (h : MapVoteHandler) (playerID : Int) : List Effect :=
  Effect.sendTextMessage api.BZ_SERVER playerID "MapVote Map Rotation:".toList ::
    h.mapList.map (fun e => Effect.sendTextMessage api.BZ_SERVER playerID ("  ".toList ++ e.1))

def printVotes (api : Api) (h : MapVoteHandler) (playerID : Int) : List Effect :=
  if (verifyVotingOpen api h playerID).1 = false then
    (verifyVotingOpen api h playerID).2
  else
    Effect.sendTextMessage api.BZ_SERVER playerID "MapVote: Current Voting Status:".toList ::
      h.voteTally.map (fun e =>
        Effect.sendTextMessagef api.BZ_SERVER playerID
          ("%d".toList ++ (if e.2 = 1 then " vote  - ".toList else " votes - ".toList) ++ e.1)
          e.2)

/-- The test of `voteMap` for closing the poll at once, on the number `voted` of players
who have voted, the count `votes` of the map just voted for, and `numPlayers`. -/
def voteEndsPoll (voted : Nat) (votes numPlayers : Int) : Bool :=
  decide ((voted : Int) = numPlayers) || decide (votes > Int.tdiv numPlayers 2)

/-- The function `voteMap`.  Its branch for a command without a space is that of a build
where `size_type` is as wide as `unsigned int`, on which the test `index == string::npos`
holds for such a command. -/
def voteMap (api : Api) (host : Host) (h : MapVoteHandler) (command : CppString)
    (voterID : Int) : Option (MapVoteHandler × List Effect) :=
  if (verifyNotObserver api host voterID).1 = false then
    some (h, (verifyNotObserver api host voterID).2)
  else if (verifyVotingOpen api h voterID).1 = false then
    some (h, (verifyVotingOpen api h voterID).2)
  else if voterID ∈ h.playersVoted then
    some (h, [Effect.sendTextMessage api.BZ_SERVER voterID
                "MapVote Error: You may only vote once!".toList])
  else
    match find_first_of command ' ' 0 with
    | none =>
      some (h, [Effect.sendTextMessage api.BZ_SERVER voterID
                  "MapVote Error: You must specify a map to vote for!".toList,
                Effect.sendTextMessage api.BZ_SERVER voterID
                  "               Use /listvotes for a list of options.".toList])
    | some index =>
      let mapName := substr command (index + 1)
      match StdMap.find h.voteTally mapName with
      | none =>
        some (h, [Effect.sendTextMessage api.BZ_SERVER voterID
                    ("MapVote Error: Could not find map named '".toList ++ mapName ++
                      "'".toList),
                  Effect.sendTextMessage api.BZ_SERVER voterID
                    "               Use /listvotes for a list of options.".toList])
      | some votes =>
        let h1 : MapVoteHandler :=
          { h with
            voteTally := StdMap.increment h.voteTally mapName,
            playersVoted := insert voterID h.playersVoted }
        let message :=
          Effect.sendTextMessage api.BZ_SERVER api.BZ_ALLUSERS
            ("MapVote: ".toList ++ getCallsign host voterID ++ " has voted for ".toList ++
              mapName ++ "!".toList)
        let numPlayers : Int := (host.playerIndexListSize : Int) - host.teamCount api.eObservers
        if voteEndsPoll h1.playersVoted.card (votes + 1) numPlayers = true then
          match endMapVote api host h1 api.BZ_SERVER with
          | none => none
          | some (h2, effects) => some (h2, message :: effects)
        else
          some (h1, message :: printVotes api h1 voterID)

def handleCommand (api : Api) (host : Host) (h : MapVoteHandler) (sender : Int)
    (command : CppString) : Option (MapVoteHandler × List Effect) :=
  if substrN command 0 VOTEMAP_COMMAND.length = VOTEMAP_COMMAND then
    (voteMap api host h command sender).map (fun r => (r.1, r.2 ++ [Effect.handled]))
  else if command = LISTVOTES_COMMAND then
    some (h, printVotes api h sender ++ [Effect.handled])
  else if command = LISTMAPS_COMMAND then
    some (h, printMapList api h sender ++ [Effect.handled])
  else if substrN command 0 STARTVOTE_COMMAND.length = STARTVOTE_COMMAND then
    (startMapVote api host h command sender).map (fun r => (r.1, r.2 ++ [Effect.handled]))
  else if substrN command 0 ENDVOTE_COMMAND.length = ENDVOTE_COMMAND then
    (endMapVote api host h sender).map (fun r => (r.1, r.2 ++ [Effect.handled]))
  else if substrN command 0 CANCELVOTE_COMMAND.length = CANCELVOTE_COMMAND then
    some ((cancelMapVote api host h sender).1,
      (cancelMapVote api host h sender).2 ++ [Effect.handled])
  else if substrN command 0 CHANGEMAP_COMMAND.length = CHANGEMAP_COMMAND then
    some ((changeMap api host h command sender).1,
      (changeMap api host h command sender).2 ++ [Effect.handled])
  else
    some (h, [])

def process (api : Api) (host : Host) (h : MapVoteHandler) :
    bz_EventData → Option (MapVoteHandler × List Effect)
  | .unknownSlashCommand sender message => handleCommand api host h sender message
  | .getWorld => some (loadMap h)
  | .gameEnd => gameEnded api host h
  | .tick time =>
    some (h, if time ≥ h.restartTime then restartTimeReached else [])
  | .other => some (h, [])

/-- The handler after a sequence of events, each with the answers of the host while it is
handled; `none` when the handling of one of them is undefined. -/
def run (api : Api) : MapVoteHandler → List (Host × bz_EventData) → Option MapVoteHandler
  | h, [] => some h
  | h, (host, event) :: rest =>
    match process api host h event with
    | none => none
    | some (h1, _) => run api h1 rest

/-- The states of the handler that some sequence of events leads to from the state after
loading `mapList`. -/
def Reachable (api : Api) (mapList : StdMap CppString) (h : MapVoteHandler) : Prop :=
  ∃ events, run api (MapVoteHandler.init mapList) events = some h

/-- The handler after a sequence of events together with the host calls made while they
were handled, in order. -/
def runLog (api : Api) :
    MapVoteHandler → List (Host × bz_EventData) → Option (MapVoteHandler × List Effect)
  | h, [] => some (h, [])
  | h, (host, event) :: rest =>
    match process api host h event with
    | none => none
    | some (h1, effects) =>
      match runLog api h1 rest with
      | none => none
      | some (h2, effects2) => some (h2, effects ++ effects2)

/-! ## Loading the map list -/

/-- The call `s.find_last_of(c)` for a one-character set; `none` is `string::npos`. -/
def find_last_of (s : CppString) (c : Char) : Option Nat :=
  if c ∈ s then some (s.length - 1 - s.reverse.indexOf c) else none

/-- The call `s.erase(pos)`, which removes everything from `pos` on; `none` is the
exception `std::out_of_range`, thrown when `pos` is beyond the end, as `string::npos` is. -/
def erase (s : CppString) (pos : Option Nat) : Option CppString :=
  match pos with
  | some p => if p ≤ s.length then some (s.take p) else none
  | none => none

/-- What the body of the loop of `loadMaplist` makes of one path. -/
inductive MapName where
  /-- No directory separator: the function gives up and returns `false`. -/
  | giveUp
  /-- No `.` after the separator: `erase` throws `std::out_of_range`. -/
  | outOfRange
  /-- The map name. -/
  | name (mapName : CppString)
deriving DecidableEq

/-- The map name the body of the loop of `loadMaplist` derives from `mapPath` where
`size_type` is as wide as `unsigned int`: the tests `index == string::npos` hold exactly when
the separator is not found.  On any build it is `mapNameOfOn`. -/
def mapNameOf (mapPath : CppString) : MapName :=
  match (match find_last_of mapPath '/' with
         | some index => some index
         | none => find_last_of mapPath '\\') with
  | none => MapName.giveUp
  | some index =>
    let mapName := substr mapPath (index + 1)
    match erase mapName (find_last_of mapName '.') with
    | none => MapName.outOfRange
    | some mapName => MapName.name mapName

/-- The loop of `loadMaplist` over the words of the file: the value returned and the map
list; `none` when an exception is thrown. -/
def loadMaplistLoop : List CppString → StdMap CppString → Option (Bool × StdMap CppString)
  | [], mapList => some (true, mapList)
  | mapPath :: rest, mapList =>
    match mapNameOf mapPath with
    | MapName.giveUp => some (false, mapList)
    | MapName.outOfRange => none
    | MapName.name mapName => loadMaplistLoop rest (StdMap.assign mapList mapName mapPath)

/-- The function `loadMaplist` on the file at `path`: `none` for a file that cannot be
opened, else its words, as `>>` reads them. -/
def loadMaplist (h : MapVoteHandler) (file : Option (List CppString)) :
    Option (Bool × MapVoteHandler) :=
  match file with
  | none => some (false, h)
  | some words =>
    match loadMaplistLoop words h.mapList with
    | none => none
    | some (result, mapList) => some (result, { h with mapList := mapList })

/-- The event types the plugin registers for. -/
inductive bz_eEventType where
  | bz_eUnknownSlashCommand
  | bz_eGetWorldEvent
  | bz_eGameEndEvent
  | bz_eTickEvent
deriving DecidableEq

/-- The function `bz_Load` on the handler `voteHandler`: the value returned, the handler
and the event types registered for it. -/
def bz_Load (voteHandler : MapVoteHandler) (file : Option (List CppString)) :
    Option (Int × MapVoteHandler × List bz_eEventType) :=
  match loadMaplist voteHandler file with
  | none => none
  | some (false, h) => some (1, h, [])
  | some (true, h) =>
    some (0, h, [bz_eEventType.bz_eUnknownSlashCommand, bz_eEventType.bz_eGetWorldEvent,
      bz_eEventType.bz_eGameEndEvent])

/-! ## Builds

The source holds the positions that `find_first_of` and `find_last_of` return in variables
of type `unsigned int` and compares them with `string::npos`, a value of type
`string::size_type`.  What these comparisons give depends on the widths of the two types on
the platform the plugin is built for.  The definitions of this section follow the same
source functions as `startMapVote` and `loadMaplist` above, with the positions as the numbers
the variables hold on a given build. -/

/-- A build of the plugin: the greatest value of the type `unsigned int` and the greatest
value of the type `string::size_type`, which is `string::npos`. -/
structure Build where
  UINT_MAX : Nat
  npos : Nat
deriving DecidableEq

/-- A build with 32-bit `unsigned int` and 32-bit `size_type`. -/
def Build.ilp32 : Build :=
  { UINT_MAX := 4294967295, npos := 4294967295 }

/-- A build with 32-bit `unsigned int` and 64-bit `size_type`. -/
def Build.lp64 : Build :=
  { UINT_MAX := 4294967295, npos := 18446744073709551615 }

/-- The conversion of a number to `unsigned int`, which is also the result of arithmetic
in that type. -/
def Build.toUnsigned (b : Build) (n : Nat) : Nat :=
  n % (b.UINT_MAX + 1)

/-- The value an `unsigned int` variable holds once the result of `find_first_of` or
`find_last_of` is assigned to it. -/
def Build.position (b : Build) (found : Option Nat) : Nat :=
  match found with
  | some index => b.toUnsigned index
  | none => b.toUnsigned b.npos

/-- The call `s.substr(pos)`; `none` is the exception `std::out_of_range`, thrown when
`pos` is beyond the end. -/
def substrFrom (s : CppString) (pos : Nat) : Option CppString :=
  if pos ≤ s.length then some (s.drop pos) else none

/-- The call `s.substr(pos, n)`; `none` is the exception `std::out_of_range`. -/
def substrFromN (s : CppString) (pos n : Nat) : Option CppString :=
  if pos ≤ s.length then some ((s.drop pos).take n) else none

/-- The call `s.erase(pos)`; `none` is the exception `std::out_of_range`. -/
def eraseFrom (s : CppString) (pos : Nat) : Option CppString :=
  if pos ≤ s.length then some (s.take pos) else none

/-- What a function has done after a number of turns of its loop. -/
inductive Outcome (α : Type) where
  /-- The function has returned. -/
  | returned (value : α)
  /-- An exception left the function. -/
  | thrown
  /-- The loop is still running. -/
  | running
deriving DecidableEq

/-- The outcome that an optional result of a loop run with fuel stands for: without a
result the loop is still running. -/
def Outcome.ofFuel {α : Type} : Option α → Outcome α
  | some value => Outcome.returned value
  | none => Outcome.running

/-- The loop of `startMapVote` on the build `b`, run for at most `fuel` turns from the
value `index` of the variable of that name, with the tally and the messages so far. -/
def startMapVoteLoopOn (b : Build) (api : Api) (mapList : StdMap CppString)
    (command : CppString) (requestor : Int) :
    Nat → Nat → StdMap Int × List Effect → Outcome (StdMap Int × List Effect)
  | 0, index, acc => if index = b.npos then Outcome.returned acc else Outcome.running
  | fuel + 1, index, acc =>
    if index = b.npos then Outcome.returned acc
    else
      let index := b.toUnsigned (index + 1)
      let nextIndex := b.position (find_first_of command ' ' index)
      match (if nextIndex ≠ b.npos then
              substrFromN command index (b.toUnsigned (nextIndex + (b.UINT_MAX + 1) - index))
            else substrFrom command index) with
      | none => Outcome.thrown
      | some mapName =>
        startMapVoteLoopOn b api mapList command requestor fuel nextIndex
          (startMapVoteStep api mapList requestor acc mapName)

/-- The function `startMapVote` on the build `b`, its loop run for at most `fuel` turns. -/
def startMapVoteOn (b : Build) (api : Api) (host : Host) (h : MapVoteHandler)
    (command : CppString) (requestor : Int) (fuel : Nat) :
    Outcome (MapVoteHandler × List Effect) :=
  if requestor ≠ api.BZ_SERVER ∧ (verifyAdminOp api host requestor).1 = false then
    Outcome.returned (h, (verifyAdminOp api host requestor).2)
  else if h.votingOpen = true ∧ requestor = api.BZ_SERVER then
    Outcome.returned (h, [])
  else
    let h1 := if h.votingOpen then resetVoting h else h
    let index := b.position (find_first_of command ' ' 0)
    if index = b.npos then
      Outcome.returned ({ h1 with
              voteTally := h1.mapList.foldl (fun t e => StdMap.assign t e.1 0) h1.voteTally,
              votingOpen := true },
        [Effect.sendTextMessage api.BZ_SERVER api.BZ_ALLUSERS
          (if requestor ≠ api.BZ_SERVER then
            "MapVote: ".toList ++ getCallsign host requestor ++
              " initiated a new map poll with all maps.".toList
          else "MapVote: initiating new map poll with all maps.".toList)])
    else
      match startMapVoteLoopOn b api h1.mapList command requestor fuel index
          (h1.voteTally, []) with
      | Outcome.thrown => Outcome.thrown
      | Outcome.running => Outcome.running
      | Outcome.returned (voteTally, effects) =>
        if StdMap.size voteTally > 1 then
          Outcome.returned ({ h1 with voteTally := voteTally, votingOpen := true },
            effects ++
            [Effect.sendTextMessage api.BZ_SERVER api.BZ_ALLUSERS
              ("MapVote: ".toList ++ getCallsign host requestor ++
                " initiated a new map vote with the following maps:".toList)] ++
            voteTally.map (fun e => Effect.sendTextMessage api.BZ_SERVER api.BZ_ALLUSERS e.1))
        else
          Outcome.returned (resetVoting { h1 with voteTally := voteTally },
            effects ++
            [Effect.sendTextMessage api.BZ_SERVER requestor
              "MapVote Error: Polls must contain at least two valid maps.".toList,
             Effect.sendTextMessage api.BZ_SERVER requestor
              "               Use /listmaps for a list of valid maps.".toList])

/-- The function `gameEnded` on the build `b`. -/
def gameEndedOn (b : Build) (api : Api) (host : Host) (h : MapVoteHandler) (fuel : Nat) :
    Outcome (MapVoteHandler × List Effect) :=
  startMapVoteOn b api host h [] api.BZ_SERVER fuel

/-- The map name the body of the loop of `loadMaplist` derives from `mapPath` on the
build `b`. -/
def mapNameOfOn (b : Build) (mapPath : CppString) : MapName :=
  let index := b.position (find_last_of mapPath '/')
  match (if index = b.npos then
          let index := b.position (find_last_of mapPath '\\')
          if index = b.npos then none else some index
        else some index) with
  | none => MapName.giveUp
  | some index =>
    match substrFrom mapPath (b.toUnsigned (index + 1)) with
    | none => MapName.outOfRange
    | some mapName =>
      match eraseFrom mapName (b.position (find_last_of mapName '.')) with
      | none => MapName.outOfRange
      | some mapName => MapName.name mapName

/-- The loop of `loadMaplist` on the build `b`. -/
def loadMaplistLoopOn (b : Build) :
    List CppString → StdMap CppString → Option (Bool × StdMap CppString)
  | [], mapList => some (true, mapList)
  | mapPath :: rest, mapList =>
    match mapNameOfOn b mapPath with
    | MapName.giveUp => some (false, mapList)
    | MapName.outOfRange => none
    | MapName.name mapName =>
      loadMaplistLoopOn b rest (StdMap.assign mapList mapName mapPath)

/-- The function `loadMaplist` on the build `b`. -/
def loadMaplistOn (b : Build) (h : MapVoteHandler) (file : Option (List CppString)) :
    Option (Bool × MapVoteHandler) :=
  match file with
  | none => some (false, h)
  | some words =>
    match loadMaplistLoopOn b words h.mapList with
    | none => none
    | some (result, mapList) => some (result, { h with mapList := mapList })

/-- The function `bz_Load` on the build `b`. -/
def bz_LoadOn (b : Build) (voteHandler : MapVoteHandler) (file : Option (List CppString)) :
    Option (Int × MapVoteHandler × List bz_eEventType) :=
  match loadMaplistOn b voteHandler file with
  | none => none
  | some (false, h) => some (1, h, [])
  | some (true, h) =>
    some (0, h, [bz_eEventType.bz_eUnknownSlashCommand, bz_eEventType.bz_eGetWorldEvent,
      bz_eEventType.bz_eGameEndEvent])

/-! ## The tick subscription -/

/-- Modelled from the spec: the subscription of the handler to tick events on the host, which
is not part of the sources: "an explicit armed boolean" with "a single idempotent
register/deregister call pair", so that registering twice is registering once, and tick
events reach the handler only while it is registered.  With it, the number of registrations
asked for and the number of `bz_restart()` calls so far. -/
structure TickSubscription where
  handler : MapVoteHandler
  registered : Bool
  armings : Nat
  restarts : Nat
deriving DecidableEq

/-- Modelled from the spec: the effect of one host call on the subscription. -/
def TickSubscription.apply (s : TickSubscription) : Effect → TickSubscription
  | Effect.registerEvent => { s with registered := true, armings := s.armings + 1 }
  | Effect.removeEvent => { s with registered := false }
  | Effect.restart => { s with restarts := s.restarts + 1 }
  | _ => s

/-- Modelled from the spec: the host hands an event to `process`, but a tick event only
while the handler is registered for tick events, and then carries out the host calls. -/
def TickSubscription.deliver (api : Api) (host : Host) (s : TickSubscription)
    (event : bz_EventData) : Option TickSubscription :=
  match event, s.registered with
  | bz_EventData.tick _, false => some s
  | _, _ =>
    match process api host s.handler event with
    | none => none
    | some (h1, effects) =>
      some (effects.foldl TickSubscription.apply { s with handler := h1 })

/-- Modelled from the spec: a sequence of events delivered by the host. -/
def TickSubscription.run (api : Api) :
    TickSubscription → List (Host × bz_EventData) → Option TickSubscription
  | s, [] => some s
  | s, (host, event) :: rest =>
    match TickSubscription.deliver api host s event with
    | none => none
    | some s1 => TickSubscription.run api s1 rest

/-- The host calls of `restartTimeReached` are not among `effects`. -/
def NoRestart (effects : List Effect) : Prop :=
  Effect.removeEvent ∉ effects ∧ Effect.restart ∉ effects

/-! ## Commands with arguments -/

/-- The text of a command after its keyword when it lists `names`: every name preceded by
one space. -/
def argumentList : List CppString → CppString
  | [] => []
  | name :: rest => ' ' :: name ++ argumentList rest

/-- The listed names that are maps of the list, in the order they are listed. -/
def validNames (mapList : StdMap CppString) (names : List CppString) : List CppString :=
  names.filter (fun n => (StdMap.find mapList n).isSome)

/-! ## Properties of a tally -/

/-- The counts of a tally are non-negative. -/
def NonNegative (t : StdMap Int) : Prop :=
  ∀ e ∈ t, 0 ≤ e.2

/-- The maps of a tally whose count is `m`, in the order of the tally. -/
def tiedAt (t : StdMap Int) (m : Int) : List CppString :=
  (t.filter (fun e => decide (e.2 = m))).map Prod.fst

/-- The closed-session invariant: a closed poll has no tally and no voters. -/
def ClosedEmpty (h : MapVoteHandler) : Prop :=
  h.votingOpen = false → h.voteTally = [] ∧ h.playersVoted = ∅

/-- A tally that holds exactly the maps of `names`, each with no vote. -/
def FreshTally (names : List CppString) (t : StdMap Int) : Prop :=
  StdMap.WF t ∧ (∀ k, k ∈ StdMap.keys t ↔ k ∈ names) ∧ ∀ e ∈ t, e.2 = 0

/-- The number of votes in a tally. -/
def tallySum (t : StdMap Int) : Int :=
  (t.map Prod.snd).sum

/-- A tally as `startMapVote` builds it from the map list: well formed, on maps of the list,
with no vote. -/
def Blank (mapList : StdMap CppString) (t : StdMap Int) : Prop :=
  StdMap.WF t ∧ (∀ k ∈ StdMap.keys t, k ∈ StdMap.keys mapList) ∧ ∀ e ∈ t, e.2 = 0

/-- The invariant of the handler started with `mapList`: the map list is still `mapList`, a
closed poll is empty, the tally is a well-formed map on maps of the list with non-negative
counts, and it holds one vote for each player who voted. -/
def Consistent (mapList : StdMap CppString) (h : MapVoteHandler) : Prop :=
  h.mapList = mapList ∧ ClosedEmpty h ∧ StdMap.WF h.voteTally ∧
  (∀ k ∈ StdMap.keys h.voteTally, k ∈ StdMap.keys mapList) ∧
  NonNegative h.voteTally ∧ tallySum h.voteTally = (h.playersVoted.card : Int)

instance (t : StdMap Int) : Decidable (NonNegative t) := by
  unfold NonNegative
  infer_instance

instance {V : Type} (m : StdMap V) : Decidable (StdMap.WF m) := by
  unfold StdMap.WF
  infer_instance

/-! ## Sample values -/

/-- The values of the constants in the host header. -/
def Sample.api : Api :=
  { BZ_SERVER := -2, BZ_ALLUSERS := -1, eObservers := 7 }

/-- A host with `numPlayers` connected players, none of them on the observer team but for
player 9; player 0 is an administrator; the time is 100. -/
def Sample.host (numPlayers random : Nat) : Host :=
  { admin := (fun p => decide (p = 0)),
    op := (fun _ => false),
    team := (fun p => if p = 9 then 7 else 1),
    callsign := (fun _ => "player".toList),
    playerIndexListSize := numPlayers,
    teamCount := (fun _ => 0),
    currentTime := 100,
    random := random }

/-- A list of three maps. -/
def Sample.maps : StdMap CppString :=
  [("A".toList, "/m/A.bzw".toList), ("B".toList, "/m/B.bzw".toList),
   ("C".toList, "/m/C.bzw".toList)]

/-- An administrator opens a poll on two maps and three of four players vote for `A`. -/
def Sample.pollWonByA : List (Host × bz_EventData) :=
  [(Sample.host 4 0, .unknownSlashCommand 0 "/startmapvote B A".toList),
   (Sample.host 4 0, .unknownSlashCommand 1 "/votemap A".toList),
   (Sample.host 4 0, .unknownSlashCommand 2 "/votemap A".toList),
   (Sample.host 4 0, .unknownSlashCommand 3 "/votemap A".toList)]

/-- A handler with an open poll on the maps `A` and `B` with the given counts and voters. -/
def Sample.poll (a b : Int) (voters : Finset Int) : MapVoteHandler :=
  { MapVoteHandler.init Sample.maps with
    votingOpen := true
    voteTally := [("A".toList, a), ("B".toList, b)]
    playersVoted := voters }

/-- The tally `{A:3, B:5, C:5}`. -/
def Sample.tally355 : StdMap Int :=
  [("A".toList, 3), ("B".toList, 5), ("C".toList, 5)]

/-- The tally `{A:0, B:0}`. -/
def Sample.tally00 : StdMap Int :=
  [("A".toList, 0), ("B".toList, 0)]

/-- The handler after `Sample.pollWonByA`: the map `A` is to be loaded at time 105. -/
def Sample.armed : MapVoteHandler :=
  { MapVoteHandler.init Sample.maps with nextMap := "/m/A.bzw".toList, restartTime := 105 }

/-- The host of `Sample.host 4 0` at another time. -/
def Sample.hostAt (time : Int) : Host :=
  { Sample.host 4 0 with currentTime := time }

/-- The handler of `Sample.armed` after the map was loaded and a game ended: a poll on all
maps is open. -/
def Sample.pollAfterRestart : MapVoteHandler :=
  { MapVoteHandler.init Sample.maps with
    votingOpen := true
    voteTally := [("A".toList, 0), ("B".toList, 0), ("C".toList, 0)]
    restartTime := 105 }

/-- The subscription after an administrator has changed the map twice, to `C` and then to
`B`: the handler has registered twice and no tick event has come yet. -/
def Sample.armedTwice : TickSubscription :=
  { handler :=
      { MapVoteHandler.init Sample.maps with nextMap := "/m/B.bzw".toList, restartTime := 105 }
    registered := true
    armings := 2
    restarts := 0 }


/-! ## Invariants of reachable states -/

/-- A property that holds initially and is kept by every handled event holds after every
sequence of events. -/
theorem run_induction (api : Api) (P : MapVoteHandler → Prop)
    (hstep : ∀ host h event h1 effects, P h → process api host h event = some (h1, effects) → P h1) :
    ∀ (events : List (Host × bz_EventData)) (h h1 : MapVoteHandler),
      P h → run api h events = some h1 → P h1 := by
  intro events
  induction events with
  | nil =>
    intro h h1 hP hrun
    simp only [run, Option.some.injEq] at hrun
    exact hrun ▸ hP
  | cons e rest ih =>
    intro h h1 hP hrun
    obtain ⟨host, event⟩ := e
    simp only [run] at hrun
    cases hp : process api host h event with
    | none => simp [hp] at hrun
    | some r =>
      obtain ⟨h2, effects⟩ := r
      simp only [hp] at hrun
      exact ih h2 h1 (hstep host h event h2 effects hP hp) hrun

theorem resetVoting_closedEmpty (h : MapVoteHandler) : ClosedEmpty (resetVoting h) := by
  intro _
  simp [resetVoting]

theorem startMapVote_closedEmpty (api : Api) (host : Host) (h h1 : MapVoteHandler)
    (command : CppString) (requestor : Int) (effects : List Effect) (hP : ClosedEmpty h)
    (hs : startMapVote api host h command requestor = some (h1, effects)) : ClosedEmpty h1 := by
  unfold startMapVote at hs
  split at hs
  · simp only [Option.some.injEq, Prod.mk.injEq] at hs
    exact hs.1 ▸ hP
  · split at hs
    · simp only [Option.some.injEq, Prod.mk.injEq] at hs
      exact hs.1 ▸ hP
    · dsimp only at hs
      split at hs
      · simp only [Option.some.injEq, Prod.mk.injEq] at hs
        intro hc
        rw [← hs.1] at hc
        simp at hc
      · split at hs
        · simp at hs
        · split at hs
          · simp only [Option.some.injEq, Prod.mk.injEq] at hs
            intro hc
            rw [← hs.1] at hc
            simp at hc
          · simp only [Option.some.injEq, Prod.mk.injEq] at hs
            rw [← hs.1]
            exact resetVoting_closedEmpty _

theorem endMapVote_closedEmpty (api : Api) (host : Host) (h h1 : MapVoteHandler)
    (requestor : Int) (effects : List Effect) (hP : ClosedEmpty h)
    (hs : endMapVote api host h requestor = some (h1, effects)) : ClosedEmpty h1 := by
  unfold endMapVote at hs
  split at hs
  · simp only [Option.some.injEq, Prod.mk.injEq] at hs
    exact hs.1 ▸ hP
  · split at hs
    · simp only [Option.some.injEq, Prod.mk.injEq] at hs
      exact hs.1 ▸ hP
    · split at hs
      · simp at hs
      · simp only [Option.some.injEq, Prod.mk.injEq] at hs
        rw [← hs.1]
        intro _
        simp [resetVoting]

theorem cancelMapVote_closedEmpty (api : Api) (host : Host) (h : MapVoteHandler)
    (requestor : Int) (hP : ClosedEmpty h) :
    ClosedEmpty (cancelMapVote api host h requestor).1 := by
  unfold cancelMapVote
  split
  · exact hP
  · split
    · exact hP
    · exact resetVoting_closedEmpty _

theorem changeMap_closedEmpty (api : Api) (host : Host) (h : MapVoteHandler)
    (command : CppString) (requestor : Int) (hP : ClosedEmpty h) :
    ClosedEmpty (changeMap api host h command requestor).1 := by
  unfold changeMap
  split
  · exact hP
  · split
    · exact hP
    · dsimp only
      split
      · exact hP
      · intro _
        simp [resetVoting]

theorem voteMap_closedEmpty (api : Api) (host : Host) (h h1 : MapVoteHandler)
    (command : CppString) (voterID : Int) (effects : List Effect) (hP : ClosedEmpty h)
    (hs : voteMap api host h command voterID = some (h1, effects)) : ClosedEmpty h1 := by
  unfold voteMap at hs
  split at hs
  · simp only [Option.some.injEq, Prod.mk.injEq] at hs
    exact hs.1 ▸ hP
  · rename_i hobs
    split at hs
    · simp only [Option.some.injEq, Prod.mk.injEq] at hs
      exact hs.1 ▸ hP
    · rename_i hopen
      split at hs
      · simp only [Option.some.injEq, Prod.mk.injEq] at hs
        exact hs.1 ▸ hP
      · split at hs
        · simp only [Option.some.injEq, Prod.mk.injEq] at hs
          exact hs.1 ▸ hP
        · dsimp only at hs
          split at hs
          · simp only [Option.some.injEq, Prod.mk.injEq] at hs
            exact hs.1 ▸ hP
          · split at hs
            · split at hs
              · simp at hs
              · rename_i h2 effects2 hend
                simp only [Option.some.injEq, Prod.mk.injEq] at hs
                rw [← hs.1]
                refine endMapVote_closedEmpty api host _ h2 api.BZ_SERVER effects2 ?_ hend
                intro hc
                simp [verifyVotingOpen] at hopen
                simp [hopen] at hc
            · simp only [Option.some.injEq, Prod.mk.injEq] at hs
              intro hc
              rw [← hs.1] at hc
              simp [verifyVotingOpen] at hopen
              simp [hopen] at hc

theorem process_closedEmpty (api : Api) (host : Host) (h : MapVoteHandler)
    (event : bz_EventData) (h1 : MapVoteHandler) (effects : List Effect) (hP : ClosedEmpty h)
    (hs : process api host h event = some (h1, effects)) : ClosedEmpty h1 := by
  cases event with
  | unknownSlashCommand sender message =>
    simp only [process, handleCommand] at hs
    split at hs
    · simp only [Option.map_eq_some'] at hs
      obtain ⟨r, hr, hr2⟩ := hs
      simp only [Prod.mk.injEq] at hr2
      exact hr2.1 ▸ voteMap_closedEmpty api host h r.1 message sender r.2 hP hr
    · split at hs
      · simp only [Option.some.injEq, Prod.mk.injEq] at hs
        exact hs.1 ▸ hP
      · split at hs
        · simp only [Option.some.injEq, Prod.mk.injEq] at hs
          exact hs.1 ▸ hP
        · split at hs
          · simp only [Option.map_eq_some'] at hs
            obtain ⟨r, hr, hr2⟩ := hs
            simp only [Prod.mk.injEq] at hr2
            exact hr2.1 ▸ startMapVote_closedEmpty api host h r.1 message sender r.2 hP hr
          · split at hs
            · simp only [Option.map_eq_some'] at hs
              obtain ⟨r, hr, hr2⟩ := hs
              simp only [Prod.mk.injEq] at hr2
              exact hr2.1 ▸ endMapVote_closedEmpty api host h r.1 sender r.2 hP hr
            · split at hs
              · simp only [Option.some.injEq, Prod.mk.injEq] at hs
                exact hs.1 ▸ cancelMapVote_closedEmpty api host h sender hP
              · split at hs
                · simp only [Option.some.injEq, Prod.mk.injEq] at hs
                  exact hs.1 ▸ changeMap_closedEmpty api host h message sender hP
                · simp only [Option.some.injEq, Prod.mk.injEq] at hs
                  exact hs.1 ▸ hP
  | getWorld =>
    simp only [process, loadMap, Option.some.injEq, Prod.mk.injEq] at hs
    rw [← hs.1]
    exact hP
  | gameEnd =>
    exact startMapVote_closedEmpty api host h h1 [] api.BZ_SERVER effects hP hs
  | tick time =>
    simp only [process, Option.some.injEq, Prod.mk.injEq] at hs
    exact hs.1 ▸ hP
  | other =>
    simp only [process, Option.some.injEq, Prod.mk.injEq] at hs
    exact hs.1 ▸ hP

theorem reachable_closedEmpty (api : Api) (mapList : StdMap CppString)
    (h : MapVoteHandler) (hr : Reachable api mapList h) : ClosedEmpty h := by
  obtain ⟨events, hrun⟩ := hr
  refine run_induction api ClosedEmpty ?_ events (MapVoteHandler.init mapList) h ?_ hrun
  · intro host h0 event h1 effects hP hs
    exact process_closedEmpty api host h0 event h1 effects hP hs
  · intro _
    simp [MapVoteHandler.init]

/-! ## The closed-session invariant -/

/-- C1: in every state reachable from the initial handler by any sequence of events, with
any list of maps and any answers of the host, a closed poll has an empty tally and an empty
set of players who voted. -/
theorem closed_session_has_no_votes (api : Api) (mapList : StdMap CppString)
    (h : MapVoteHandler) (hr : Reachable api mapList h) (hc : h.votingOpen = false) :
    h.voteTally = [] ∧ h.playersVoted = ∅ :=
  reachable_closedEmpty api mapList h hr hc

theorem closed_session_has_no_votes_witness :
    Reachable Sample.api Sample.maps
        { MapVoteHandler.init Sample.maps with
          nextMap := "/m/A.bzw".toList, restartTime := 105 } ∧
      ({ MapVoteHandler.init Sample.maps with
          nextMap := "/m/A.bzw".toList, restartTime := 105 } : MapVoteHandler).votingOpen
        = false ∧
      (({ MapVoteHandler.init Sample.maps with
          nextMap := "/m/A.bzw".toList, restartTime := 105 } : MapVoteHandler).voteTally
        = [] ∧
       ({ MapVoteHandler.init Sample.maps with
          nextMap := "/m/A.bzw".toList, restartTime := 105 } : MapVoteHandler).playersVoted
        = ∅) :=
  ⟨⟨Sample.pollWonByA, by decide⟩, by decide,
    closed_session_has_no_votes Sample.api Sample.maps _ ⟨Sample.pollWonByA, by decide⟩
      (by decide)⟩

/-- C2: the poll on all maps opens whatever the number of maps.  With a list of one map, a
game end (`startMapVote("", BZ_SERVER)`) opens a poll whose tally has that one map; with an
empty list it opens a poll with an empty tally, and `/endmapvote` from an administrator then
takes a remainder by zero. -/
theorem all_maps_poll_opens_below_two_maps :
    (gameEnded Sample.api (Sample.host 4 0)
        (MapVoteHandler.init [("A".toList, "/m/A.bzw".toList)])).map
          (fun r => (r.1.votingOpen, r.1.voteTally)) = some (true, [("A".toList, 0)]) ∧
    (gameEnded Sample.api (Sample.host 4 0) (MapVoteHandler.init [])).map
          (fun r => (r.1.votingOpen, r.1.voteTally)) = some (true, []) ∧
    run Sample.api (MapVoteHandler.init [])
        [(Sample.host 4 0, .gameEnd),
         (Sample.host 4 0, .unknownSlashCommand 0 "/endmapvote".toList)] = none := by
  decide

/-! ## The tally loop -/

/-- The tally loop from any values of `maxVotes` and `topMaps`: the final `maxVotes` bounds
the initial one and every count, and the final `topMaps` is the initial one, if `maxVotes`
did not change, followed by the keys of the entries whose count is the final `maxVotes`. -/
theorem foldl_tallyStep (t : StdMap Int) :
    ∀ (mx : Int) (tops : List CppString),
      mx ≤ (t.foldl tallyStep (mx, tops)).1 ∧
      (∀ e ∈ t, e.2 ≤ (t.foldl tallyStep (mx, tops)).1) ∧
      (t.foldl tallyStep (mx, tops)).2 =
        (if (t.foldl tallyStep (mx, tops)).1 = mx then tops else []) ++
          (t.filter (fun e => decide (e.2 = (t.foldl tallyStep (mx, tops)).1))).map
            Prod.fst ∧
      ((t.foldl tallyStep (mx, tops)).1 = mx ∨
        ∃ e ∈ t, e.2 = (t.foldl tallyStep (mx, tops)).1) := by
  induction t with
  | nil => intro mx tops; simp
  | cons e t ih =>
    intro mx tops
    simp only [List.foldl_cons]
    by_cases h1 : e.2 > mx
    · have hstep : tallyStep (mx, tops) e = (e.2, [e.1]) := by simp [tallyStep, h1]
      simp only [hstep]
      obtain ⟨ha, hb, hc, hd⟩ := ih e.2 [e.1]
      refine ⟨by omega, ?_, ?_, ?_⟩
      · intro x hx
        rcases List.mem_cons.1 hx with rfl | hx
        · exact ha
        · exact hb x hx
      · rw [hc]
        have hne : ¬ (List.foldl tallyStep (e.2, [e.1]) t).1 = mx := by omega
        simp only [hne, if_false, List.nil_append, List.filter_cons]
        by_cases h2 : (List.foldl tallyStep (e.2, [e.1]) t).1 = e.2
        · simp [h2]
        · have h3 : ¬ e.2 = (List.foldl tallyStep (e.2, [e.1]) t).1 := fun h => h2 h.symm
          simp [h2, h3]
      · rcases hd with hd | ⟨x, hx, hxe⟩
        · exact Or.inr ⟨e, List.mem_cons_self _ _, hd.symm⟩
        · exact Or.inr ⟨x, List.mem_cons_of_mem _ hx, hxe⟩
    · by_cases h2 : e.2 = mx
      · have hstep : tallyStep (mx, tops) e = (mx, tops ++ [e.1]) := by
          simp [tallyStep, h2]
        simp only [hstep]
        obtain ⟨ha, hb, hc, hd⟩ := ih mx (tops ++ [e.1])
        refine ⟨ha, ?_, ?_, ?_⟩
        · intro x hx
          rcases List.mem_cons.1 hx with rfl | hx
          · omega
          · exact hb x hx
        · rw [hc]
          simp only [List.filter_cons]
          by_cases h3 : (List.foldl tallyStep (mx, tops ++ [e.1]) t).1 = mx
          · simp [h3, h2]
          · have h4 : ¬ e.2 = (List.foldl tallyStep (mx, tops ++ [e.1]) t).1 :=
              fun h => h3 (h ▸ h2)
            simp [h3, h4]
        · rcases hd with hd | ⟨x, hx, hxe⟩
          · exact Or.inl hd
          · exact Or.inr ⟨x, List.mem_cons_of_mem _ hx, hxe⟩
      · have hstep : tallyStep (mx, tops) e = (mx, tops) := by
          simp [tallyStep, h1, h2]
        simp only [hstep]
        obtain ⟨ha, hb, hc, hd⟩ := ih mx tops
        refine ⟨ha, ?_, ?_, ?_⟩
        · intro x hx
          rcases List.mem_cons.1 hx with rfl | hx
          · omega
          · exact hb x hx
        · rw [hc]
          have h4 : ¬ e.2 = (List.foldl tallyStep (mx, tops) t).1 := by omega
          simp [List.filter_cons, h4]
        · rcases hd with hd | ⟨x, hx, hxe⟩
          · exact Or.inl hd
          · exact Or.inr ⟨x, List.mem_cons_of_mem _ hx, hxe⟩

/-- On a non-empty tally with non-negative counts, `maxVotes` ends as the greatest count and
`topMaps` as the keys, in iteration order, of the entries that have it. -/
theorem tallyVotes_spec (t : StdMap Int) (hne : t ≠ []) (hnn : NonNegative t) :
    (∀ e ∈ t, e.2 ≤ (tallyVotes t).1) ∧
    (∃ e ∈ t, e.2 = (tallyVotes t).1) ∧
    (tallyVotes t).2 = tiedAt t (tallyVotes t).1 ∧
    0 < (tallyVotes t).2.length := by
  obtain ⟨_, hb, hc, hd⟩ := foldl_tallyStep t (-1) []
  obtain ⟨e0, he0⟩ := List.exists_mem_of_ne_nil t hne
  have hpos : 0 ≤ (tallyVotes t).1 := le_trans (hnn e0 he0) (hb e0 he0)
  have hne1 : ¬ (List.foldl tallyStep (-1, []) t).1 = -1 := by
    simp only [tallyVotes] at hpos
    omega
  have hex : ∃ e ∈ t, e.2 = (tallyVotes t).1 := by
    rcases hd with hd | hd
    · exact absurd hd hne1
    · exact hd
  have hc2 : (tallyVotes t).2 = tiedAt t (tallyVotes t).1 := by
    simp only [tallyVotes, tiedAt]
    rw [hc]
    simp [hne1]
  refine ⟨hb, hex, hc2, ?_⟩
  rw [hc2]
  obtain ⟨e, he, hem⟩ := hex
  apply List.length_pos_of_mem (a := e.1)
  simp only [tiedAt, List.mem_map, List.mem_filter, decide_eq_true_eq]
  exact ⟨e, ⟨he, hem⟩, rfl⟩

theorem pickMap_eq_getElem (t : StdMap Int) (r : Nat) :
    pickMap t r = (tallyVotes t).2[r % (tallyVotes t).2.length]? := rfl

/-- The keys that `tiedAt` lists are distinct when the tally is well formed. -/
theorem tiedAt_nodup (t : StdMap Int) (hwf : StdMap.WF t) (m : Int) : (tiedAt t m).Nodup := by
  have hk : (t.map Prod.fst).Nodup := List.Pairwise.imp (fun h => ne_of_lt h) hwf
  exact List.Nodup.sublist (List.Sublist.map _ (List.filter_sublist _)) hk

/-- On a non-empty tally with non-negative counts `topMaps` is not empty, so a map is
picked. -/
theorem pickMap_isSome (t : StdMap Int) (hne : t ≠ []) (hnn : NonNegative t) (random : Nat) :
    ∃ mapName, pickMap t random = some mapName := by
  obtain ⟨_, _, _, hlen⟩ := tallyVotes_spec t hne hnn
  have hlt : random % (tallyVotes t).2.length < (tallyVotes t).2.length := Nat.mod_lt _ hlen
  exact ⟨_, by rw [pickMap_eq_getElem, List.getElem?_eq_getElem hlt]⟩

/-- C5: for every non-empty tally with non-negative counts and every value of `random()`,
the tally loop of `endMapVote` yields a map: it is the key of an entry of the tally, and the
count of that entry is the greatest count in the tally. -/
theorem pickMap_has_most_votes (t : StdMap Int) (hne : t ≠ []) (hnn : NonNegative t)
    (random : Nat) :
    ∃ mapName votes, pickMap t random = some mapName ∧ (mapName, votes) ∈ t ∧
      ∀ e ∈ t, e.2 ≤ votes := by
  obtain ⟨hb, _, hc, hlen⟩ := tallyVotes_spec t hne hnn
  have hlt : random % (tallyVotes t).2.length < (tallyVotes t).2.length := Nat.mod_lt _ hlen
  have hmem : (tallyVotes t).2[random % (tallyVotes t).2.length] ∈ tiedAt t (tallyVotes t).1 := by
    rw [← hc]
    exact List.getElem_mem _
  simp only [tiedAt, List.mem_map, List.mem_filter, decide_eq_true_eq] at hmem
  obtain ⟨e, ⟨he, hem⟩, hname⟩ := hmem
  refine ⟨(tallyVotes t).2[random % (tallyVotes t).2.length], (tallyVotes t).1, ?_, ?_, hb⟩
  · rw [pickMap_eq_getElem, List.getElem?_eq_getElem hlt]
  · rw [← hname, ← hem]
    exact he

theorem pickMap_has_most_votes_witness :
    (Sample.tally355 ≠ [] ∧ NonNegative Sample.tally355 ∧
      ∃ mapName votes, pickMap Sample.tally355 6 = some mapName ∧
        (mapName, votes) ∈ Sample.tally355 ∧ ∀ e ∈ Sample.tally355, e.2 ≤ votes) ∧
    (Sample.tally00 ≠ [] ∧ NonNegative Sample.tally00 ∧
      ∃ mapName votes, pickMap Sample.tally00 3 = some mapName ∧
        (mapName, votes) ∈ Sample.tally00 ∧ ∀ e ∈ Sample.tally00, e.2 ≤ votes) ∧
    pickMap Sample.tally355 6 = some "B".toList ∧
    pickMap Sample.tally355 7 = some "C".toList ∧
    pickMap Sample.tally00 3 = some "B".toList :=
  ⟨⟨by decide, by decide,
      pickMap_has_most_votes Sample.tally355 (by decide) (by decide) 6⟩,
    ⟨by decide, by decide,
      pickMap_has_most_votes Sample.tally00 (by decide) (by decide) 3⟩,
    by decide, by decide, by decide⟩

/-- C6: for every well-formed non-empty tally with non-negative counts there is a greatest
count `m`, and with `k` the number of maps that have it, `endMapVote` picks for the value
`r` of `random()` the map at position `r % k` among them, in the order of the tally; so each
of them is picked for some value, and two values pick the same map exactly when they are
congruent modulo `k`. -/
theorem pickMap_by_residue (t : StdMap Int) (hwf : StdMap.WF t) (hne : t ≠ [])
    (hnn : NonNegative t) :
    ∃ m, (∀ e ∈ t, e.2 ≤ m) ∧ 0 < (tiedAt t m).length ∧
      (∀ r, pickMap t r = (tiedAt t m)[r % (tiedAt t m).length]?) ∧
      (∀ mapName ∈ tiedAt t m, ∃ r, r < (tiedAt t m).length ∧ pickMap t r = some mapName) ∧
      (∀ r r', pickMap t r = pickMap t r' ↔
        r % (tiedAt t m).length = r' % (tiedAt t m).length) := by
  obtain ⟨hb, _, hc, hlen⟩ := tallyVotes_spec t hne hnn
  have hpick : ∀ r, pickMap t r =
      (tiedAt t (tallyVotes t).1)[r % (tiedAt t (tallyVotes t).1).length]? := by
    intro r
    rw [pickMap_eq_getElem, hc]
  rw [hc] at hlen
  have hnd := tiedAt_nodup t hwf (tallyVotes t).1
  refine ⟨(tallyVotes t).1, hb, hlen, hpick, ?_, ?_⟩
  · intro mapName hmem
    obtain ⟨i, hi, hget⟩ := List.getElem_of_mem hmem
    refine ⟨i, hi, ?_⟩
    rw [hpick, Nat.mod_eq_of_lt hi, List.getElem?_eq_getElem hi, hget]
  · intro r r'
    have h1 : r % (tiedAt t (tallyVotes t).1).length < _ := Nat.mod_lt r hlen
    have h2 : r' % (tiedAt t (tallyVotes t).1).length < _ := Nat.mod_lt r' hlen
    rw [hpick, hpick, List.getElem?_eq_getElem h1, List.getElem?_eq_getElem h2,
      Option.some.injEq]
    exact List.Nodup.getElem_inj_iff hnd

theorem pickMap_by_residue_witness :
    StdMap.WF Sample.tally355 ∧ Sample.tally355 ≠ [] ∧ NonNegative Sample.tally355 ∧
    (∃ m, (∀ e ∈ Sample.tally355, e.2 ≤ m) ∧ 0 < (tiedAt Sample.tally355 m).length ∧
      (∀ r, pickMap Sample.tally355 r =
        (tiedAt Sample.tally355 m)[r % (tiedAt Sample.tally355 m).length]?) ∧
      (∀ mapName ∈ tiedAt Sample.tally355 m,
        ∃ r, r < (tiedAt Sample.tally355 m).length ∧
          pickMap Sample.tally355 r = some mapName) ∧
      (∀ r r', pickMap Sample.tally355 r = pickMap Sample.tally355 r' ↔
        r % (tiedAt Sample.tally355 m).length = r' % (tiedAt Sample.tally355 m).length)) ∧
    tiedAt Sample.tally355 5 = ["B".toList, "C".toList] ∧
    pickMap Sample.tally355 0 = some "B".toList ∧
    pickMap Sample.tally355 1 = some "C".toList :=
  ⟨by decide, by decide, by decide,
    pickMap_by_residue Sample.tally355 (by decide) (by decide) (by decide),
    by decide, by decide, by decide⟩

/-! ## Commands -/

/-- The first space of a command whose keyword has none is the one after the keyword. -/
theorem find_first_of_keyword (keyword rest : CppString) (hk : ' ' ∉ keyword) :
    find_first_of (keyword ++ ' ' :: rest) ' ' 0 = some keyword.length := by
  have hidx : List.indexOf ' ' (keyword ++ ' ' :: rest) = keyword.length := by
    rw [List.indexOf_append_of_not_mem hk]
    simp
  simp [find_first_of, hidx]

theorem find_first_of_none (command : CppString) (hk : ' ' ∉ command) (pos : Nat) :
    find_first_of command ' ' pos = none := by
  have hk2 : ' ' ∉ command.drop pos := fun h => hk (List.mem_of_mem_drop h)
  have : ¬ List.indexOf ' ' (command.drop pos) < (command.drop pos).length := by
    rw [List.indexOf_lt_length]
    exact hk2
  unfold find_first_of
  rw [if_neg this]

theorem substr_keyword (keyword rest : CppString) :
    substr (keyword ++ ' ' :: rest) (keyword.length + 1) = rest := by
  simp [substr]

theorem votemap_command_no_space : ' ' ∉ VOTEMAP_COMMAND := by decide

theorem changemap_command_no_space : ' ' ∉ CHANGEMAP_COMMAND := by decide

theorem startvote_command_no_space : ' ' ∉ STARTVOTE_COMMAND := by decide

/-! ## Map operations -/

theorem StdMap.find_increment_self (t : StdMap Int) (k : CppString) :
    StdMap.find (StdMap.increment t k) k = (StdMap.find t k).map (· + 1) := by
  induction t with
  | nil => simp [StdMap.increment, StdMap.find]
  | cons e t ih =>
    obtain ⟨k', v'⟩ := e
    by_cases h : k = k'
    · simp [StdMap.increment, StdMap.find, h]
    · simp [StdMap.increment, StdMap.find, h, ih]

theorem StdMap.find_increment_ne (t : StdMap Int) (k k' : CppString) (hne : k' ≠ k) :
    StdMap.find (StdMap.increment t k) k' = StdMap.find t k' := by
  induction t with
  | nil => simp [StdMap.increment, StdMap.find]
  | cons e t ih =>
    obtain ⟨k0, v0⟩ := e
    by_cases h : k = k0
    · subst h
      simp [StdMap.increment, StdMap.find, hne]
    · by_cases h2 : k' = k0
      · simp [StdMap.increment, StdMap.find, h, h2]
      · simp [StdMap.increment, StdMap.find, h, h2, ih]

theorem StdMap.keys_increment (t : StdMap Int) (k : CppString) :
    StdMap.keys (StdMap.increment t k) = StdMap.keys t := by
  induction t with
  | nil => simp [StdMap.increment]
  | cons e t ih =>
    obtain ⟨k0, v0⟩ := e
    by_cases h : k = k0
    · simp [StdMap.increment, StdMap.keys, h]
    · simp only [StdMap.keys] at ih
      simp [StdMap.increment, StdMap.keys, h, ih]

theorem StdMap.increment_ne_nil (t : StdMap Int) (k : CppString) (v : Int)
    (hf : StdMap.find t k = some v) : StdMap.increment t k ≠ [] := by
  cases t with
  | nil => simp [StdMap.find] at hf
  | cons e t =>
    obtain ⟨k0, v0⟩ := e
    by_cases h : k = k0 <;> simp [StdMap.increment, h]

theorem nonNegative_increment (t : StdMap Int) (k : CppString) (hnn : NonNegative t) :
    NonNegative (StdMap.increment t k) := by
  induction t with
  | nil => simpa [StdMap.increment] using hnn
  | cons e t ih =>
    obtain ⟨k0, v0⟩ := e
    have h0 : 0 ≤ v0 := hnn (k0, v0) (List.mem_cons_self _ _)
    have ht : NonNegative t := fun x hx => hnn x (List.mem_cons_of_mem _ hx)
    by_cases h : k = k0
    · simp only [StdMap.increment, h, if_true]
      intro x hx
      rcases List.mem_cons.1 hx with rfl | hx
      · show 0 ≤ v0 + 1
        omega
      · exact ht x hx
    · simp only [StdMap.increment, h, if_false]
      intro x hx
      rcases List.mem_cons.1 hx with rfl | hx
      · exact h0
      · exact ih ht x hx

/-! ## Votes -/

/-- The call `endMapVote(BZ_SERVER)` skips both checks. -/
theorem endMapVote_server (api : Api) (host : Host) (h : MapVoteHandler) :
    endMapVote api host h api.BZ_SERVER =
      match pickMap h.voteTally host.random with
      | none => none
      | some mapName =>
        some (
          { resetVoting { h with
              nextMap := (StdMap.index h.mapList mapName).1,
              mapList := (StdMap.index h.mapList mapName).2 } with
            restartTime := host.currentTime + RESTART_WAIT_TIME },
          [Effect.sendTextMessagef api.BZ_SERVER api.BZ_ALLUSERS
            ("MapVote: ".toList ++ mapName ++
              " has won the map vote! Server will restart in %d seconds.".toList)
            RESTART_WAIT_TIME,
           Effect.registerEvent]) := by
  simp [endMapVote]

/-- A vote that passes every check of `voteMap` is recorded, and then either closes the
poll through `endMapVote(BZ_SERVER)` or reports the tally to the voter. -/
theorem voteMap_accepted (api : Api) (host : Host) (h : MapVoteHandler)
    (command : CppString) (voterID : Int) (index : Nat) (votes : Int)
    (hobs : host.team voterID ≠ api.eObservers) (hopen : h.votingOpen = true)
    (hnv : voterID ∉ h.playersVoted)
    (hidx : find_first_of command ' ' 0 = some index)
    (hfind : StdMap.find h.voteTally (substr command (index + 1)) = some votes) :
    voteMap api host h command voterID =
      if voteEndsPoll (insert voterID h.playersVoted).card (votes + 1)
          ((host.playerIndexListSize : Int) - host.teamCount api.eObservers) = true then
        match endMapVote api host
            { h with
              voteTally := StdMap.increment h.voteTally (substr command (index + 1)),
              playersVoted := insert voterID h.playersVoted } api.BZ_SERVER with
        | none => none
        | some (h2, effects) =>
          some (h2,
            Effect.sendTextMessage api.BZ_SERVER api.BZ_ALLUSERS
              ("MapVote: ".toList ++ getCallsign host voterID ++ " has voted for ".toList ++
                substr command (index + 1) ++ "!".toList) :: effects)
      else
        some ({ h with
                voteTally := StdMap.increment h.voteTally (substr command (index + 1)),
                playersVoted := insert voterID h.playersVoted },
          Effect.sendTextMessage api.BZ_SERVER api.BZ_ALLUSERS
              ("MapVote: ".toList ++ getCallsign host voterID ++ " has voted for ".toList ++
                substr command (index + 1) ++ "!".toList) ::
            printVotes api
              { h with
                voteTally := StdMap.increment h.voteTally (substr command (index + 1)),
                playersVoted := insert voterID h.playersVoted } voterID) := by
  unfold voteMap
  have h1 : ¬ (verifyNotObserver api host voterID).1 = false := by
    simp [verifyNotObserver, hobs]
  have h2 : ¬ (verifyVotingOpen api h voterID).1 = false := by
    simp [verifyVotingOpen, hopen]
  rw [if_neg h1, if_neg h2, if_neg hnv]
  simp only [hidx, hfind]

/-- C3, as stated, fails: with one eligible player the first vote closes the poll, so the
second vote of the same player is answered with "There is no map vote active." and the
tally is empty afterwards.  Here the only player, an administrator, has opened a poll on the
maps `A` and `B`. -/
theorem second_vote_after_closing_vote :
    run Sample.api (MapVoteHandler.init Sample.maps)
        [(Sample.host 1 0, .unknownSlashCommand 0 "/startmapvote A B".toList)] =
      some (Sample.poll 0 0 ∅) ∧
    (Sample.poll 0 0 ∅).votingOpen = true ∧
    (0 : Int) ∉ (Sample.poll 0 0 ∅).playersVoted ∧
    (Sample.host 1 0).team 0 ≠ Sample.api.eObservers ∧
    StdMap.find (Sample.poll 0 0 ∅).voteTally "A".toList = some 0 ∧
    (voteMap Sample.api (Sample.host 1 0) (Sample.poll 0 0 ∅) "/votemap A".toList 0).bind
        (fun r =>
          (voteMap Sample.api (Sample.host 1 0) r.1 "/votemap B".toList 0).map
            (fun r2 => (r.1.votingOpen, r2.2, r2.1.voteTally))) =
      some (false,
        [Effect.sendTextMessage (-2) 0 "MapVote Error: There is no map vote active.".toList],
        []) := by
  decide

/-- C3, amended: for every open poll, every player who is not an observer and has not
voted, every map of the tally and every number of eligible players for which the vote does
not close the poll, `/votemap mapName` followed by any second vote command of the same player
leaves the second one rejected with "You may only vote once!", and the tally after the two
calls is the old tally with the count of `mapName` increased by one. -/
theorem second_vote_rejected (api : Api) (host host2 : Host) (h : MapVoteHandler)
    (mapName command2 : CppString) (voterID votes : Int)
    (hopen : h.votingOpen = true)
    (hobs : host.team voterID ≠ api.eObservers)
    (hobs2 : host2.team voterID ≠ api.eObservers)
    (hnv : voterID ∉ h.playersVoted)
    (hfind : StdMap.find h.voteTally mapName = some votes)
    (hstay : ¬ (((insert voterID h.playersVoted).card : Int) =
          (host.playerIndexListSize : Int) - host.teamCount api.eObservers ∨
        votes + 1 > Int.tdiv ((host.playerIndexListSize : Int) - host.teamCount api.eObservers) 2)) :
    ∃ h1 effects,
      voteMap api host h (VOTEMAP_COMMAND ++ ' ' :: mapName) voterID = some (h1, effects) ∧
      voteMap api host2 h1 command2 voterID =
        some (h1, [Effect.sendTextMessage api.BZ_SERVER voterID
                    "MapVote Error: You may only vote once!".toList]) ∧
      h1.voteTally = StdMap.increment h.voteTally mapName ∧
      StdMap.find h1.voteTally mapName = some (votes + 1) ∧
      (∀ other, other ≠ mapName → StdMap.find h1.voteTally other = StdMap.find h.voteTally other) ∧
      StdMap.keys h1.voteTally = StdMap.keys h.voteTally := by
  have hidx := find_first_of_keyword VOTEMAP_COMMAND mapName votemap_command_no_space
  have hsub := substr_keyword VOTEMAP_COMMAND mapName
  have hfind2 : StdMap.find h.voteTally
      (substr (VOTEMAP_COMMAND ++ ' ' :: mapName) (VOTEMAP_COMMAND.length + 1)) = some votes := by
    rw [hsub]; exact hfind
  have hv := voteMap_accepted api host h _ voterID _ votes hobs hopen hnv hidx hfind2
  have hc : ¬ voteEndsPoll (insert voterID h.playersVoted).card (votes + 1)
      ((host.playerIndexListSize : Int) - host.teamCount api.eObservers) = true := by
    simpa [voteEndsPoll] using hstay
  rw [if_neg hc, hsub] at hv
  refine ⟨_, _, hv, ?_, rfl, ?_, ?_, ?_⟩
  · have h1 : ¬ (verifyNotObserver api host2 voterID).1 = false := by
      simp [verifyNotObserver, hobs2]
    unfold voteMap
    rw [if_neg h1]
    simp [verifyVotingOpen, hopen]
  · simp [StdMap.find_increment_self, hfind]
  · intro other hne
    exact StdMap.find_increment_ne _ _ _ hne
  · exact StdMap.keys_increment _ _

theorem second_vote_rejected_witness :
    (Sample.poll 1 0 {1}).votingOpen = true ∧
    (Sample.host 4 0).team 2 ≠ Sample.api.eObservers ∧
    (Sample.host 5 3).team 2 ≠ Sample.api.eObservers ∧
    (2 : Int) ∉ (Sample.poll 1 0 {1}).playersVoted ∧
    StdMap.find (Sample.poll 1 0 {1}).voteTally "A".toList = some 1 ∧
    ¬ (((insert (2 : Int) (Sample.poll 1 0 {1}).playersVoted).card : Int) =
          ((Sample.host 4 0).playerIndexListSize : Int) -
            (Sample.host 4 0).teamCount Sample.api.eObservers ∨
        (1 : Int) + 1 > Int.tdiv (((Sample.host 4 0).playerIndexListSize : Int) -
            (Sample.host 4 0).teamCount Sample.api.eObservers) 2) ∧
    ∃ h1 effects,
      voteMap Sample.api (Sample.host 4 0) (Sample.poll 1 0 {1})
        (VOTEMAP_COMMAND ++ ' ' :: "A".toList) 2 = some (h1, effects) ∧
      voteMap Sample.api (Sample.host 5 3) h1 "/votemap B".toList 2 =
        some (h1, [Effect.sendTextMessage Sample.api.BZ_SERVER 2
                    "MapVote Error: You may only vote once!".toList]) ∧
      h1.voteTally = StdMap.increment (Sample.poll 1 0 {1}).voteTally "A".toList ∧
      StdMap.find h1.voteTally "A".toList = some (1 + 1) ∧
      (∀ other, other ≠ "A".toList →
        StdMap.find h1.voteTally other = StdMap.find (Sample.poll 1 0 {1}).voteTally other) ∧
      StdMap.keys h1.voteTally = StdMap.keys (Sample.poll 1 0 {1}).voteTally :=
  ⟨by decide, by decide, by decide, by decide, by decide, by decide,
    second_vote_rejected Sample.api (Sample.host 4 0) (Sample.host 5 3) (Sample.poll 1 0 {1})
      "A".toList "/votemap B".toList 2 1 (by decide) (by decide) (by decide) (by decide)
      (by decide) (by decide)⟩

/-- C4: for every open poll with non-negative counts and every accepted vote, with `n` the
number of players minus the number of observers: the vote closes the poll if and only if,
after it is recorded, the number of players who voted is `n` or the count of the map voted
for is greater than `n / 2` (truncating division).  When it closes the poll the winner is
resolved on the tally with the vote in it, `nextMap` and `restartTime` are set and the
handler registers for tick events; otherwise the vote is recorded and nothing else
changes. -/
theorem vote_closes_poll_iff (api : Api) (host : Host) (h : MapVoteHandler)
    (mapName : CppString) (voterID votes : Int)
    (hopen : h.votingOpen = true) (hnn : NonNegative h.voteTally)
    (hobs : host.team voterID ≠ api.eObservers)
    (hnv : voterID ∉ h.playersVoted)
    (hfind : StdMap.find h.voteTally mapName = some votes) :
    ∃ h1 effects,
      voteMap api host h (VOTEMAP_COMMAND ++ ' ' :: mapName) voterID = some (h1, effects) ∧
      (h1.votingOpen = false ↔
        (((insert voterID h.playersVoted).card : Int) =
            (host.playerIndexListSize : Int) - host.teamCount api.eObservers ∨
          votes + 1 >
            Int.tdiv ((host.playerIndexListSize : Int) - host.teamCount api.eObservers) 2)) ∧
      (h1.votingOpen = false →
        h1.voteTally = [] ∧ h1.playersVoted = ∅ ∧
        h1.restartTime = host.currentTime + RESTART_WAIT_TIME ∧
        Effect.registerEvent ∈ effects ∧
        ∃ winner, pickMap (StdMap.increment h.voteTally mapName) host.random = some winner ∧
          h1.nextMap = (StdMap.index h.mapList winner).1) ∧
      (h1.votingOpen = true →
        h1 = { h with
                voteTally := StdMap.increment h.voteTally mapName,
                playersVoted := insert voterID h.playersVoted } ∧
        Effect.registerEvent ∉ effects) := by
  have hidx := find_first_of_keyword VOTEMAP_COMMAND mapName votemap_command_no_space
  have hsub := substr_keyword VOTEMAP_COMMAND mapName
  have hfind2 : StdMap.find h.voteTally
      (substr (VOTEMAP_COMMAND ++ ' ' :: mapName) (VOTEMAP_COMMAND.length + 1)) = some votes := by
    rw [hsub]; exact hfind
  have hv := voteMap_accepted api host h _ voterID _ votes hobs hopen hnv hidx hfind2
  rw [hsub] at hv
  have hcond : voteEndsPoll (insert voterID h.playersVoted).card (votes + 1)
        ((host.playerIndexListSize : Int) - host.teamCount api.eObservers) = true ↔
      (((insert voterID h.playersVoted).card : Int) =
            (host.playerIndexListSize : Int) - host.teamCount api.eObservers ∨
          votes + 1 >
            Int.tdiv ((host.playerIndexListSize : Int) - host.teamCount api.eObservers) 2) := by
    simp [voteEndsPoll]
  by_cases hc : voteEndsPoll (insert voterID h.playersVoted).card (votes + 1)
      ((host.playerIndexListSize : Int) - host.teamCount api.eObservers) = true
  · rw [if_pos hc, endMapVote_server] at hv
    obtain ⟨winner, hpick⟩ :=
      pickMap_isSome (StdMap.increment h.voteTally mapName)
        (StdMap.increment_ne_nil _ _ _ hfind) (nonNegative_increment _ _ hnn) host.random
    simp only [hpick] at hv
    refine ⟨_, _, hv, ?_, ?_, ?_⟩
    · simp only [resetVoting, true_iff]
      exact hcond.1 hc
    · intro _
      refine ⟨rfl, rfl, rfl, by simp, winner, hpick, rfl⟩
    · intro hopen1
      simp [resetVoting] at hopen1
  · rw [if_neg hc] at hv
    refine ⟨_, _, hv, ?_, ?_, ?_⟩
    · simp only [hopen, Bool.true_eq_false, false_iff]
      exact fun hcnd => hc (hcond.2 hcnd)
    · intro hcl
      simp [hopen] at hcl
    · intro _
      refine ⟨rfl, ?_⟩
      simp [printVotes, verifyVotingOpen, hopen]

theorem vote_closes_poll_iff_witness :
    ((Sample.poll 2 0 {1, 2}).votingOpen = true ∧
      NonNegative (Sample.poll 2 0 {1, 2}).voteTally ∧
      (Sample.host 4 0).team 3 ≠ Sample.api.eObservers ∧
      (3 : Int) ∉ (Sample.poll 2 0 {1, 2}).playersVoted ∧
      StdMap.find (Sample.poll 2 0 {1, 2}).voteTally "A".toList = some 2 ∧
      ∃ h1 effects,
        voteMap Sample.api (Sample.host 4 0) (Sample.poll 2 0 {1, 2})
          (VOTEMAP_COMMAND ++ ' ' :: "A".toList) 3 = some (h1, effects) ∧
        (h1.votingOpen = false ↔
          (((insert (3 : Int) (Sample.poll 2 0 {1, 2}).playersVoted).card : Int) =
              ((Sample.host 4 0).playerIndexListSize : Int) -
                (Sample.host 4 0).teamCount Sample.api.eObservers ∨
            (2 : Int) + 1 >
              Int.tdiv (((Sample.host 4 0).playerIndexListSize : Int) -
                (Sample.host 4 0).teamCount Sample.api.eObservers) 2)) ∧
        (h1.votingOpen = false →
          h1.voteTally = [] ∧ h1.playersVoted = ∅ ∧
          h1.restartTime = (Sample.host 4 0).currentTime + RESTART_WAIT_TIME ∧
          Effect.registerEvent ∈ effects ∧
          ∃ winner,
            pickMap (StdMap.increment (Sample.poll 2 0 {1, 2}).voteTally "A".toList)
              (Sample.host 4 0).random = some winner ∧
            h1.nextMap = (StdMap.index (Sample.poll 2 0 {1, 2}).mapList winner).1) ∧
        (h1.votingOpen = true →
          h1 = { Sample.poll 2 0 {1, 2} with
                  voteTally :=
                    StdMap.increment (Sample.poll 2 0 {1, 2}).voteTally "A".toList,
                  playersVoted := insert 3 (Sample.poll 2 0 {1, 2}).playersVoted } ∧
          Effect.registerEvent ∉ effects)) ∧
    (voteMap Sample.api (Sample.host 4 0) (Sample.poll 1 0 {1}) "/votemap A".toList 2).map
        (fun r => (r.1.votingOpen, r.1.voteTally, r.1.nextMap)) =
      some (true, [("A".toList, 2), ("B".toList, 0)], MAPVOTE_NOMAP) ∧
    (voteMap Sample.api (Sample.host 4 0) (Sample.poll 2 0 {1, 2}) "/votemap A".toList 3).map
        (fun r => (r.1.votingOpen, r.1.voteTally, r.1.nextMap)) =
      some (false, [], "/m/A.bzw".toList) ∧
    (voteMap Sample.api (Sample.host 4 1) (Sample.poll 2 1 {1, 2, 3})
          "/votemap B".toList 4).map
        (fun r => (r.1.votingOpen, r.1.voteTally, r.1.nextMap)) =
      some (false, [], "/m/B.bzw".toList) :=
  ⟨⟨by decide, by decide, by decide, by decide, by decide,
      vote_closes_poll_iff Sample.api (Sample.host 4 0) (Sample.poll 2 0 {1, 2}) "A".toList 3 2
        (by decide) (by decide) (by decide) (by decide) (by decide)⟩,
    by decide, by decide, by decide⟩

/-! ## The direct map change -/

/-- C7: whatever the state of the poll, in particular with a poll open, `/changemap mapName`
from an administrator or operator, for a map of the list, leaves the poll closed with an
empty tally and no voters, sets `nextMap` to the path the list gives for `mapName` and
`restartTime` to the current time plus `RESTART_WAIT_TIME`, and registers for tick events;
the tally plays no part. -/
theorem changeMap_supersedes_poll (api : Api) (host : Host) (h : MapVoteHandler)
    (mapName path : CppString) (requestor : Int)
    (hpriv : host.admin requestor = true ∨ host.op requestor = true)
    (hfind : StdMap.find h.mapList mapName = some path) :
    (changeMap api host h (CHANGEMAP_COMMAND ++ ' ' :: mapName) requestor).1 =
        { mapList := h.mapList, votingOpen := false, voteTally := [], playersVoted := ∅,
          restartTime := host.currentTime + 5, nextMap := path } ∧
      Effect.registerEvent ∈
        (changeMap api host h (CHANGEMAP_COMMAND ++ ' ' :: mapName) requestor).2 := by
  have hidx := find_first_of_keyword CHANGEMAP_COMMAND mapName changemap_command_no_space
  have hsub := substr_keyword CHANGEMAP_COMMAND mapName
  have hv : ¬ (verifyAdminOp api host requestor).1 = false := by
    rcases hpriv with hp | hp <;> simp [verifyAdminOp, hp]
  unfold changeMap
  rw [if_neg hv]
  simp only [hidx, hsub, hfind]
  simp [resetVoting, RESTART_WAIT_TIME]

theorem changeMap_supersedes_poll_witness :
    ((Sample.host 4 0).admin 0 = true ∨ (Sample.host 4 0).op 0 = true) ∧
    StdMap.find (Sample.poll 3 1 {1, 2, 3, 4}).mapList "C".toList = some "/m/C.bzw".toList ∧
    (changeMap Sample.api (Sample.host 4 0) (Sample.poll 3 1 {1, 2, 3, 4})
        (CHANGEMAP_COMMAND ++ ' ' :: "C".toList) 0).1 =
      { mapList := (Sample.poll 3 1 {1, 2, 3, 4}).mapList, votingOpen := false,
        voteTally := [], playersVoted := ∅,
        restartTime := (Sample.host 4 0).currentTime + 5, nextMap := "/m/C.bzw".toList } ∧
    Effect.registerEvent ∈
      (changeMap Sample.api (Sample.host 4 0) (Sample.poll 3 1 {1, 2, 3, 4})
        (CHANGEMAP_COMMAND ++ ' ' :: "C".toList) 0).2 :=
  ⟨by decide, by decide,
    changeMap_supersedes_poll Sample.api (Sample.host 4 0) (Sample.poll 3 1 {1, 2, 3, 4})
      "C".toList "/m/C.bzw".toList 0 (by decide) (by decide)⟩

/-! ## Denied requests -/

/-- C8: in every state, `startMapVote`, `endMapVote`, `cancelMapVote` and `changeMap` called
for a requestor other than the server who is neither administrator nor operator, and
`voteMap` called for an observer, leave the handler as it was and only send the denial to
the caller. -/
theorem denied_requests_change_nothing (api : Api) (host : Host) (h : MapVoteHandler)
    (command : CppString) (requestor voterID : Int)
    (hserver : requestor ≠ api.BZ_SERVER)
    (hadmin : host.admin requestor = false) (hop : host.op requestor = false)
    (hobs : host.team voterID = api.eObservers) :
    startMapVote api host h command requestor =
      some (h, [Effect.sendTextMessage api.BZ_SERVER requestor
        "You must be an administrator or operator to use that command.".toList]) ∧
    endMapVote api host h requestor =
      some (h, [Effect.sendTextMessage api.BZ_SERVER requestor
        "You must be an administrator or operator to use that command.".toList]) ∧
    cancelMapVote api host h requestor =
      (h, [Effect.sendTextMessage api.BZ_SERVER requestor
        "You must be an administrator or operator to use that command.".toList]) ∧
    changeMap api host h command requestor =
      (h, [Effect.sendTextMessage api.BZ_SERVER requestor
        "You must be an administrator or operator to use that command.".toList]) ∧
    voteMap api host h command voterID =
      some (h, [Effect.sendTextMessage api.BZ_SERVER voterID
        "MapVote Error: Sorry, observers may not vote.".toList]) := by
  have hv : (verifyAdminOp api host requestor).1 = false := by
    simp [verifyAdminOp, hadmin, hop]
  have hv2 : (verifyAdminOp api host requestor).2 =
      [Effect.sendTextMessage api.BZ_SERVER requestor
        "You must be an administrator or operator to use that command.".toList] := by
    simp [verifyAdminOp, hadmin, hop]
  have ho : (verifyNotObserver api host voterID).1 = false := by
    simp [verifyNotObserver, hobs]
  have ho2 : (verifyNotObserver api host voterID).2 =
      [Effect.sendTextMessage api.BZ_SERVER voterID
        "MapVote Error: Sorry, observers may not vote.".toList] := by
    simp [verifyNotObserver, hobs]
  refine ⟨?_, ?_, ?_, ?_, ?_⟩
  · unfold startMapVote
    rw [if_pos ⟨hserver, hv⟩, hv2]
  · unfold endMapVote
    rw [if_pos ⟨hserver, hv⟩, hv2]
  · unfold cancelMapVote
    rw [if_pos hv, hv2]
  · unfold changeMap
    rw [if_pos hv, hv2]
  · unfold voteMap
    rw [if_pos ho, ho2]

theorem denied_requests_change_nothing_witness :
    (5 : Int) ≠ Sample.api.BZ_SERVER ∧
    (Sample.host 4 0).admin 5 = false ∧ (Sample.host 4 0).op 5 = false ∧
    (Sample.host 4 0).team 9 = Sample.api.eObservers ∧
    (startMapVote Sample.api (Sample.host 4 0) (Sample.poll 2 1 {1, 2, 3})
        "/startmapvote A C".toList 5 =
      some (Sample.poll 2 1 {1, 2, 3}, [Effect.sendTextMessage Sample.api.BZ_SERVER 5
        "You must be an administrator or operator to use that command.".toList]) ∧
    endMapVote Sample.api (Sample.host 4 0) (Sample.poll 2 1 {1, 2, 3}) 5 =
      some (Sample.poll 2 1 {1, 2, 3}, [Effect.sendTextMessage Sample.api.BZ_SERVER 5
        "You must be an administrator or operator to use that command.".toList]) ∧
    cancelMapVote Sample.api (Sample.host 4 0) (Sample.poll 2 1 {1, 2, 3}) 5 =
      (Sample.poll 2 1 {1, 2, 3}, [Effect.sendTextMessage Sample.api.BZ_SERVER 5
        "You must be an administrator or operator to use that command.".toList]) ∧
    changeMap Sample.api (Sample.host 4 0) (Sample.poll 2 1 {1, 2, 3})
        "/startmapvote A C".toList 5 =
      (Sample.poll 2 1 {1, 2, 3}, [Effect.sendTextMessage Sample.api.BZ_SERVER 5
        "You must be an administrator or operator to use that command.".toList]) ∧
    voteMap Sample.api (Sample.host 4 0) (Sample.poll 2 1 {1, 2, 3})
        "/startmapvote A C".toList 9 =
      some (Sample.poll 2 1 {1, 2, 3}, [Effect.sendTextMessage Sample.api.BZ_SERVER 9
        "MapVote Error: Sorry, observers may not vote.".toList])) :=
  ⟨by decide, by decide, by decide, by decide,
    denied_requests_change_nothing Sample.api (Sample.host 4 0) (Sample.poll 2 1 {1, 2, 3})
      "/startmapvote A C".toList 5 9 (by decide) (by decide) (by decide) (by decide)⟩

/-! ## Opening a poll -/

theorem StdMap.mem_keys_assign {V : Type} (m : StdMap V) (k : CppString) (v : V)
    (k' : CppString) :
    k' ∈ StdMap.keys (StdMap.assign m k v) ↔ k' = k ∨ k' ∈ StdMap.keys m := by
  induction m with
  | nil =>
    simp only [StdMap.assign, StdMap.keys, List.map_cons, List.map_nil, List.mem_singleton,
      List.not_mem_nil, or_false]
  | cons e m ih =>
    obtain ⟨k0, v0⟩ := e
    simp only [StdMap.keys] at ih
    by_cases h1 : k < k0
    · simp only [StdMap.assign, StdMap.keys, h1, if_true, List.map_cons, List.mem_cons]
    · by_cases h2 : k = k0
      · subst h2
        simp only [StdMap.assign, StdMap.keys, h1, if_false, if_true, List.map_cons,
          List.mem_cons]
        tauto
      · simp only [StdMap.assign, h1, h2, if_false, StdMap.keys, List.map_cons,
          List.mem_cons, ih]
        tauto

theorem StdMap.mem_assign {V : Type} (m : StdMap V) (k : CppString) (v : V)
    (e : CppString × V) (he : e ∈ StdMap.assign m k v) : e = (k, v) ∨ e ∈ m := by
  induction m with
  | nil => simpa [StdMap.assign] using he
  | cons e0 m ih =>
    obtain ⟨k0, v0⟩ := e0
    by_cases h1 : k < k0
    · simp only [StdMap.assign, h1, if_true, List.mem_cons] at he
      simpa using he
    · by_cases h2 : k = k0
      · subst h2
        simp only [StdMap.assign, h1, if_false, if_true, List.mem_cons] at he
        rcases he with he | he
        · exact Or.inl he
        · exact Or.inr (List.mem_cons_of_mem _ he)
      · simp only [StdMap.assign, h1, h2, if_false, List.mem_cons] at he
        rcases he with he | he
        · exact Or.inr (he ▸ List.mem_cons_self _ _)
        · rcases ih he with h | h
          · exact Or.inl h
          · exact Or.inr (List.mem_cons_of_mem _ h)

theorem StdMap.wf_assign {V : Type} (m : StdMap V) (k : CppString) (v : V)
    (hwf : StdMap.WF m) : StdMap.WF (StdMap.assign m k v) := by
  induction m with
  | nil => simp [StdMap.assign, StdMap.WF]
  | cons e m ih =>
    obtain ⟨k0, v0⟩ := e
    simp only [StdMap.WF, List.map_cons, List.pairwise_cons] at hwf
    obtain ⟨hhead, htail⟩ := hwf
    by_cases h1 : k < k0
    · simp only [StdMap.assign, h1, if_true, StdMap.WF, List.map_cons, List.pairwise_cons]
      refine ⟨?_, hhead, htail⟩
      intro x hx
      rcases List.mem_cons.1 hx with rfl | hx
      · exact h1
      · exact lt_trans h1 (hhead x hx)
    · by_cases h2 : k = k0
      · subst h2
        simp only [StdMap.assign, h1, if_false, if_true, StdMap.WF, List.map_cons,
          List.pairwise_cons]
        exact ⟨hhead, htail⟩
      · have h3 : k0 < k := lt_of_le_of_ne (not_lt.1 h1) (fun h => h2 h.symm)
        simp only [StdMap.assign, h1, h2, if_false, StdMap.WF, List.map_cons,
          List.pairwise_cons]
        refine ⟨?_, ih htail⟩
        intro x hx
        have hx2 : x ∈ StdMap.keys (StdMap.assign m k v) := hx
        rcases (StdMap.mem_keys_assign m k v x).1 hx2 with rfl | hx3
        · exact h3
        · exact hhead x hx3

theorem StdMap.find_eq_none_iff {V : Type} (m : StdMap V) (k : CppString) :
    StdMap.find m k = none ↔ k ∉ StdMap.keys m := by
  induction m with
  | nil =>
    simp only [StdMap.find, StdMap.keys, List.map_nil, List.not_mem_nil, not_false_eq_true]
  | cons e m ih =>
    obtain ⟨k0, v0⟩ := e
    simp only [StdMap.keys] at ih
    by_cases h : k = k0
    · simp only [StdMap.find, StdMap.keys, h, if_true, List.map_cons, List.mem_cons,
        true_or, not_true_eq_false]
      simp only [reduceCtorEq]
    · simp only [StdMap.find, StdMap.keys, h, if_false, ih, List.map_cons, List.mem_cons,
        false_or]

theorem freshTally_assign (names : List CppString) (t : StdMap Int) (k : CppString)
    (h : FreshTally names t) : FreshTally (names ++ [k]) (StdMap.assign t k 0) := by
  obtain ⟨hwf, hkeys, hzero⟩ := h
  refine ⟨StdMap.wf_assign t k 0 hwf, ?_, ?_⟩
  · intro k'
    rw [StdMap.mem_keys_assign, hkeys]
    simp [or_comm]
  · intro e he
    rcases StdMap.mem_assign t k 0 e he with rfl | he
    · rfl
    · exact hzero e he

theorem freshTally_size (names : List CppString) (t : StdMap Int) (h : FreshTally names t) :
    StdMap.size t = names.toFinset.card := by
  obtain ⟨hwf, hkeys, _⟩ := h
  have hnd : (StdMap.keys t).Nodup := List.Pairwise.imp (fun h => ne_of_lt h) hwf
  have hcard : (StdMap.keys t).toFinset.card = (StdMap.keys t).length :=
    List.toFinset_card_of_nodup hnd
  have heq : (StdMap.keys t).toFinset = names.toFinset := by
    ext k
    simp [hkeys]
  rw [← heq, hcard]
  simp [StdMap.size, StdMap.keys]

/-- The poll on all maps: the tally built from an empty one. -/
theorem freshTally_allMaps (mapList : StdMap CppString) :
    ∀ (names : List CppString) (t : StdMap Int), FreshTally names t →
      FreshTally (names ++ StdMap.keys mapList)
        (mapList.foldl (fun t e => StdMap.assign t e.1 0) t) := by
  induction mapList with
  | nil => intro names t h; simpa [StdMap.keys] using h
  | cons e mapList ih =>
    intro names t h
    have := ih (names ++ [e.1]) (StdMap.assign t e.1 0) (freshTally_assign names t e.1 h)
    simpa [StdMap.keys] using this

theorem freshTally_nil : FreshTally [] [] := by
  simp [FreshTally, StdMap.WF, StdMap.keys]

/-- A requestor who is the server, an administrator or an operator passes the first check
of `startMapVote`. -/
theorem startMapVote_allowed (api : Api) (host : Host) (requestor : Int)
    (hreq : requestor = api.BZ_SERVER ∨ host.admin requestor = true ∨
      host.op requestor = true) :
    ¬ (requestor ≠ api.BZ_SERVER ∧ (verifyAdminOp api host requestor).1 = false) := by
  rintro ⟨hs, hv⟩
  rcases hreq with h | h | h
  · exact hs h
  · simp [verifyAdminOp, h] at hv
  · simp [verifyAdminOp, h] at hv

/-- Two well-formed maps with the same keys have them in the same order. -/
theorem StdMap.keys_eq_of_mem_iff {V W : Type} (m : StdMap V) (m' : StdMap W)
    (hwf : StdMap.WF m) (hwf' : StdMap.WF m')
    (hkeys : ∀ k, k ∈ StdMap.keys m ↔ k ∈ StdMap.keys m') :
    StdMap.keys m = StdMap.keys m' := by
  have hnd : (StdMap.keys m).Nodup := List.Pairwise.imp (fun h => ne_of_lt h) hwf
  have hnd' : (StdMap.keys m').Nodup := List.Pairwise.imp (fun h => ne_of_lt h) hwf'
  have hperm : List.Perm (StdMap.keys m) (StdMap.keys m') :=
    (List.perm_ext_iff_of_nodup hnd hnd').2 hkeys
  exact List.eq_of_perm_of_sorted hperm hwf hwf'

/-- Where `size_type` is as wide as `unsigned int`: for every well-formed list of at least
two maps and a closed poll (no tally, no voters), `startMapVote` with a command that lists
no map (no space in it), from the server or from an administrator or operator, opens the
poll; the keys of the tally are the names of the map list, so at least two, every count is
0, and nobody has voted. -/
theorem open_poll_with_all_maps (api : Api) (host : Host) (h : MapVoteHandler)
    (command : CppString) (requestor : Int)
    (hclosed : h.votingOpen = false) (htally : h.voteTally = [])
    (hvoted : h.playersVoted = ∅)
    (hwf : StdMap.WF h.mapList) (hsize : 2 ≤ StdMap.size h.mapList)
    (hcmd : ' ' ∉ command)
    (hreq : requestor = api.BZ_SERVER ∨ host.admin requestor = true ∨
      host.op requestor = true) :
    ∃ h1 effects,
      startMapVote api host h command requestor = some (h1, effects) ∧
      h1.votingOpen = true ∧
      StdMap.keys h1.voteTally = StdMap.keys h.mapList ∧
      2 ≤ StdMap.size h1.voteTally ∧
      (∀ e ∈ h1.voteTally, e.2 = 0) ∧
      h1.playersVoted = ∅ := by
  have hallow := startMapVote_allowed api host requestor hreq
  have hnoop : ¬ (h.votingOpen = true ∧ requestor = api.BZ_SERVER) := by
    simp [hclosed]
  have hfresh := freshTally_allMaps h.mapList [] [] freshTally_nil
  simp only [List.nil_append] at hfresh
  obtain ⟨hwft, hkeys, hzero⟩ := hfresh
  have hkeq := StdMap.keys_eq_of_mem_iff _ _ hwft hwf hkeys
  have hlen : StdMap.size
      (List.foldl (fun (t : StdMap Int) e => StdMap.assign t e.1 0) [] h.mapList) =
      StdMap.size h.mapList := by
    have := congrArg List.length hkeq
    simpa [StdMap.keys, StdMap.size] using this
  have hh : (if h.votingOpen = true then resetVoting h else h) = h := by
    simp [hclosed]
  unfold startMapVote
  rw [if_neg hallow, if_neg hnoop]
  simp only [find_first_of_none command hcmd 0, hh, htally]
  exact ⟨_, _, rfl, rfl, hkeq, le_of_le_of_eq hsize hlen.symm, hzero, hvoted⟩

theorem open_poll_with_all_maps_witness :
    (MapVoteHandler.init Sample.maps).votingOpen = false ∧
    (MapVoteHandler.init Sample.maps).voteTally = [] ∧
    (MapVoteHandler.init Sample.maps).playersVoted = ∅ ∧
    StdMap.WF (MapVoteHandler.init Sample.maps).mapList ∧
    2 ≤ StdMap.size (MapVoteHandler.init Sample.maps).mapList ∧
    ' ' ∉ STARTVOTE_COMMAND ∧
    ((0 : Int) = Sample.api.BZ_SERVER ∨ (Sample.host 4 0).admin 0 = true ∨
      (Sample.host 4 0).op 0 = true) ∧
    ∃ h1 effects,
      startMapVote Sample.api (Sample.host 4 0) (MapVoteHandler.init Sample.maps)
        STARTVOTE_COMMAND 0 = some (h1, effects) ∧
      h1.votingOpen = true ∧
      StdMap.keys h1.voteTally = StdMap.keys (MapVoteHandler.init Sample.maps).mapList ∧
      2 ≤ StdMap.size h1.voteTally ∧
      (∀ e ∈ h1.voteTally, e.2 = 0) ∧
      h1.playersVoted = ∅ :=
  ⟨by decide, by decide, by decide, by decide, by decide, by decide, by decide,
    open_poll_with_all_maps Sample.api (Sample.host 4 0) (MapVoteHandler.init Sample.maps)
      STARTVOTE_COMMAND 0 (by decide) (by decide) (by decide) (by decide) (by decide)
      (by decide) (by decide)⟩

/-! ## The loop over the listed maps -/

theorem drop_keyword (keyword rest : CppString) :
    (keyword ++ ' ' :: rest).drop (keyword.length + 1) = rest := by
  simp

/-- After the last listed name there is no further space. -/
theorem find_first_of_last (keyword name : CppString) (hn : ' ' ∉ name) :
    find_first_of (keyword ++ ' ' :: name) ' ' (keyword.length + 1) = none := by
  unfold find_first_of
  rw [drop_keyword]
  have : ¬ List.indexOf ' ' name < name.length := by
    rw [List.indexOf_lt_length]
    exact hn
  rw [if_neg this]

/-- The space after a listed name that is not the last. -/
theorem find_first_of_next (keyword name rest : CppString) (hn : ' ' ∉ name) :
    find_first_of (keyword ++ ' ' :: (name ++ ' ' :: rest)) ' ' (keyword.length + 1) =
      some (keyword.length + 1 + name.length) := by
  unfold find_first_of
  rw [drop_keyword]
  have hidx : List.indexOf ' ' (name ++ ' ' :: rest) = name.length := by
    rw [List.indexOf_append_of_not_mem hn]
    simp
  rw [hidx]
  simp

theorem startMapVoteLoop_succ (api : Api) (mapList : StdMap CppString) (command : CppString)
    (requestor : Int) (fuel index : Nat) (acc : StdMap Int × List Effect) :
    startMapVoteLoop api mapList command requestor (fuel + 1) (some index) acc =
      startMapVoteLoop api mapList command requestor fuel
        (find_first_of command ' ' (index + 1))
        (startMapVoteStep api mapList requestor acc
          (match find_first_of command ' ' (index + 1) with
            | some n => substrN command (index + 1) (n - (index + 1))
            | none => substr command (index + 1))) := by
  rfl

theorem startMapVoteLoop_none (api : Api) (mapList : StdMap CppString) (command : CppString)
    (requestor : Int) (fuel : Nat) (acc : StdMap Int × List Effect) :
    startMapVoteLoop api mapList command requestor fuel none acc = some acc := by
  cases fuel <;> rfl

/-- On a command that lists `names` after a keyword, the loop of `startMapVote` handles the
names one by one in their order. -/
theorem startMapVoteLoop_names (api : Api) (mapList : StdMap CppString) (requestor : Int) :
    ∀ (names : List CppString) (keyword : CppString) (fuel : Nat)
      (acc : StdMap Int × List Effect),
      names ≠ [] → (∀ n ∈ names, ' ' ∉ n) → names.length ≤ fuel →
      startMapVoteLoop api mapList (keyword ++ argumentList names) requestor fuel
          (some keyword.length) acc =
        some (names.foldl (startMapVoteStep api mapList requestor) acc) := by
  intro names
  induction names with
  | nil => intro _ _ _ h; exact absurd rfl h
  | cons name rest ih =>
    intro keyword fuel acc _ hnames hfuel
    have hn : ' ' ∉ name := hnames name (List.mem_cons_self _ _)
    cases fuel with
    | zero => simp at hfuel
    | succ fuel =>
      rw [startMapVoteLoop_succ]
      cases rest with
      | nil =>
        have hcmd : keyword ++ argumentList [name] = keyword ++ ' ' :: name := by
          simp [argumentList]
        rw [hcmd, find_first_of_last keyword name hn]
        simp only [substr, drop_keyword, startMapVoteLoop_none, List.foldl_cons,
          List.foldl_nil]
      | cons name2 rest2 =>
        have hcmd : keyword ++ argumentList (name :: name2 :: rest2) =
            keyword ++ ' ' :: (name ++ ' ' :: (name2 ++ argumentList rest2)) := by
          simp [argumentList]
        have hcmd2 : keyword ++ ' ' :: (name ++ ' ' :: (name2 ++ argumentList rest2)) =
            (keyword ++ ' ' :: name) ++ argumentList (name2 :: rest2) := by
          simp [argumentList]
        have hlen : keyword.length + 1 + name.length = (keyword ++ ' ' :: name).length := by
          simp only [List.length_append, List.length_cons]
          omega
        rw [hcmd, find_first_of_next keyword name _ hn]
        simp only [substrN, drop_keyword, Nat.add_sub_cancel_left, List.take_left',
          List.foldl_cons]
        rw [hcmd2, hlen]
        refine ih (keyword ++ ' ' :: name) fuel _ (by simp) ?_ ?_
        · intro n hmem
          exact hnames n (List.mem_cons_of_mem _ hmem)
        · simp only [List.length_cons] at hfuel ⊢
          omega

theorem length_le_argumentList (names : List CppString) :
    names.length ≤ (argumentList names).length := by
  induction names with
  | nil => simp [argumentList]
  | cons n rest ih =>
    simp only [argumentList, List.length_cons, List.length_append]
    omega

/-- The loop of `startMapVote` adds the listed names that are in the map list. -/
theorem freshTally_listedMaps (api : Api) (mapList : StdMap CppString) (requestor : Int) :
    ∀ (names seen : List CppString) (acc : StdMap Int × List Effect),
      FreshTally seen acc.1 →
      FreshTally (seen ++ validNames mapList names)
        (names.foldl (startMapVoteStep api mapList requestor) acc).1 := by
  intro names
  induction names with
  | nil => intro seen acc h; simpa [validNames] using h
  | cons n rest ih =>
    intro seen acc h
    simp only [List.foldl_cons]
    by_cases hf : StdMap.find mapList n = none
    · have hstep : startMapVoteStep api mapList requestor acc n =
          (acc.1, acc.2 ++ [Effect.sendTextMessage api.BZ_SERVER requestor
            ("MapVote Error: Could not find map named '".toList ++ n ++ "'".toList)]) := by
        simp [startMapVoteStep, hf]
      have hv : validNames mapList (n :: rest) = validNames mapList rest := by
        simp [validNames, List.filter_cons, hf]
      rw [hstep, hv]
      exact ih seen _ h
    · have hstep : startMapVoteStep api mapList requestor acc n =
          (StdMap.assign acc.1 n 0, acc.2) := by
        simp [startMapVoteStep, hf]
      have hsome : (StdMap.find mapList n).isSome = true := by
        cases hx : StdMap.find mapList n with
        | none => exact absurd hx hf
        | some _ => rfl
      have hv : validNames mapList (n :: rest) = n :: validNames mapList rest := by
        simp [validNames, List.filter_cons, hsome]
      rw [hstep, hv]
      have := ih (seen ++ [n]) (StdMap.assign acc.1 n 0, acc.2) (freshTally_assign seen acc.1 n h)
      simpa using this

/-- Where `size_type` is as wide as `unsigned int`: for every list of maps and every
non-empty list of names without spaces, given to `startMapVote` after the keyword, one
space before each, on a closed poll (no tally, no voters) by the server, an administrator
or an operator: with `V` the set of listed names
that are maps of the list, if `V` has at least two members the poll opens, the keys of the
tally are exactly the members of `V`, each once, and every count is 0; if `V` has fewer than
two members the poll stays closed with an empty tally and no voters. -/
theorem open_poll_with_listed_maps (api : Api) (host : Host) (h : MapVoteHandler)
    (names : List CppString) (requestor : Int)
    (hclosed : h.votingOpen = false) (htally : h.voteTally = [])
    (hvoted : h.playersVoted = ∅)
    (hne : names ≠ []) (hnames : ∀ n ∈ names, ' ' ∉ n)
    (hreq : requestor = api.BZ_SERVER ∨ host.admin requestor = true ∨
      host.op requestor = true) :
    ∃ h1 effects,
      startMapVote api host h (STARTVOTE_COMMAND ++ argumentList names) requestor =
        some (h1, effects) ∧
      (2 ≤ (validNames h.mapList names).toFinset.card →
        h1.votingOpen = true ∧
        (∀ k, k ∈ StdMap.keys h1.voteTally ↔
          k ∈ names ∧ (StdMap.find h.mapList k).isSome = true) ∧
        StdMap.WF h1.voteTally ∧
        StdMap.size h1.voteTally = (validNames h.mapList names).toFinset.card ∧
        (∀ e ∈ h1.voteTally, e.2 = 0) ∧
        h1.playersVoted = ∅) ∧
      ((validNames h.mapList names).toFinset.card < 2 →
        h1.votingOpen = false ∧ h1.voteTally = [] ∧ h1.playersVoted = ∅) := by
  have hallow := startMapVote_allowed api host requestor hreq
  have hnoop : ¬ (h.votingOpen = true ∧ requestor = api.BZ_SERVER) := by
    simp [hclosed]
  have hh : (if h.votingOpen = true then resetVoting h else h) = h := by
    simp [hclosed]
  obtain ⟨name, rest, rfl⟩ := List.exists_cons_of_ne_nil hne
  have hidx : find_first_of (STARTVOTE_COMMAND ++ argumentList (name :: rest)) ' ' 0 =
      some STARTVOTE_COMMAND.length :=
    find_first_of_keyword STARTVOTE_COMMAND (name ++ argumentList rest)
      startvote_command_no_space
  have hfuel : (name :: rest).length ≤
      (STARTVOTE_COMMAND ++ argumentList (name :: rest)).length + 1 := by
    have := length_le_argumentList (name :: rest)
    simp only [List.length_append]
    omega
  have hloop := startMapVoteLoop_names api h.mapList requestor (name :: rest)
    STARTVOTE_COMMAND _ ([], []) hne hnames hfuel
  have hfresh := freshTally_listedMaps api h.mapList requestor (name :: rest) [] ([], [])
    freshTally_nil
  simp only [List.nil_append] at hfresh
  have hsz := freshTally_size _ _ hfresh
  obtain ⟨hwf, hkeys, hzero⟩ := hfresh
  unfold startMapVote
  rw [if_neg hallow, if_neg hnoop]
  simp only [hidx, hh, htally, hloop]
  by_cases hgt : StdMap.size
      (List.foldl (startMapVoteStep api h.mapList requestor) ([], []) (name :: rest)).1 > 1
  · rw [if_pos hgt]
    refine ⟨_, _, rfl, ?_, ?_⟩
    · intro _
      refine ⟨rfl, ?_, hwf, hsz, hzero, hvoted⟩
      intro k
      rw [hkeys k]
      simp [validNames, List.mem_filter]
    · intro hlt
      rw [hsz] at hgt
      omega
  · rw [if_neg hgt]
    refine ⟨_, _, rfl, ?_, ?_⟩
    · intro hge
      rw [hsz] at hgt
      omega
    · intro _
      simp [resetVoting]

theorem open_poll_with_listed_maps_witness :
    (MapVoteHandler.init Sample.maps).votingOpen = false ∧
    (MapVoteHandler.init Sample.maps).voteTally = [] ∧
    (MapVoteHandler.init Sample.maps).playersVoted = ∅ ∧
    ["C".toList, "Z".toList, "A".toList, "C".toList] ≠ [] ∧
    (∀ n ∈ ["C".toList, "Z".toList, "A".toList, "C".toList], ' ' ∉ n) ∧
    ((0 : Int) = Sample.api.BZ_SERVER ∨ (Sample.host 4 0).admin 0 = true ∨
      (Sample.host 4 0).op 0 = true) ∧
    (∃ h1 effects,
      startMapVote Sample.api (Sample.host 4 0) (MapVoteHandler.init Sample.maps)
        (STARTVOTE_COMMAND ++
          argumentList ["C".toList, "Z".toList, "A".toList, "C".toList]) 0 =
        some (h1, effects) ∧
      (2 ≤ (validNames (MapVoteHandler.init Sample.maps).mapList
            ["C".toList, "Z".toList, "A".toList, "C".toList]).toFinset.card →
        h1.votingOpen = true ∧
        (∀ k, k ∈ StdMap.keys h1.voteTally ↔
          k ∈ ["C".toList, "Z".toList, "A".toList, "C".toList] ∧
            (StdMap.find (MapVoteHandler.init Sample.maps).mapList k).isSome = true) ∧
        StdMap.WF h1.voteTally ∧
        StdMap.size h1.voteTally =
          (validNames (MapVoteHandler.init Sample.maps).mapList
            ["C".toList, "Z".toList, "A".toList, "C".toList]).toFinset.card ∧
        (∀ e ∈ h1.voteTally, e.2 = 0) ∧
        h1.playersVoted = ∅) ∧
      ((validNames (MapVoteHandler.init Sample.maps).mapList
            ["C".toList, "Z".toList, "A".toList, "C".toList]).toFinset.card < 2 →
        h1.votingOpen = false ∧ h1.voteTally = [] ∧ h1.playersVoted = ∅)) ∧
    (startMapVote Sample.api (Sample.host 4 0) (MapVoteHandler.init Sample.maps)
        "/startmapvote C Z A C".toList 0).map (fun r => (r.1.votingOpen, r.1.voteTally)) =
      some (true, [("A".toList, 0), ("C".toList, 0)]) ∧
    (startMapVote Sample.api (Sample.host 4 0) (MapVoteHandler.init Sample.maps)
        "/startmapvote B Z B".toList 0).map (fun r => (r.1.votingOpen, r.1.voteTally)) =
      some (false, []) :=
  ⟨by decide, by decide, by decide, by decide, by decide, by decide,
    open_poll_with_listed_maps Sample.api (Sample.host 4 0) (MapVoteHandler.init Sample.maps)
      ["C".toList, "Z".toList, "A".toList, "C".toList] 0 (by decide) (by decide) (by decide)
      (by decide) (by decide) (by decide),
    by decide, by decide⟩

/-! ## The fuel of the loop -/

theorem find_first_of_lt (command : CppString) (pos index : Nat)
    (h : find_first_of command ' ' pos = some index) :
    pos ≤ index ∧ index < command.length := by
  unfold find_first_of at h
  split at h
  · rename_i hlt
    simp only [Option.some.injEq] at h
    simp only [List.length_drop] at hlt
    omega
  · simp at h

/-- Where `size_type` is as wide as `unsigned int`, the loop of `startMapVote` ends before
its fuel does when the fuel is at least the number of characters after the position it
starts from. -/
theorem startMapVoteLoop_isSome (api : Api) (mapList : StdMap CppString)
    (command : CppString) (requestor : Int) :
    ∀ (fuel index : Nat) (acc : StdMap Int × List Effect),
      index < command.length → command.length - index ≤ fuel →
      (startMapVoteLoop api mapList command requestor fuel (some index) acc).isSome = true := by
  intro fuel
  induction fuel with
  | zero => intro index acc h1 h2; omega
  | succ fuel ih =>
    intro index acc h1 h2
    rw [startMapVoteLoop_succ]
    cases hn : find_first_of command ' ' (index + 1) with
    | none => simp [startMapVoteLoop_none]
    | some next =>
      obtain ⟨hle, hlt⟩ := find_first_of_lt command (index + 1) next hn
      exact ih next _ hlt (by omega)

/-- Where `size_type` is as wide as `unsigned int`, the function `startMapVote` always
returns. -/
theorem startMapVote_isSome (api : Api) (host : Host) (h : MapVoteHandler)
    (command : CppString) (requestor : Int) :
    (startMapVote api host h command requestor).isSome = true := by
  unfold startMapVote
  split
  · rfl
  · split
    · rfl
    · dsimp only
      split
      · rfl
      · rename_i index hidx
        obtain ⟨_, hlt⟩ := find_first_of_lt command 0 index hidx
        have hsome := startMapVoteLoop_isSome api
          (if h.votingOpen = true then resetVoting h else h).mapList command requestor
          (command.length + 1) index
          ((if h.votingOpen = true then resetVoting h else h).voteTally, []) hlt (by omega)
        split
        · rename_i hnone
          rw [hnone] at hsome
          simp at hsome
        · split <;> rfl

/-! ## The automatic poll and recorded votes -/

/-- C11: while a poll is open, `startMapVote` called for the server, as `gameEnded` does at
the end of a game, returns at once: the handler (poll, tally, voters, `nextMap`,
`restartTime`, map list) is unchanged and no host call is made. -/
theorem server_open_request_leaves_open_poll (api : Api) (host : Host) (h : MapVoteHandler)
    (command : CppString) (hopen : h.votingOpen = true) :
    startMapVote api host h command api.BZ_SERVER = some (h, []) ∧
    gameEnded api host h = some (h, []) ∧
    process api host h bz_EventData.gameEnd = some (h, []) := by
  have hs : startMapVote api host h command api.BZ_SERVER = some (h, []) := by
    unfold startMapVote
    rw [if_neg (fun hc => hc.1 rfl), if_pos ⟨hopen, rfl⟩]
  have hg : gameEnded api host h = some (h, []) := by
    unfold gameEnded startMapVote
    rw [if_neg (fun hc => hc.1 rfl), if_pos ⟨hopen, rfl⟩]
  exact ⟨hs, hg, hg⟩

theorem server_open_request_leaves_open_poll_witness :
    (Sample.poll 2 1 {1, 2, 3}).votingOpen = true ∧
    (startMapVote Sample.api (Sample.host 4 0) (Sample.poll 2 1 {1, 2, 3})
        "/startmapvote A C".toList Sample.api.BZ_SERVER = some (Sample.poll 2 1 {1, 2, 3}, []) ∧
      gameEnded Sample.api (Sample.host 4 0) (Sample.poll 2 1 {1, 2, 3}) =
        some (Sample.poll 2 1 {1, 2, 3}, []) ∧
      process Sample.api (Sample.host 4 0) (Sample.poll 2 1 {1, 2, 3}) bz_EventData.gameEnd =
        some (Sample.poll 2 1 {1, 2, 3}, [])) :=
  ⟨by decide,
    server_open_request_leaves_open_poll Sample.api (Sample.host 4 0)
      (Sample.poll 2 1 {1, 2, 3}) "/startmapvote A C".toList (by decide)⟩

/-- C12: for every open poll, every player who is not an observer and has not voted, and
every map of the tally, when the vote does not close the poll: after `/votemap mapName` the
count of `mapName` is one more than before, every other count and the keys of the tally are
as before, the voter has joined the players who voted, the poll is still open, and the map
list, `nextMap` and `restartTime` are unchanged, with no registration for tick events. -/
theorem vote_recorded (api : Api) (host : Host) (h : MapVoteHandler)
    (mapName : CppString) (voterID votes : Int)
    (hopen : h.votingOpen = true)
    (hobs : host.team voterID ≠ api.eObservers)
    (hnv : voterID ∉ h.playersVoted)
    (hfind : StdMap.find h.voteTally mapName = some votes)
    (hstay : ¬ (((insert voterID h.playersVoted).card : Int) =
          (host.playerIndexListSize : Int) - host.teamCount api.eObservers ∨
        votes + 1 > Int.tdiv ((host.playerIndexListSize : Int) - host.teamCount api.eObservers) 2)) :
    ∃ h1 effects,
      voteMap api host h (VOTEMAP_COMMAND ++ ' ' :: mapName) voterID = some (h1, effects) ∧
      StdMap.find h1.voteTally mapName = some (votes + 1) ∧
      (∀ other, other ≠ mapName →
        StdMap.find h1.voteTally other = StdMap.find h.voteTally other) ∧
      StdMap.keys h1.voteTally = StdMap.keys h.voteTally ∧
      h1.playersVoted = insert voterID h.playersVoted ∧
      h1.votingOpen = true ∧
      h1.mapList = h.mapList ∧ h1.nextMap = h.nextMap ∧ h1.restartTime = h.restartTime ∧
      Effect.registerEvent ∉ effects := by
  have hidx := find_first_of_keyword VOTEMAP_COMMAND mapName votemap_command_no_space
  have hsub := substr_keyword VOTEMAP_COMMAND mapName
  have hfind2 : StdMap.find h.voteTally
      (substr (VOTEMAP_COMMAND ++ ' ' :: mapName) (VOTEMAP_COMMAND.length + 1)) = some votes := by
    rw [hsub]; exact hfind
  have hv := voteMap_accepted api host h _ voterID _ votes hobs hopen hnv hidx hfind2
  have hc : ¬ voteEndsPoll (insert voterID h.playersVoted).card (votes + 1)
      ((host.playerIndexListSize : Int) - host.teamCount api.eObservers) = true := by
    simpa [voteEndsPoll] using hstay
  rw [if_neg hc, hsub] at hv
  refine ⟨_, _, hv, ?_, ?_, StdMap.keys_increment _ _, rfl, hopen, rfl, rfl, rfl, ?_⟩
  · simp [StdMap.find_increment_self, hfind]
  · intro other hne
    exact StdMap.find_increment_ne _ _ _ hne
  · simp [printVotes, verifyVotingOpen, hopen]

theorem vote_recorded_witness :
    (Sample.poll 1 0 {1}).votingOpen = true ∧
    (Sample.host 4 0).team 2 ≠ Sample.api.eObservers ∧
    (2 : Int) ∉ (Sample.poll 1 0 {1}).playersVoted ∧
    StdMap.find (Sample.poll 1 0 {1}).voteTally "B".toList = some 0 ∧
    ¬ (((insert (2 : Int) (Sample.poll 1 0 {1}).playersVoted).card : Int) =
          ((Sample.host 4 0).playerIndexListSize : Int) -
            (Sample.host 4 0).teamCount Sample.api.eObservers ∨
        (0 : Int) + 1 > Int.tdiv (((Sample.host 4 0).playerIndexListSize : Int) -
            (Sample.host 4 0).teamCount Sample.api.eObservers) 2) ∧
    ∃ h1 effects,
      voteMap Sample.api (Sample.host 4 0) (Sample.poll 1 0 {1})
        (VOTEMAP_COMMAND ++ ' ' :: "B".toList) 2 = some (h1, effects) ∧
      StdMap.find h1.voteTally "B".toList = some (0 + 1) ∧
      (∀ other, other ≠ "B".toList →
        StdMap.find h1.voteTally other = StdMap.find (Sample.poll 1 0 {1}).voteTally other) ∧
      StdMap.keys h1.voteTally = StdMap.keys (Sample.poll 1 0 {1}).voteTally ∧
      h1.playersVoted = insert 2 (Sample.poll 1 0 {1}).playersVoted ∧
      h1.votingOpen = true ∧
      h1.mapList = (Sample.poll 1 0 {1}).mapList ∧
      h1.nextMap = (Sample.poll 1 0 {1}).nextMap ∧
      h1.restartTime = (Sample.poll 1 0 {1}).restartTime ∧
      Effect.registerEvent ∉ effects :=
  ⟨by decide, by decide, by decide, by decide, by decide,
    vote_recorded Sample.api (Sample.host 4 0) (Sample.poll 1 0 {1}) "B".toList 2 0
      (by decide) (by decide) (by decide) (by decide) (by decide)⟩

/-! ## The map to load -/

theorem startMapVote_nextMap (api : Api) (host : Host) (h h1 : MapVoteHandler)
    (command : CppString) (requestor : Int) (effects : List Effect)
    (hs : startMapVote api host h command requestor = some (h1, effects)) :
    h1.nextMap = h.nextMap := by
  unfold startMapVote at hs
  split at hs
  · simp only [Option.some.injEq, Prod.mk.injEq] at hs
    rw [← hs.1]
  · split at hs
    · simp only [Option.some.injEq, Prod.mk.injEq] at hs
      rw [← hs.1]
    · dsimp only at hs
      split at hs
      · simp only [Option.some.injEq, Prod.mk.injEq] at hs
        rw [← hs.1]
        split <;> rfl
      · split at hs
        · simp at hs
        · split at hs
          · simp only [Option.some.injEq, Prod.mk.injEq] at hs
            rw [← hs.1]
            split <;> rfl
          · simp only [Option.some.injEq, Prod.mk.injEq] at hs
            rw [← hs.1]
            simp only [resetVoting]
            split <;> rfl

theorem endMapVote_nextMap (api : Api) (host : Host) (h h1 : MapVoteHandler)
    (requestor : Int) (effects : List Effect)
    (hs : endMapVote api host h requestor = some (h1, effects))
    (hq : Effect.registerEvent ∉ effects) : h1.nextMap = h.nextMap := by
  unfold endMapVote at hs
  split at hs
  · simp only [Option.some.injEq, Prod.mk.injEq] at hs
    rw [← hs.1]
  · split at hs
    · simp only [Option.some.injEq, Prod.mk.injEq] at hs
      rw [← hs.1]
    · split at hs
      · simp at hs
      · simp only [Option.some.injEq, Prod.mk.injEq] at hs
        rw [← hs.2] at hq
        simp at hq

theorem cancelMapVote_nextMap (api : Api) (host : Host) (h : MapVoteHandler)
    (requestor : Int) : (cancelMapVote api host h requestor).1.nextMap = h.nextMap := by
  unfold cancelMapVote
  split
  · rfl
  · split <;> rfl

theorem changeMap_nextMap (api : Api) (host : Host) (h : MapVoteHandler)
    (command : CppString) (requestor : Int)
    (hq : Effect.registerEvent ∉ (changeMap api host h command requestor).2) :
    (changeMap api host h command requestor).1.nextMap = h.nextMap := by
  unfold changeMap at hq ⊢
  split
  · rfl
  · rename_i hv
    rw [if_neg hv] at hq
    split
    · rfl
    · rename_i index hidx
      simp only [hidx] at hq
      dsimp only at hq ⊢
      split
      · rfl
      · rename_i path hfind
        simp only [hfind] at hq
        simp at hq

theorem voteMap_nextMap (api : Api) (host : Host) (h h1 : MapVoteHandler)
    (command : CppString) (voterID : Int) (effects : List Effect)
    (hs : voteMap api host h command voterID = some (h1, effects))
    (hq : Effect.registerEvent ∉ effects) : h1.nextMap = h.nextMap := by
  unfold voteMap at hs
  split at hs
  · simp only [Option.some.injEq, Prod.mk.injEq] at hs
    rw [← hs.1]
  · split at hs
    · simp only [Option.some.injEq, Prod.mk.injEq] at hs
      rw [← hs.1]
    · split at hs
      · simp only [Option.some.injEq, Prod.mk.injEq] at hs
        rw [← hs.1]
      · split at hs
        · simp only [Option.some.injEq, Prod.mk.injEq] at hs
          rw [← hs.1]
        · dsimp only at hs
          split at hs
          · simp only [Option.some.injEq, Prod.mk.injEq] at hs
            rw [← hs.1]
          · split at hs
            · split at hs
              · simp at hs
              · rename_i h2 effects2 hend
                simp only [Option.some.injEq, Prod.mk.injEq] at hs
                rw [← hs.1]
                have hq2 : Effect.registerEvent ∉ effects2 := by
                  intro hmem
                  apply hq
                  rw [← hs.2]
                  exact List.mem_cons_of_mem _ hmem
                have hx := endMapVote_nextMap _ _ _ _ _ _ hend hq2
                exact hx
            · simp only [Option.some.injEq, Prod.mk.injEq] at hs
              rw [← hs.1]

/-- An event handled without a registration for tick events leaves `nextMap` as it was or,
for the world-generation event, reset. -/
theorem process_nextMap (api : Api) (host : Host) (h : MapVoteHandler)
    (event : bz_EventData) (h1 : MapVoteHandler) (effects : List Effect)
    (hs : process api host h event = some (h1, effects))
    (hq : Effect.registerEvent ∉ effects) :
    h1.nextMap = h.nextMap ∨ h1.nextMap = MAPVOTE_NOMAP := by
  cases event with
  | unknownSlashCommand sender message =>
    left
    simp only [process, handleCommand] at hs
    split at hs
    · simp only [Option.map_eq_some'] at hs
      obtain ⟨r, hr, hr2⟩ := hs
      simp only [Prod.mk.injEq] at hr2
      rw [← hr2.1]
      refine voteMap_nextMap api host h r.1 message sender r.2 hr ?_
      intro hmem
      apply hq
      rw [← hr2.2]
      exact List.mem_append_left _ hmem
    · split at hs
      · simp only [Option.some.injEq, Prod.mk.injEq] at hs
        rw [← hs.1]
      · split at hs
        · simp only [Option.some.injEq, Prod.mk.injEq] at hs
          rw [← hs.1]
        · split at hs
          · simp only [Option.map_eq_some'] at hs
            obtain ⟨r, hr, hr2⟩ := hs
            simp only [Prod.mk.injEq] at hr2
            rw [← hr2.1]
            exact startMapVote_nextMap api host h r.1 message sender r.2 hr
          · split at hs
            · simp only [Option.map_eq_some'] at hs
              obtain ⟨r, hr, hr2⟩ := hs
              simp only [Prod.mk.injEq] at hr2
              rw [← hr2.1]
              refine endMapVote_nextMap api host h r.1 sender r.2 hr ?_
              intro hmem
              apply hq
              rw [← hr2.2]
              exact List.mem_append_left _ hmem
            · split at hs
              · simp only [Option.some.injEq, Prod.mk.injEq] at hs
                rw [← hs.1]
                exact cancelMapVote_nextMap api host h sender
              · split at hs
                · simp only [Option.some.injEq, Prod.mk.injEq] at hs
                  rw [← hs.1]
                  refine changeMap_nextMap api host h message sender ?_
                  intro hmem
                  apply hq
                  rw [← hs.2]
                  exact List.mem_append_left _ hmem
                · simp only [Option.some.injEq, Prod.mk.injEq] at hs
                  rw [← hs.1]
  | getWorld =>
    right
    simp only [process, loadMap, Option.some.injEq, Prod.mk.injEq] at hs
    rw [← hs.1]
  | gameEnd =>
    left
    exact startMapVote_nextMap api host h h1 [] api.BZ_SERVER effects hs
  | tick time =>
    left
    simp only [process, Option.some.injEq, Prod.mk.injEq] at hs
    rw [← hs.1]
  | other =>
    left
    simp only [process, Option.some.injEq, Prod.mk.injEq] at hs
    rw [← hs.1]

/-- Over events handled without a registration for tick events, a reset `nextMap` stays
reset. -/
theorem runLog_nextMap (api : Api) :
    ∀ (events : List (Host × bz_EventData)) (h h1 : MapVoteHandler) (effects : List Effect),
      runLog api h events = some (h1, effects) → Effect.registerEvent ∉ effects →
      h.nextMap = MAPVOTE_NOMAP → h1.nextMap = MAPVOTE_NOMAP := by
  intro events
  induction events with
  | nil =>
    intro h h1 effects hrun _ hn
    simp only [runLog, Option.some.injEq, Prod.mk.injEq] at hrun
    rw [← hrun.1]; exact hn
  | cons e rest ih =>
    intro h h1 effects hrun hq hn
    obtain ⟨host, event⟩ := e
    simp only [runLog] at hrun
    split at hrun
    · simp at hrun
    · rename_i h2 effects1 hp
      split at hrun
      · simp at hrun
      · rename_i h3 effects2 hrest
        simp only [Option.some.injEq, Prod.mk.injEq] at hrun
        have hq1 : Effect.registerEvent ∉ effects1 := by
          intro hmem; apply hq; rw [← hrun.2]; exact List.mem_append_left _ hmem
        have hq2 : Effect.registerEvent ∉ effects2 := by
          intro hmem; apply hq; rw [← hrun.2]; exact List.mem_append_right _ hmem
        have h2n : h2.nextMap = MAPVOTE_NOMAP := by
          rcases process_nextMap api host h event h2 effects1 hp hq1 with hx | hx
          · rw [hx]; exact hn
          · exact hx
        rw [← hrun.1]
        exact ih h2 h3 effects2 hrest hq2 h2n

/-! ## The restart -/

theorem noRestart_append (a b : List Effect) (ha : NoRestart a) (hb : NoRestart b) :
    NoRestart (a ++ b) := by
  unfold NoRestart at *
  simp only [List.mem_append, not_or]
  exact ⟨⟨ha.1, hb.1⟩, ⟨ha.2, hb.2⟩⟩

theorem noRestart_verifyAdminOp (api : Api) (host : Host) (playerID : Int) :
    NoRestart (verifyAdminOp api host playerID).2 := by
  unfold NoRestart verifyAdminOp
  dsimp only
  split <;> simp

theorem noRestart_verifyNotObserver (api : Api) (host : Host) (playerID : Int) :
    NoRestart (verifyNotObserver api host playerID).2 := by
  unfold NoRestart verifyNotObserver
  dsimp only
  split <;> simp

theorem noRestart_verifyVotingOpen (api : Api) (h : MapVoteHandler) (playerID : Int) :
    NoRestart (verifyVotingOpen api h playerID).2 := by
  unfold NoRestart verifyVotingOpen
  dsimp only
  split <;> simp

theorem noRestart_startMapVoteStep (api : Api) (mapList : StdMap CppString) (requestor : Int)
    (acc : StdMap Int × List Effect) (mapName : CppString) (h : NoRestart acc.2) :
    NoRestart (startMapVoteStep api mapList requestor acc mapName).2 := by
  unfold startMapVoteStep
  split
  · exact noRestart_append _ _ h (by simp [NoRestart])
  · exact h

theorem noRestart_startMapVoteLoop (api : Api) (mapList : StdMap CppString)
    (command : CppString) (requestor : Int) :
    ∀ (fuel : Nat) (index : Option Nat) (acc r : StdMap Int × List Effect),
      NoRestart acc.2 →
      startMapVoteLoop api mapList command requestor fuel index acc = some r →
      NoRestart r.2 := by
  intro fuel
  induction fuel with
  | zero =>
    intro index acc r hacc hr
    cases index with
    | none =>
      rw [startMapVoteLoop_none] at hr
      simp only [Option.some.injEq] at hr
      exact hr ▸ hacc
    | some i => simp [startMapVoteLoop] at hr
  | succ fuel ih =>
    intro index acc r hacc hr
    cases index with
    | none =>
      rw [startMapVoteLoop_none] at hr
      simp only [Option.some.injEq] at hr
      exact hr ▸ hacc
    | some i =>
      rw [startMapVoteLoop_succ] at hr
      exact ih _ _ r (noRestart_startMapVoteStep api mapList requestor acc _ hacc) hr

theorem noRestart_startMapVote (api : Api) (host : Host) (h h1 : MapVoteHandler)
    (command : CppString) (requestor : Int) (effects : List Effect)
    (hs : startMapVote api host h command requestor = some (h1, effects)) :
    NoRestart effects := by
  unfold startMapVote at hs
  split at hs
  · simp only [Option.some.injEq, Prod.mk.injEq] at hs
    rw [← hs.2]
    exact noRestart_verifyAdminOp api host requestor
  · split at hs
    · simp only [Option.some.injEq, Prod.mk.injEq] at hs
      rw [← hs.2]
      simp [NoRestart]
    · dsimp only at hs
      split at hs
      · simp only [Option.some.injEq, Prod.mk.injEq] at hs
        rw [← hs.2]
        simp [NoRestart]
      · split at hs
        · simp at hs
        · rename_i voteTally effects0 hloop
          have h0 := noRestart_startMapVoteLoop api _ command requestor _ _ _
            (voteTally, effects0) (by simp [NoRestart]) hloop
          split at hs
          · simp only [Option.some.injEq, Prod.mk.injEq] at hs
            rw [← hs.2]
            refine noRestart_append _ _ (noRestart_append _ _ h0 (by simp [NoRestart])) ?_
            simp [NoRestart]
          · simp only [Option.some.injEq, Prod.mk.injEq] at hs
            rw [← hs.2]
            exact noRestart_append _ _ h0 (by simp [NoRestart])

theorem noRestart_endMapVote (api : Api) (host : Host) (h h1 : MapVoteHandler)
    (requestor : Int) (effects : List Effect)
    (hs : endMapVote api host h requestor = some (h1, effects)) : NoRestart effects := by
  unfold endMapVote at hs
  split at hs
  · simp only [Option.some.injEq, Prod.mk.injEq] at hs
    rw [← hs.2]
    exact noRestart_verifyAdminOp api host requestor
  · split at hs
    · simp only [Option.some.injEq, Prod.mk.injEq] at hs
      rw [← hs.2]
      exact noRestart_verifyVotingOpen api h requestor
    · split at hs
      · simp at hs
      · simp only [Option.some.injEq, Prod.mk.injEq] at hs
        rw [← hs.2]
        refine noRestart_append _ _ ?_ (by simp [NoRestart])
        split <;> simp [NoRestart]

theorem noRestart_cancelMapVote (api : Api) (host : Host) (h : MapVoteHandler)
    (requestor : Int) : NoRestart (cancelMapVote api host h requestor).2 := by
  unfold cancelMapVote
  split
  · exact noRestart_verifyAdminOp api host requestor
  · split
    · exact noRestart_verifyVotingOpen api h requestor
    · simp [NoRestart]

theorem noRestart_changeMap (api : Api) (host : Host) (h : MapVoteHandler)
    (command : CppString) (requestor : Int) :
    NoRestart (changeMap api host h command requestor).2 := by
  unfold changeMap
  split
  · exact noRestart_verifyAdminOp api host requestor
  · split
    · simp [NoRestart]
    · dsimp only
      split <;> simp [NoRestart]

theorem noRestart_printVotes (api : Api) (h : MapVoteHandler) (playerID : Int) :
    NoRestart (printVotes api h playerID) := by
  unfold printVotes
  split
  · exact noRestart_verifyVotingOpen api h playerID
  · simp [NoRestart]

theorem noRestart_printMapList (api : Api) (h : MapVoteHandler) (playerID : Int) :
    NoRestart (printMapList api h playerID) := by
  simp [printMapList, NoRestart]

theorem noRestart_voteMap (api : Api) (host : Host) (h h1 : MapVoteHandler)
    (command : CppString) (voterID : Int) (effects : List Effect)
    (hs : voteMap api host h command voterID = some (h1, effects)) : NoRestart effects := by
  unfold voteMap at hs
  split at hs
  · simp only [Option.some.injEq, Prod.mk.injEq] at hs
    rw [← hs.2]
    exact noRestart_verifyNotObserver api host voterID
  · split at hs
    · simp only [Option.some.injEq, Prod.mk.injEq] at hs
      rw [← hs.2]
      exact noRestart_verifyVotingOpen api h voterID
    · split at hs
      · simp only [Option.some.injEq, Prod.mk.injEq] at hs
        rw [← hs.2]
        simp [NoRestart]
      · split at hs
        · simp only [Option.some.injEq, Prod.mk.injEq] at hs
          rw [← hs.2]
          simp [NoRestart]
        · dsimp only at hs
          split at hs
          · simp only [Option.some.injEq, Prod.mk.injEq] at hs
            rw [← hs.2]
            simp [NoRestart]
          · split at hs
            · split at hs
              · simp at hs
              · rename_i h2 effects2 hend
                simp only [Option.some.injEq, Prod.mk.injEq] at hs
                rw [← hs.2]
                have h2 := noRestart_endMapVote _ _ _ _ _ _ hend
                exact noRestart_append [_] _ (by simp [NoRestart]) h2
            · simp only [Option.some.injEq, Prod.mk.injEq] at hs
              rw [← hs.2]
              exact noRestart_append [_] _ (by simp [NoRestart])
                (noRestart_printVotes api _ voterID)

/-- Only a tick event makes the handler deregister and restart the server. -/
theorem noRestart_process (api : Api) (host : Host) (h : MapVoteHandler)
    (event : bz_EventData) (h1 : MapVoteHandler) (effects : List Effect)
    (hs : process api host h event = some (h1, effects))
    (hnt : ∀ time, event ≠ bz_EventData.tick time) : NoRestart effects := by
  have hh : NoRestart [Effect.handled] := by simp [NoRestart]
  cases event with
  | unknownSlashCommand sender message =>
    simp only [process, handleCommand] at hs
    split at hs
    · simp only [Option.map_eq_some'] at hs
      obtain ⟨r, hr, hr2⟩ := hs
      simp only [Prod.mk.injEq] at hr2
      rw [← hr2.2]
      exact noRestart_append _ _ (noRestart_voteMap api host h r.1 message sender r.2 hr) hh
    · split at hs
      · simp only [Option.some.injEq, Prod.mk.injEq] at hs
        rw [← hs.2]
        exact noRestart_append _ _ (noRestart_printVotes api h sender) hh
      · split at hs
        · simp only [Option.some.injEq, Prod.mk.injEq] at hs
          rw [← hs.2]
          exact noRestart_append _ _ (noRestart_printMapList api h sender) hh
        · split at hs
          · simp only [Option.map_eq_some'] at hs
            obtain ⟨r, hr, hr2⟩ := hs
            simp only [Prod.mk.injEq] at hr2
            rw [← hr2.2]
            exact noRestart_append _ _
              (noRestart_startMapVote api host h r.1 message sender r.2 hr) hh
          · split at hs
            · simp only [Option.map_eq_some'] at hs
              obtain ⟨r, hr, hr2⟩ := hs
              simp only [Prod.mk.injEq] at hr2
              rw [← hr2.2]
              exact noRestart_append _ _ (noRestart_endMapVote api host h r.1 sender r.2 hr) hh
            · split at hs
              · simp only [Option.some.injEq, Prod.mk.injEq] at hs
                rw [← hs.2]
                exact noRestart_append _ _ (noRestart_cancelMapVote api host h sender) hh
              · split at hs
                · simp only [Option.some.injEq, Prod.mk.injEq] at hs
                  rw [← hs.2]
                  exact noRestart_append _ _ (noRestart_changeMap api host h message sender) hh
                · simp only [Option.some.injEq, Prod.mk.injEq] at hs
                  rw [← hs.2]
                  simp [NoRestart]
  | getWorld =>
    simp only [process, loadMap, Option.some.injEq, Prod.mk.injEq] at hs
    rw [← hs.2]
    split <;> simp [NoRestart]
  | gameEnd =>
    exact noRestart_startMapVote api host h h1 [] api.BZ_SERVER effects hs
  | tick time => exact absurd rfl (hnt time)
  | other =>
    simp only [process, Option.some.injEq, Prod.mk.injEq] at hs
    rw [← hs.2]
    simp [NoRestart]

theorem TickSubscription.foldl_apply_armings (effects : List Effect) :
    ∀ s : TickSubscription, s.armings ≤ (effects.foldl TickSubscription.apply s).armings := by
  induction effects with
  | nil => intro s; exact le_refl _
  | cons e rest ih =>
    intro s
    simp only [List.foldl_cons]
    refine le_trans ?_ (ih _)
    cases e <;> simp [TickSubscription.apply]

/-- Host calls other than those of `restartTimeReached`, with no registration among them,
leave the subscription as it is. -/
theorem TickSubscription.foldl_apply_quiet (effects : List Effect) :
    ∀ s : TickSubscription, NoRestart effects →
      (effects.foldl TickSubscription.apply s).armings = s.armings →
      effects.foldl TickSubscription.apply s = s := by
  induction effects with
  | nil => intro s _ _; rfl
  | cons e rest ih =>
    intro s hno harm
    simp only [List.foldl_cons] at harm ⊢
    have hrest : NoRestart rest := by
      unfold NoRestart at hno ⊢
      simp only [List.mem_cons, not_or] at hno
      exact ⟨hno.1.2, hno.2.2⟩
    have hmono := TickSubscription.foldl_apply_armings rest (TickSubscription.apply s e)
    cases e with
    | registerEvent =>
      simp only [TickSubscription.apply] at hmono harm
      omega
    | removeEvent => exact absurd (List.mem_cons_self _ _) hno.1
    | restart => exact absurd (List.mem_cons_self _ _) hno.2
    | sendTextMessage a b c => exact ih s hrest harm
    | sendTextMessagef a b c d => exact ih s hrest harm
    | worldFile p => exact ih s hrest harm
    | handled => exact ih s hrest harm

/-- One delivered event: the number of registrations asked for does not decrease, and when
it stays the same the restarts made plus the one still possible do not increase. -/
theorem TickSubscription.deliver_step (api : Api) (host : Host) (s s1 : TickSubscription)
    (event : bz_EventData) (hd : TickSubscription.deliver api host s event = some s1) :
    s.armings ≤ s1.armings ∧
    (s1.armings = s.armings →
      s1.restarts + (if s1.registered = true then 1 else 0) ≤
        s.restarts + (if s.registered = true then 1 else 0)) := by
  by_cases htick : ∃ time, event = bz_EventData.tick time
  · obtain ⟨time, rfl⟩ := htick
    obtain ⟨handler, registered, armings, restarts⟩ := s
    cases registered with
    | false =>
      simp only [TickSubscription.deliver, Option.some.injEq] at hd
      subst hd
      exact ⟨le_refl _, fun _ => le_refl _⟩
    | true =>
      simp only [TickSubscription.deliver, process] at hd
      by_cases ht : time ≥ handler.restartTime
      · simp only [ht, if_true, restartTimeReached, List.foldl_cons, List.foldl_nil,
          TickSubscription.apply, Option.some.injEq] at hd
        subst hd
        simp
      · simp only [ht, if_false, List.foldl_nil, Option.some.injEq] at hd
        subst hd
        simp
  · have hnt : ∀ time, event ≠ bz_EventData.tick time := fun time he => htick ⟨time, he⟩
    have hd2 : (match process api host s.handler event with
        | none => none
        | some (h1, effects) =>
          some (effects.foldl TickSubscription.apply { s with handler := h1 })) = some s1 := by
      cases event with
      | tick time => exact absurd rfl (hnt time)
      | unknownSlashCommand a b => simpa [TickSubscription.deliver] using hd
      | getWorld => simpa [TickSubscription.deliver] using hd
      | gameEnd => simpa [TickSubscription.deliver] using hd
      | other => simpa [TickSubscription.deliver] using hd
    split at hd2
    · simp at hd2
    · rename_i h1 effects hp
      simp only [Option.some.injEq] at hd2
      have hno := noRestart_process api host s.handler event h1 effects hp hnt
      have hmono := TickSubscription.foldl_apply_armings effects { s with handler := h1 }
      refine ⟨hd2 ▸ hmono, ?_⟩
      intro harm
      rw [← hd2] at harm
      have hq := TickSubscription.foldl_apply_quiet effects { s with handler := h1 } hno harm
      rw [← hd2, hq]

theorem TickSubscription.run_steps (api : Api) :
    ∀ (events : List (Host × bz_EventData)) (s s1 : TickSubscription),
      TickSubscription.run api s events = some s1 →
      s.armings ≤ s1.armings ∧
      (s1.armings = s.armings →
        s1.restarts + (if s1.registered = true then 1 else 0) ≤
          s.restarts + (if s.registered = true then 1 else 0)) := by
  intro events
  induction events with
  | nil =>
    intro s s1 hrun
    simp only [TickSubscription.run, Option.some.injEq] at hrun
    subst hrun
    exact ⟨le_refl _, fun _ => le_refl _⟩
  | cons e rest ih =>
    intro s s1 hrun
    obtain ⟨host, event⟩ := e
    simp only [TickSubscription.run] at hrun
    split at hrun
    · simp at hrun
    · rename_i s2 hd
      obtain ⟨ha, hb⟩ := TickSubscription.deliver_step api host s s2 event hd
      obtain ⟨hc, hd2⟩ := ih s2 s1 hrun
      refine ⟨le_trans ha hc, ?_⟩
      intro harm
      have h1 : s2.armings = s.armings := by omega
      have h2 : s1.armings = s2.armings := by omega
      exact le_trans (hd2 h2) (hb h1)

theorem TickSubscription.foldl_apply_restarts (effects : List Effect) :
    ∀ s : TickSubscription, s.restarts ≤ (effects.foldl TickSubscription.apply s).restarts := by
  induction effects with
  | nil => intro s; exact le_refl _
  | cons e rest ih =>
    intro s
    simp only [List.foldl_cons]
    refine le_trans ?_ (ih _)
    cases e <;> simp [TickSubscription.apply]

/-- The number of restarts never decreases. -/
theorem TickSubscription.run_restarts (api : Api) :
    ∀ (events : List (Host × bz_EventData)) (s s1 : TickSubscription),
      TickSubscription.run api s events = some s1 → s.restarts ≤ s1.restarts := by
  intro events
  induction events with
  | nil =>
    intro s s1 hrun
    simp only [TickSubscription.run, Option.some.injEq] at hrun
    subst hrun
    exact le_refl _
  | cons e rest ih =>
    intro s s1 hrun
    obtain ⟨host, event⟩ := e
    simp only [TickSubscription.run] at hrun
    split at hrun
    · simp at hrun
    · rename_i s2 hd
      refine le_trans ?_ (ih s2 s1 hrun)
      unfold TickSubscription.deliver at hd
      split at hd
      · simp only [Option.some.injEq] at hd
        subst hd
        exact le_refl _
      · split at hd
        · simp at hd
        · rename_i h2 effects _
          simp only [Option.some.injEq] at hd
          rw [← hd]
          exact TickSubscription.foldl_apply_restarts effects { s with handler := h2 }

/-- C16: with the tick subscription as explicit state.  A tick event with a time before
`restartTime` makes no host call and changes nothing; one with a time at or after
`restartTime` makes the handler deregister and restart the server, after which it is not
registered.  So over every sequence of delivered events in which no restart is armed (the
number of registrations asked for, which `endMapVote` and `changeMap` do, is the same at
both ends), the server is restarted at most once, however many times the restart was armed
before, and not at all if the handler was not registered. -/
theorem restart_fires_at_most_once (api : Api) (s s1 : TickSubscription)
    (events : List (Host × bz_EventData))
    (hrun : TickSubscription.run api s events = some s1)
    (hnoarm : s1.armings = s.armings) :
    s1.restarts ≤ s.restarts + 1 ∧
    (s.registered = false → s1.restarts = s.restarts) ∧
    (s.restarts < s1.restarts → s1.registered = false) ∧
    (∀ (host : Host) (time : Int), time < s.handler.restartTime →
      process api host s.handler (bz_EventData.tick time) = some (s.handler, []) ∧
      TickSubscription.deliver api host s (bz_EventData.tick time) = some s) ∧
    (∀ (host : Host) (time : Int), time ≥ s.handler.restartTime →
      process api host s.handler (bz_EventData.tick time) =
        some (s.handler, [Effect.removeEvent, Effect.restart]) ∧
      (s.registered = true →
        TickSubscription.deliver api host s (bz_EventData.tick time) =
          some { s with registered := false, restarts := s.restarts + 1 })) := by
  obtain ⟨hmono, hb⟩ := TickSubscription.run_steps api events s s1 hrun
  have hle := hb hnoarm
  have hback := TickSubscription.run_restarts api events s s1 hrun
  refine ⟨?_, ?_, ?_, ?_, ?_⟩
  · split at hle <;> split at hle <;> omega
  · intro hreg
    simp only [hreg] at hle
    split at hle <;> simp at hle <;> omega
  · intro hlt
    cases hr : s1.registered with
    | false => rfl
    | true =>
      simp only [hr, if_true] at hle
      split at hle <;> omega
  · intro host time ht
    have hnot : ¬ time ≥ s.handler.restartTime := by omega
    have hp : process api host s.handler (bz_EventData.tick time) = some (s.handler, []) := by
      simp [process, hnot]
    refine ⟨hp, ?_⟩
    obtain ⟨handler, registered, armings, restarts⟩ := s
    cases registered with
    | false => simp [TickSubscription.deliver]
    | true =>
      simp only [TickSubscription.deliver]
      simp only [hp, List.foldl_nil]
  · intro host time ht
    have hp : process api host s.handler (bz_EventData.tick time) =
        some (s.handler, [Effect.removeEvent, Effect.restart]) := by
      simp [process, ht, restartTimeReached]
    refine ⟨hp, ?_⟩
    intro hreg
    simp [TickSubscription.deliver, hreg, hp, TickSubscription.apply]

theorem restart_fires_at_most_once_witness :
    TickSubscription.run Sample.api
        { handler := Sample.poll 3 1 {1, 2, 3, 4}, registered := false, armings := 0,
          restarts := 0 }
        [(Sample.host 4 0, bz_EventData.unknownSlashCommand 0 "/changemap C".toList),
         (Sample.host 4 0, bz_EventData.unknownSlashCommand 0 "/changemap B".toList)] =
      some Sample.armedTwice ∧
    TickSubscription.run Sample.api Sample.armedTwice
        [(Sample.hostAt 101, bz_EventData.tick 101),
         (Sample.hostAt 105, bz_EventData.tick 105),
         (Sample.hostAt 106, bz_EventData.tick 106)] =
      some { Sample.armedTwice with registered := false, restarts := 1 } ∧
    ({ Sample.armedTwice with registered := false, restarts := 1 } : TickSubscription).armings =
      Sample.armedTwice.armings ∧
    (({ Sample.armedTwice with registered := false, restarts := 1 } : TickSubscription).restarts ≤
        Sample.armedTwice.restarts + 1 ∧
      (Sample.armedTwice.registered = false →
        ({ Sample.armedTwice with registered := false, restarts := 1 } :
          TickSubscription).restarts = Sample.armedTwice.restarts) ∧
      (Sample.armedTwice.restarts <
          ({ Sample.armedTwice with registered := false, restarts := 1 } :
            TickSubscription).restarts →
        ({ Sample.armedTwice with registered := false, restarts := 1 } :
          TickSubscription).registered = false) ∧
      (∀ (host : Host) (time : Int), time < Sample.armedTwice.handler.restartTime →
        process Sample.api host Sample.armedTwice.handler (bz_EventData.tick time) =
          some (Sample.armedTwice.handler, []) ∧
        TickSubscription.deliver Sample.api host Sample.armedTwice (bz_EventData.tick time) =
          some Sample.armedTwice) ∧
      (∀ (host : Host) (time : Int), time ≥ Sample.armedTwice.handler.restartTime →
        process Sample.api host Sample.armedTwice.handler (bz_EventData.tick time) =
          some (Sample.armedTwice.handler, [Effect.removeEvent, Effect.restart]) ∧
        (Sample.armedTwice.registered = true →
          TickSubscription.deliver Sample.api host Sample.armedTwice
              (bz_EventData.tick time) =
            some { Sample.armedTwice with
                    registered := false, restarts := Sample.armedTwice.restarts + 1 }))) :=
  ⟨by decide, by decide, by decide,
    restart_fires_at_most_once Sample.api Sample.armedTwice
      { Sample.armedTwice with registered := false, restarts := 1 }
      [(Sample.hostAt 101, bz_EventData.tick 101),
       (Sample.hostAt 105, bz_EventData.tick 105),
       (Sample.hostAt 106, bz_EventData.tick 106)]
      (by decide) (by decide)⟩

/-! ## The map list -/

theorem find_last_of_append (before rest : CppString) (c : Char) (hc : c ∉ rest) :
    find_last_of (before ++ c :: rest) c = some before.length := by
  have hmem : c ∈ before ++ c :: rest := by simp
  have hrev : (before ++ c :: rest).reverse = rest.reverse ++ c :: before.reverse := by
    simp
  have hidx : List.indexOf c (before ++ c :: rest).reverse = rest.length := by
    rw [hrev, List.indexOf_append_of_not_mem (by simpa using hc)]
    simp
  unfold find_last_of
  rw [if_pos hmem, hidx]
  simp only [List.length_append, List.length_cons, Option.some.injEq]
  omega

theorem find_last_of_none (s : CppString) (c : Char) (hc : c ∉ s) :
    find_last_of s c = none := by
  unfold find_last_of
  rw [if_neg hc]

/-- The name derived from a path that ends in a separator, a name and an extension. -/
theorem mapNameOf_path (dir name ext : CppString) (sep : Char)
    (hsep : (sep = '/' ∧ '/' ∉ name ∧ '/' ∉ ext) ∨
      (sep = '\\' ∧ '/' ∉ dir ∧ '/' ∉ name ∧ '/' ∉ ext ∧ '\\' ∉ name ∧ '\\' ∉ ext))
    (hext : '.' ∉ ext) :
    mapNameOf (dir ++ sep :: (name ++ '.' :: ext)) = MapName.name name := by
  have hdot : find_last_of (name ++ '.' :: ext) '.' = some name.length :=
    find_last_of_append name ext '.' hext
  have herase : erase (name ++ '.' :: ext) (some name.length) = some name := by
    simp [erase]
  have hindex : (match find_last_of (dir ++ sep :: (name ++ '.' :: ext)) '/' with
         | some index => some index
         | none => find_last_of (dir ++ sep :: (name ++ '.' :: ext)) '\\') =
      some dir.length := by
    rcases hsep with ⟨rfl, h1, h2⟩ | ⟨rfl, h0, h1, h2, h3, h4⟩
    · have hno : '/' ∉ name ++ '.' :: ext := by
        simp only [List.mem_append, List.mem_cons, not_or]
        exact ⟨h1, by decide, h2⟩
      rw [find_last_of_append dir _ '/' hno]
    · have hno : '/' ∉ dir ++ '\\' :: (name ++ '.' :: ext) := by
        simp only [List.mem_append, List.mem_cons, not_or]
        exact ⟨h0, by decide, h1, by decide, h2⟩
      have hno2 : '\\' ∉ name ++ '.' :: ext := by
        simp only [List.mem_append, List.mem_cons, not_or]
        exact ⟨h3, by decide, h4⟩
      rw [find_last_of_none _ '/' hno, find_last_of_append dir _ '\\' hno2]
  have hdrop : List.drop (dir.length + 1) (dir ++ sep :: (name ++ '.' :: ext)) =
      name ++ '.' :: ext := by
    simp
  unfold mapNameOf
  rw [hindex]
  simp only [substr, hdrop, hdot, herase]

theorem StdMap.find_assign_self {V : Type} (m : StdMap V) (k : CppString) (v : V) :
    StdMap.find (StdMap.assign m k v) k = some v := by
  induction m with
  | nil => simp only [StdMap.assign, StdMap.find, if_true]
  | cons e m ih =>
    obtain ⟨k0, v0⟩ := e
    by_cases h1 : k < k0
    · simp only [StdMap.assign, h1, if_true, StdMap.find]
    · by_cases h2 : k = k0
      · subst h2
        simp only [StdMap.assign, h1, if_false, if_true, StdMap.find]
      · simp only [StdMap.assign, h1, h2, if_false, StdMap.find, ih]

theorem StdMap.find_assign_ne {V : Type} (m : StdMap V) (k k' : CppString) (v : V)
    (hne : k' ≠ k) : StdMap.find (StdMap.assign m k v) k' = StdMap.find m k' := by
  induction m with
  | nil => simp only [StdMap.assign, StdMap.find, hne, if_false]
  | cons e m ih =>
    obtain ⟨k0, v0⟩ := e
    by_cases h1 : k < k0
    · simp only [StdMap.assign, h1, if_true, StdMap.find, hne, if_false]
    · by_cases h2 : k = k0
      · subst h2
        simp only [StdMap.assign, h1, if_false, if_true, StdMap.find, hne]
      · by_cases h3 : k' = k0
        · simp only [StdMap.assign, h1, h2, if_false, StdMap.find, h3, if_true]
        · simp only [StdMap.assign, h1, h2, if_false, StdMap.find, h3, ih]

/-- The loop of `loadMaplist` over paths that all give a map name, `name` being given by
`path` only: it returns `true`, and `name` is bound to `path` at the end if it was at the
start or `path` is among the paths. -/
theorem loadMaplistLoop_find (name path : CppString)
    (hpath : mapNameOf path = MapName.name name) :
    ∀ (words : List CppString) (mapList : StdMap CppString),
      (∀ p ∈ words, ∃ n, mapNameOf p = MapName.name n ∧ (n = name → p = path)) →
      ∃ mapList1, loadMaplistLoop words mapList = some (true, mapList1) ∧
        (StdMap.find mapList name = some path ∨ path ∈ words →
          StdMap.find mapList1 name = some path) := by
  intro words
  induction words with
  | nil =>
    intro mapList _
    refine ⟨mapList, rfl, ?_⟩
    rintro (h | h)
    · exact h
    · simp at h
  | cons p rest ih =>
    intro mapList hall
    obtain ⟨n, hn, hnp⟩ := hall p (List.mem_cons_self _ _)
    have hrest : ∀ q ∈ rest, ∃ n, mapNameOf q = MapName.name n ∧ (n = name → q = path) :=
      fun q hq => hall q (List.mem_cons_of_mem _ hq)
    obtain ⟨mapList1, hloop, hfind⟩ := ih (StdMap.assign mapList n p) hrest
    refine ⟨mapList1, ?_, ?_⟩
    · simp only [loadMaplistLoop, hn]
      exact hloop
    · intro hor
      apply hfind
      by_cases hname : n = name
      · left
        rw [hname, hnp hname]
        exact StdMap.find_assign_self _ _ _
      · rcases hor with h | h
        · left
          rw [StdMap.find_assign_ne _ _ _ _ (fun hx => hname hx.symm)]
          exact h
        · rcases List.mem_cons.1 h with h | h
          · exfalso
            rw [← h, hpath] at hn
            simp only [MapName.name.injEq] at hn
            exact hname hn.symm
          · right
            exact h

/-- The map list round trip where `size_type` is as wide as `unsigned int`.  For every
path that ends in a directory separator (the last `/` of the path or, in a path without
`/`, the last `\`), a name, a dot and an
extension without a dot, the map name derived is that name; and after loading a list of
paths that all give a map name, in which only this path gives this name, the map list binds
the name to the whole path. -/
theorem loadMaplist_round_trip (h : MapVoteHandler) (dir name ext : CppString) (sep : Char)
    (before after : List CppString)
    (hsep : (sep = '/' ∧ '/' ∉ name ∧ '/' ∉ ext) ∨
      (sep = '\\' ∧ '/' ∉ dir ∧ '/' ∉ name ∧ '/' ∉ ext ∧ '\\' ∉ name ∧ '\\' ∉ ext))
    (hext : '.' ∉ ext)
    (hothers : ∀ p ∈ before ++ after,
      mapNameOf p ≠ MapName.giveUp ∧ mapNameOf p ≠ MapName.outOfRange ∧
      (mapNameOf p = MapName.name name → p = dir ++ sep :: (name ++ '.' :: ext))) :
    mapNameOf (dir ++ sep :: (name ++ '.' :: ext)) = MapName.name name ∧
    ∃ h1, loadMaplist h (some (before ++ (dir ++ sep :: (name ++ '.' :: ext)) :: after)) =
        some (true, h1) ∧
      StdMap.find h1.mapList name = some (dir ++ sep :: (name ++ '.' :: ext)) := by
  have hpath := mapNameOf_path dir name ext sep hsep hext
  have hothers2 : ∀ p ∈ before ++ after, ∃ n, mapNameOf p = MapName.name n ∧
      (n = name → p = dir ++ sep :: (name ++ '.' :: ext)) := by
    intro p hp
    obtain ⟨h1, h2, h3⟩ := hothers p hp
    cases hm : mapNameOf p with
    | giveUp => exact absurd hm h1
    | outOfRange => exact absurd hm h2
    | name n => exact ⟨n, rfl, fun hn => h3 (hn ▸ hm)⟩
  have hall : ∀ p ∈ before ++ (dir ++ sep :: (name ++ '.' :: ext)) :: after,
      ∃ n, mapNameOf p = MapName.name n ∧
        (n = name → p = dir ++ sep :: (name ++ '.' :: ext)) := by
    intro p hp
    rcases List.mem_append.1 hp with hp | hp
    · exact hothers2 p (List.mem_append_left _ hp)
    · rcases List.mem_cons.1 hp with hp | hp
      · exact ⟨name, hp ▸ hpath, fun _ => hp⟩
      · exact hothers2 p (List.mem_append_right _ hp)
  obtain ⟨mapList1, hloop, hfind⟩ :=
    loadMaplistLoop_find name _ hpath _ h.mapList hall
  refine ⟨hpath, { h with mapList := mapList1 }, ?_, ?_⟩
  · simp only [loadMaplist, hloop]
  · exact hfind (Or.inr (by simp))

theorem loadMaplist_round_trip_witness :
    (('/' = '/' ∧ '/' ∉ "Castle".toList ∧ '/' ∉ "bzw".toList) ∨
      ('/' = '\\' ∧ '/' ∉ "/data/maps".toList ∧ '/' ∉ "Castle".toList ∧ '/' ∉ "bzw".toList ∧
        '\\' ∉ "Castle".toList ∧ '\\' ∉ "bzw".toList)) ∧
    '.' ∉ "bzw".toList ∧
    (∀ p ∈ ["C:\\maps\\Keep.bzw".toList] ++ ["/data/maps/Tower.v2.bzw".toList],
      mapNameOf p ≠ MapName.giveUp ∧ mapNameOf p ≠ MapName.outOfRange ∧
      (mapNameOf p = MapName.name "Castle".toList →
        p = "/data/maps".toList ++ '/' :: ("Castle".toList ++ '.' :: "bzw".toList))) ∧
    (mapNameOf ("/data/maps".toList ++ '/' :: ("Castle".toList ++ '.' :: "bzw".toList)) =
        MapName.name "Castle".toList ∧
      ∃ h1, loadMaplist (MapVoteHandler.init [])
          (some (["C:\\maps\\Keep.bzw".toList] ++
            ("/data/maps".toList ++ '/' :: ("Castle".toList ++ '.' :: "bzw".toList)) ::
              ["/data/maps/Tower.v2.bzw".toList])) = some (true, h1) ∧
        StdMap.find h1.mapList "Castle".toList =
          some ("/data/maps".toList ++ '/' :: ("Castle".toList ++ '.' :: "bzw".toList))) ∧
    mapNameOf "/data/maps/Castle.bzw".toList = MapName.name "Castle".toList ∧
    (loadMaplist (MapVoteHandler.init []) (some ["/data/maps/Castle.bzw".toList])).map
        (fun r => (r.1, StdMap.find r.2.mapList "Castle".toList)) =
      some (true, some "/data/maps/Castle.bzw".toList) :=
  ⟨by decide, by decide, by decide,
    loadMaplist_round_trip (MapVoteHandler.init []) "/data/maps".toList "Castle".toList
      "bzw".toList '/' ["C:\\maps\\Keep.bzw".toList] ["/data/maps/Tower.v2.bzw".toList]
      (by decide) (by decide) (by decide),
    by decide, by decide⟩

theorem mapNameOf_no_separator (path : CppString) (h1 : '/' ∉ path) (h2 : '\\' ∉ path) :
    mapNameOf path = MapName.giveUp := by
  unfold mapNameOf
  rw [find_last_of_none path '/' h1, find_last_of_none path '\\' h2]

/-- The loop of `loadMaplist` up to the first path without a separator: the paths before it
are loaded, and stay in the map list when the function gives up. -/
theorem loadMaplistLoop_giveUp (bad : CppString) (after : List CppString)
    (hbad : mapNameOf bad = MapName.giveUp) :
    ∀ (before : List CppString) (mapList : StdMap CppString),
      (∀ p ∈ before, mapNameOf p ≠ MapName.giveUp ∧ mapNameOf p ≠ MapName.outOfRange) →
      ∃ mapList1, loadMaplistLoop before mapList = some (true, mapList1) ∧
        loadMaplistLoop (before ++ bad :: after) mapList = some (false, mapList1) ∧
        (∀ n, (StdMap.find mapList n).isSome = true → (StdMap.find mapList1 n).isSome = true) ∧
        (∀ p ∈ before, ∀ n, mapNameOf p = MapName.name n →
          (StdMap.find mapList1 n).isSome = true) := by
  intro before
  induction before with
  | nil =>
    intro mapList _
    refine ⟨mapList, rfl, ?_, fun n hn => hn, ?_⟩
    · simp only [List.nil_append, loadMaplistLoop, hbad]
    · intro p hp
      simp at hp
  | cons q rest ih =>
    intro mapList hall
    obtain ⟨hq1, hq2⟩ := hall q (List.mem_cons_self _ _)
    have hrest : ∀ p ∈ rest, mapNameOf p ≠ MapName.giveUp ∧ mapNameOf p ≠ MapName.outOfRange :=
      fun p hp => hall p (List.mem_cons_of_mem _ hp)
    cases hm : mapNameOf q with
    | giveUp => exact absurd hm hq1
    | outOfRange => exact absurd hm hq2
    | name n =>
      obtain ⟨mapList1, hl1, hl2, hkeep, hnew⟩ := ih (StdMap.assign mapList n q) hrest
      have hassign : ∀ k, (StdMap.find mapList k).isSome = true →
          (StdMap.find (StdMap.assign mapList n q) k).isSome = true := by
        intro k hk
        by_cases hkn : k = n
        · rw [hkn, StdMap.find_assign_self]; rfl
        · rw [StdMap.find_assign_ne _ _ _ _ hkn]; exact hk
      refine ⟨mapList1, ?_, ?_, ?_, ?_⟩
      · simp only [loadMaplistLoop, hm]
        exact hl1
      · simp only [List.cons_append, loadMaplistLoop, hm]
        exact hl2
      · intro k hk
        exact hkeep k (hassign k hk)
      · intro p hp k hk
        rcases List.mem_cons.1 hp with hp | hp
        · subst hp
          rw [hm] at hk
          simp only [MapName.name.injEq] at hk
          subst hk
          apply hkeep
          rw [StdMap.find_assign_self]; rfl
        · exact hnew p hp k hk

/-- Where `size_type` is as wide as `unsigned int`, loading the paths `/m/A.bzw` and
`B.bzw`, the second without a separator, returns `false`, and the map list keeps the entry
of the first. -/
theorem loadMaplist_failure_keeps_entries :
    '/' ∉ "B.bzw".toList ∧ '\\' ∉ "B.bzw".toList ∧
    loadMaplist (MapVoteHandler.init []) (some ["/m/A.bzw".toList, "B.bzw".toList]) =
      some (false, MapVoteHandler.init [("A".toList, "/m/A.bzw".toList)]) ∧
    (MapVoteHandler.init [("A".toList, "/m/A.bzw".toList)]).mapList ≠ [] := by
  decide

/-- Where `size_type` is as wide as `unsigned int`: for every sequence of paths that
contains a path with no directory separator (neither `/` nor `\`), where every path before
it has a separator and a dot after it, `loadMaplist` returns `false` and `bz_Load` returns
1 without registering for any
event; the map list is the one loaded from the paths before, so it still binds every map
name it bound before the load and every name given by those paths. -/
theorem loadMaplist_gives_up (h : MapVoteHandler) (before after : List CppString)
    (bad : CppString) (hbad1 : '/' ∉ bad) (hbad2 : '\\' ∉ bad)
    (hbefore : ∀ p ∈ before,
      mapNameOf p ≠ MapName.giveUp ∧ mapNameOf p ≠ MapName.outOfRange) :
    ∃ mapList1,
      loadMaplistLoop before h.mapList = some (true, mapList1) ∧
      loadMaplist h (some (before ++ bad :: after)) =
        some (false, { h with mapList := mapList1 }) ∧
      bz_Load h (some (before ++ bad :: after)) =
        some (1, { h with mapList := mapList1 }, []) ∧
      (∀ n, (StdMap.find h.mapList n).isSome = true →
        (StdMap.find mapList1 n).isSome = true) ∧
      (∀ p ∈ before, ∀ n, mapNameOf p = MapName.name n →
        (StdMap.find mapList1 n).isSome = true) := by
  obtain ⟨mapList1, hl1, hl2, hkeep, hnew⟩ :=
    loadMaplistLoop_giveUp bad after (mapNameOf_no_separator bad hbad1 hbad2) before
      h.mapList hbefore
  have hload : loadMaplist h (some (before ++ bad :: after)) =
      some (false, { h with mapList := mapList1 }) := by
    simp only [loadMaplist, hl2]
  refine ⟨mapList1, hl1, hload, ?_, hkeep, hnew⟩
  simp only [bz_Load, hload]

theorem loadMaplist_gives_up_witness :
    '/' ∉ "Keep.bzw".toList ∧ '\\' ∉ "Keep.bzw".toList ∧
    (∀ p ∈ ["/m/B.bzw".toList, "/m/A.bzw".toList],
      mapNameOf p ≠ MapName.giveUp ∧ mapNameOf p ≠ MapName.outOfRange) ∧
    (∃ mapList1,
      loadMaplistLoop ["/m/B.bzw".toList, "/m/A.bzw".toList]
        (MapVoteHandler.init []).mapList = some (true, mapList1) ∧
      loadMaplist (MapVoteHandler.init [])
          (some (["/m/B.bzw".toList, "/m/A.bzw".toList] ++
            "Keep.bzw".toList :: ["/m/C.bzw".toList])) =
        some (false, { MapVoteHandler.init [] with mapList := mapList1 }) ∧
      bz_Load (MapVoteHandler.init [])
          (some (["/m/B.bzw".toList, "/m/A.bzw".toList] ++
            "Keep.bzw".toList :: ["/m/C.bzw".toList])) =
        some (1, { MapVoteHandler.init [] with mapList := mapList1 }, []) ∧
      (∀ n, (StdMap.find (MapVoteHandler.init []).mapList n).isSome = true →
        (StdMap.find mapList1 n).isSome = true) ∧
      (∀ p ∈ ["/m/B.bzw".toList, "/m/A.bzw".toList], ∀ n, mapNameOf p = MapName.name n →
        (StdMap.find mapList1 n).isSome = true)) ∧
    bz_Load (MapVoteHandler.init [])
        (some ["/m/B.bzw".toList, "/m/A.bzw".toList, "Keep.bzw".toList, "/m/C.bzw".toList]) =
      some (1, MapVoteHandler.init [("A".toList, "/m/A.bzw".toList),
        ("B".toList, "/m/B.bzw".toList)], []) :=
  ⟨by decide, by decide, by decide,
    loadMaplist_gives_up (MapVoteHandler.init []) ["/m/B.bzw".toList, "/m/A.bzw".toList]
      ["/m/C.bzw".toList] "Keep.bzw".toList (by decide) (by decide) (by decide),
    by decide⟩

/-! ## The invariant of the handler -/

/-- Every map in `topMaps` is a key of the tally. -/
theorem pickMap_mem_keys (t : StdMap Int) (random : Nat) (mapName : CppString)
    (hp : pickMap t random = some mapName) : mapName ∈ StdMap.keys t := by
  obtain ⟨_, _, hc, _⟩ := foldl_tallyStep t (-1) []
  have hmem : mapName ∈ (tallyVotes t).2 := by
    rw [pickMap_eq_getElem] at hp
    exact List.getElem?_mem hp
  simp only [tallyVotes] at hmem
  rw [hc] at hmem
  simp only [ite_self, List.nil_append, List.mem_map, List.mem_filter] at hmem
  obtain ⟨e, ⟨he, _⟩, hname⟩ := hmem
  simp only [StdMap.keys, List.mem_map]
  exact ⟨e, he, hname⟩

/-- Reading `m[k]` for a key of the map leaves the map as it is. -/
theorem StdMap.index_of_mem_keys (m : StdMap CppString) (k : CppString)
    (hk : k ∈ StdMap.keys m) :
    (StdMap.index m k).2 = m ∧ StdMap.find m k = some (StdMap.index m k).1 := by
  cases hf : StdMap.find m k with
  | none => exact absurd hk ((StdMap.find_eq_none_iff m k).1 hf)
  | some v => simp [StdMap.index, hf]

theorem tallySum_increment (t : StdMap Int) (k : CppString) (v : Int)
    (hf : StdMap.find t k = some v) : tallySum (StdMap.increment t k) = tallySum t + 1 := by
  induction t with
  | nil => simp [StdMap.find] at hf
  | cons e t ih =>
    obtain ⟨k0, v0⟩ := e
    by_cases h : k = k0
    · simp only [StdMap.increment, h, if_true, tallySum, List.map_cons, List.sum_cons]
      omega
    · simp only [StdMap.find, h, if_false] at hf
      have := ih hf
      simp only [tallySum] at this
      simp only [StdMap.increment, h, if_false, tallySum, List.map_cons, List.sum_cons, this]
      omega

theorem tallySum_of_zero (t : StdMap Int) (hz : ∀ e ∈ t, e.2 = 0) : tallySum t = 0 := by
  induction t with
  | nil => rfl
  | cons e t ih =>
    have h0 : e.2 = 0 := hz e (List.mem_cons_self _ _)
    have ht := ih (fun x hx => hz x (List.mem_cons_of_mem _ hx))
    simp only [tallySum] at ht
    simp only [tallySum, List.map_cons, List.sum_cons, h0, ht]
    rfl

theorem StdMap.wf_increment (t : StdMap Int) (k : CppString) (hwf : StdMap.WF t) :
    StdMap.WF (StdMap.increment t k) := by
  have hk := StdMap.keys_increment t k
  simp only [StdMap.keys] at hk
  unfold StdMap.WF
  rw [hk]
  exact hwf

theorem blank_nil (mapList : StdMap CppString) : Blank mapList [] := by
  simp [Blank, StdMap.WF, StdMap.keys]

theorem blank_startMapVoteStep (api : Api) (mapList : StdMap CppString) (requestor : Int)
    (acc : StdMap Int × List Effect) (mapName : CppString) (h : Blank mapList acc.1) :
    Blank mapList (startMapVoteStep api mapList requestor acc mapName).1 := by
  unfold startMapVoteStep
  split
  · exact h
  · rename_i hf
    obtain ⟨hwf, hkeys, hzero⟩ := h
    refine ⟨StdMap.wf_assign _ _ _ hwf, ?_, ?_⟩
    · intro k hk
      rcases (StdMap.mem_keys_assign _ _ _ _).1 hk with rfl | hk
      · by_contra hnot
        exact hf ((StdMap.find_eq_none_iff mapList _).2 hnot)
      · exact hkeys k hk
    · intro e he
      rcases StdMap.mem_assign _ _ _ _ he with rfl | he
      · rfl
      · exact hzero e he

theorem blank_startMapVoteLoop (api : Api) (mapList : StdMap CppString)
    (command : CppString) (requestor : Int) :
    ∀ (fuel : Nat) (index : Option Nat) (acc r : StdMap Int × List Effect),
      Blank mapList acc.1 →
      startMapVoteLoop api mapList command requestor fuel index acc = some r →
      Blank mapList r.1 := by
  intro fuel
  induction fuel with
  | zero =>
    intro index acc r hacc hr
    cases index with
    | none =>
      rw [startMapVoteLoop_none] at hr
      simp only [Option.some.injEq] at hr
      exact hr ▸ hacc
    | some i => simp [startMapVoteLoop] at hr
  | succ fuel ih =>
    intro index acc r hacc hr
    cases index with
    | none =>
      rw [startMapVoteLoop_none] at hr
      simp only [Option.some.injEq] at hr
      exact hr ▸ hacc
    | some i =>
      rw [startMapVoteLoop_succ] at hr
      exact ih _ _ r (blank_startMapVoteStep api mapList requestor acc _ hacc) hr

theorem blank_allMaps (mapList : StdMap CppString) :
    Blank mapList (mapList.foldl (fun t e => StdMap.assign t e.1 0) []) := by
  have hfresh := freshTally_allMaps mapList [] [] freshTally_nil
  simp only [List.nil_append] at hfresh
  obtain ⟨hwf, hkeys, hzero⟩ := hfresh
  exact ⟨hwf, fun k hk => (hkeys k).1 hk, hzero⟩

theorem consistent_closed (mapList : StdMap CppString) (h : MapVoteHandler)
    (hml : h.mapList = mapList) (ht : h.voteTally = []) (hp : h.playersVoted = ∅) :
    Consistent mapList h := by
  refine ⟨hml, fun _ => ⟨ht, hp⟩, ?_, ?_, ?_, ?_⟩
  · rw [ht]; simp [StdMap.WF]
  · rw [ht]; simp [StdMap.keys]
  · rw [ht]; simp [NonNegative]
  · rw [ht, hp]; simp [tallySum]

theorem consistent_opened (mapList : StdMap CppString) (h : MapVoteHandler)
    (hml : h.mapList = mapList) (hopen : h.votingOpen = true)
    (ht : Blank mapList h.voteTally) (hp : h.playersVoted = ∅) :
    Consistent mapList h := by
  obtain ⟨hwf, hkeys, hzero⟩ := ht
  refine ⟨hml, ?_, hwf, hkeys, ?_, ?_⟩
  · intro hc
    rw [hopen] at hc
    exact absurd hc (by decide)
  · intro e he
    rw [hzero e he]
  · rw [tallySum_of_zero _ hzero, hp]
    simp

theorem consistent_vote (mapList : StdMap CppString) (h : MapVoteHandler)
    (mapName : CppString) (voterID votes : Int) (hP : Consistent mapList h)
    (hopen : h.votingOpen = true) (hnv : voterID ∉ h.playersVoted)
    (hfind : StdMap.find h.voteTally mapName = some votes) :
    Consistent mapList
      { h with
        voteTally := StdMap.increment h.voteTally mapName,
        playersVoted := insert voterID h.playersVoted } := by
  obtain ⟨hml, _, hwf, hkeys, hnn, hsum⟩ := hP
  refine ⟨hml, ?_, StdMap.wf_increment _ _ hwf, ?_, nonNegative_increment _ _ hnn, ?_⟩
  · intro hc
    simp only [hopen] at hc
    exact absurd hc (by decide)
  · intro k hk
    simp only [StdMap.keys_increment] at hk
    exact hkeys k hk
  · simp only [tallySum_increment _ _ _ hfind, hsum, Finset.card_insert_of_not_mem hnv]
    push_cast
    rfl

theorem startMapVote_consistent (api : Api) (host : Host) (mapList : StdMap CppString)
    (h h1 : MapVoteHandler) (command : CppString) (requestor : Int) (effects : List Effect)
    (hP : Consistent mapList h)
    (hs : startMapVote api host h command requestor = some (h1, effects)) :
    Consistent mapList h1 := by
  have hg : ∀ g, (if h.votingOpen = true then resetVoting h else h) = g →
      g.mapList = mapList ∧ g.voteTally = [] ∧ g.playersVoted = ∅ := by
    intro g hg
    obtain ⟨hml, hce, _⟩ := hP
    cases hv : h.votingOpen with
    | true =>
      simp only [hv, if_true] at hg
      rw [← hg]
      exact ⟨hml, rfl, rfl⟩
    | false =>
      simp only [hv, Bool.false_eq_true, if_false] at hg
      rw [← hg]
      exact ⟨hml, (hce hv).1, (hce hv).2⟩
  unfold startMapVote at hs
  split at hs
  · simp only [Option.some.injEq, Prod.mk.injEq] at hs
    exact hs.1 ▸ hP
  · split at hs
    · simp only [Option.some.injEq, Prod.mk.injEq] at hs
      exact hs.1 ▸ hP
    · dsimp only at hs
      generalize hgen : (if h.votingOpen = true then resetVoting h else h) = g at hs
      obtain ⟨hml, ht, hp⟩ := hg g hgen
      split at hs
      · simp only [Option.some.injEq, Prod.mk.injEq] at hs
        rw [← hs.1]
        refine consistent_opened mapList _ hml rfl ?_ hp
        show Blank mapList (List.foldl (fun t e => StdMap.assign t e.1 0) g.voteTally g.mapList)
        rw [ht, hml]
        exact blank_allMaps mapList
      · split at hs
        · simp at hs
        · rename_i voteTally effects0 hloop
          have hb : Blank mapList voteTally := by
            have := blank_startMapVoteLoop api g.mapList command requestor _ _
              (g.voteTally, []) (voteTally, effects0) (by rw [ht]; exact blank_nil _) hloop
            rw [hml] at this
            exact this
          split at hs
          · simp only [Option.some.injEq, Prod.mk.injEq] at hs
            rw [← hs.1]
            exact consistent_opened mapList _ hml rfl hb hp
          · simp only [Option.some.injEq, Prod.mk.injEq] at hs
            rw [← hs.1]
            exact consistent_closed mapList _ hml rfl rfl

theorem endMapVote_consistent (api : Api) (host : Host) (mapList : StdMap CppString)
    (h h1 : MapVoteHandler) (requestor : Int) (effects : List Effect)
    (hP : Consistent mapList h)
    (hs : endMapVote api host h requestor = some (h1, effects)) :
    Consistent mapList h1 := by
  unfold endMapVote at hs
  split at hs
  · simp only [Option.some.injEq, Prod.mk.injEq] at hs
    exact hs.1 ▸ hP
  · split at hs
    · simp only [Option.some.injEq, Prod.mk.injEq] at hs
      exact hs.1 ▸ hP
    · split at hs
      · simp at hs
      · rename_i winner hpick
        simp only [Option.some.injEq, Prod.mk.injEq] at hs
        rw [← hs.1]
        obtain ⟨hml, _, _, hkeys, _, _⟩ := hP
        have hk : winner ∈ StdMap.keys h.mapList := by
          rw [hml]
          exact hkeys winner (pickMap_mem_keys _ _ _ hpick)
        refine consistent_closed mapList _ ?_ rfl rfl
        show (StdMap.index h.mapList winner).2 = mapList
        rw [(StdMap.index_of_mem_keys h.mapList winner hk).1, hml]

theorem cancelMapVote_consistent (api : Api) (host : Host) (mapList : StdMap CppString)
    (h : MapVoteHandler) (requestor : Int) (hP : Consistent mapList h) :
    Consistent mapList (cancelMapVote api host h requestor).1 := by
  unfold cancelMapVote
  split
  · exact hP
  · split
    · exact hP
    · exact consistent_closed mapList _ hP.1 rfl rfl

theorem changeMap_consistent (api : Api) (host : Host) (mapList : StdMap CppString)
    (h : MapVoteHandler) (command : CppString) (requestor : Int)
    (hP : Consistent mapList h) :
    Consistent mapList (changeMap api host h command requestor).1 := by
  unfold changeMap
  split
  · exact hP
  · split
    · exact hP
    · dsimp only
      split
      · exact hP
      · exact consistent_closed mapList _ hP.1 rfl rfl

theorem voteMap_consistent (api : Api) (host : Host) (mapList : StdMap CppString)
    (h h1 : MapVoteHandler) (command : CppString) (voterID : Int) (effects : List Effect)
    (hP : Consistent mapList h)
    (hs : voteMap api host h command voterID = some (h1, effects)) :
    Consistent mapList h1 := by
  unfold voteMap at hs
  split at hs
  · simp only [Option.some.injEq, Prod.mk.injEq] at hs
    exact hs.1 ▸ hP
  · split at hs
    · simp only [Option.some.injEq, Prod.mk.injEq] at hs
      exact hs.1 ▸ hP
    · rename_i hopen
      have hopen2 : h.votingOpen = true := by
        simpa [verifyVotingOpen] using hopen
      split at hs
      · simp only [Option.some.injEq, Prod.mk.injEq] at hs
        exact hs.1 ▸ hP
      · rename_i hnv
        split at hs
        · simp only [Option.some.injEq, Prod.mk.injEq] at hs
          exact hs.1 ▸ hP
        · dsimp only at hs
          split at hs
          · simp only [Option.some.injEq, Prod.mk.injEq] at hs
            exact hs.1 ▸ hP
          · rename_i votes hfind
            have hrec := consistent_vote mapList h _ voterID votes hP hopen2 hnv hfind
            split at hs
            · split at hs
              · simp at hs
              · rename_i h2 effects2 hend
                simp only [Option.some.injEq, Prod.mk.injEq] at hs
                rw [← hs.1]
                exact endMapVote_consistent _ _ _ _ _ _ _ hrec hend
            · simp only [Option.some.injEq, Prod.mk.injEq] at hs
              rw [← hs.1]
              exact hrec

theorem process_consistent (api : Api) (host : Host) (mapList : StdMap CppString)
    (h : MapVoteHandler) (event : bz_EventData) (h1 : MapVoteHandler) (effects : List Effect)
    (hP : Consistent mapList h)
    (hs : process api host h event = some (h1, effects)) : Consistent mapList h1 := by
  cases event with
  | unknownSlashCommand sender message =>
    simp only [process, handleCommand] at hs
    split at hs
    · simp only [Option.map_eq_some'] at hs
      obtain ⟨r, hr, hr2⟩ := hs
      simp only [Prod.mk.injEq] at hr2
      exact hr2.1 ▸ voteMap_consistent api host mapList h r.1 message sender r.2 hP hr
    · split at hs
      · simp only [Option.some.injEq, Prod.mk.injEq] at hs
        exact hs.1 ▸ hP
      · split at hs
        · simp only [Option.some.injEq, Prod.mk.injEq] at hs
          exact hs.1 ▸ hP
        · split at hs
          · simp only [Option.map_eq_some'] at hs
            obtain ⟨r, hr, hr2⟩ := hs
            simp only [Prod.mk.injEq] at hr2
            exact hr2.1 ▸
              startMapVote_consistent api host mapList h r.1 message sender r.2 hP hr
          · split at hs
            · simp only [Option.map_eq_some'] at hs
              obtain ⟨r, hr, hr2⟩ := hs
              simp only [Prod.mk.injEq] at hr2
              exact hr2.1 ▸ endMapVote_consistent api host mapList h r.1 sender r.2 hP hr
            · split at hs
              · simp only [Option.some.injEq, Prod.mk.injEq] at hs
                exact hs.1 ▸ cancelMapVote_consistent api host mapList h sender hP
              · split at hs
                · simp only [Option.some.injEq, Prod.mk.injEq] at hs
                  exact hs.1 ▸ changeMap_consistent api host mapList h message sender hP
                · simp only [Option.some.injEq, Prod.mk.injEq] at hs
                  exact hs.1 ▸ hP
  | getWorld =>
    simp only [process, loadMap, Option.some.injEq, Prod.mk.injEq] at hs
    rw [← hs.1]
    exact hP
  | gameEnd =>
    exact startMapVote_consistent api host mapList h h1 [] api.BZ_SERVER effects hP hs
  | tick time =>
    simp only [process, Option.some.injEq, Prod.mk.injEq] at hs
    exact hs.1 ▸ hP
  | other =>
    simp only [process, Option.some.injEq, Prod.mk.injEq] at hs
    exact hs.1 ▸ hP

/-- Every reachable state of the handler is consistent. -/
theorem reachable_consistent (api : Api) (mapList : StdMap CppString) (h : MapVoteHandler)
    (hr : Reachable api mapList h) : Consistent mapList h := by
  obtain ⟨events, hrun⟩ := hr
  refine run_induction api (Consistent mapList) ?_ events (MapVoteHandler.init mapList) h ?_
    hrun
  · intro host h0 event h1 effects hP hs
    exact process_consistent api host mapList h0 event h1 effects hP hs
  · exact consistent_closed mapList _ rfl rfl rfl

/-- C14: in every reachable state every key of the tally is a key of the map list the
handler was started with, and the map list of the handler is still that list; so for every
map `endMapVote` can pick, `mapList[mapName]` finds its path and leaves the map list as it
is. -/
theorem tally_keys_in_map_list (api : Api) (mapList : StdMap CppString) (h : MapVoteHandler)
    (hr : Reachable api mapList h) :
    (∀ k ∈ StdMap.keys h.voteTally, k ∈ StdMap.keys mapList) ∧
    h.mapList = mapList ∧
    (∀ (random : Nat) (winner : CppString), pickMap h.voteTally random = some winner →
      ∃ path, StdMap.find mapList winner = some path ∧
        StdMap.index h.mapList winner = (path, mapList)) := by
  obtain ⟨hml, _, _, hkeys, _, _⟩ := reachable_consistent api mapList h hr
  refine ⟨hkeys, hml, ?_⟩
  intro random winner hpick
  have hk : winner ∈ StdMap.keys h.mapList := by
    rw [hml]
    exact hkeys winner (pickMap_mem_keys _ _ _ hpick)
  obtain ⟨h1, h2⟩ := StdMap.index_of_mem_keys h.mapList winner hk
  refine ⟨(StdMap.index h.mapList winner).1, ?_, ?_⟩
  · rw [← hml]; exact h2
  · rw [← hml]
    exact Prod.ext rfl h1

theorem tally_keys_in_map_list_witness :
    Reachable Sample.api Sample.maps (Sample.poll 1 0 {1}) ∧
    ((∀ k ∈ StdMap.keys (Sample.poll 1 0 {1}).voteTally, k ∈ StdMap.keys Sample.maps) ∧
      (Sample.poll 1 0 {1}).mapList = Sample.maps ∧
      (∀ (random : Nat) (winner : CppString),
        pickMap (Sample.poll 1 0 {1}).voteTally random = some winner →
        ∃ path, StdMap.find Sample.maps winner = some path ∧
          StdMap.index (Sample.poll 1 0 {1}).mapList winner = (path, Sample.maps))) :=
  ⟨⟨[(Sample.host 4 0, .unknownSlashCommand 0 "/startmapvote B A".toList),
      (Sample.host 4 0, .unknownSlashCommand 1 "/votemap A".toList)], by decide⟩,
    tally_keys_in_map_list Sample.api Sample.maps (Sample.poll 1 0 {1})
      ⟨[(Sample.host 4 0, .unknownSlashCommand 0 "/startmapvote B A".toList),
        (Sample.host 4 0, .unknownSlashCommand 1 "/votemap A".toList)], by decide⟩⟩

/-- C19: in every reachable state the counts of the tally add up to the number of players
who have voted, and every count is non-negative. -/
theorem votes_match_voters (api : Api) (mapList : StdMap CppString) (h : MapVoteHandler)
    (hr : Reachable api mapList h) :
    tallySum h.voteTally = (h.playersVoted.card : Int) ∧ NonNegative h.voteTally := by
  obtain ⟨_, _, _, _, hnn, hsum⟩ := reachable_consistent api mapList h hr
  exact ⟨hsum, hnn⟩

theorem votes_match_voters_witness :
    Reachable Sample.api Sample.maps (Sample.poll 1 1 {2, 1}) ∧
    (tallySum (Sample.poll 1 1 {2, 1}).voteTally =
        ((Sample.poll 1 1 {2, 1}).playersVoted.card : Int) ∧
      NonNegative (Sample.poll 1 1 {2, 1}).voteTally) :=
  ⟨⟨[(Sample.host 4 0, .unknownSlashCommand 0 "/startmapvote B A".toList),
      (Sample.host 4 0, .unknownSlashCommand 1 "/votemap A".toList),
      (Sample.host 4 0, .unknownSlashCommand 2 "/votemap B".toList)], by decide⟩,
    votes_match_voters Sample.api Sample.maps (Sample.poll 1 1 {2, 1})
      ⟨[(Sample.host 4 0, .unknownSlashCommand 0 "/startmapvote B A".toList),
        (Sample.host 4 0, .unknownSlashCommand 1 "/votemap A".toList),
        (Sample.host 4 0, .unknownSlashCommand 2 "/votemap B".toList)], by decide⟩⟩

/-- C13: `bz_Load` accepts an empty map list file; with it the poll that a game end opens
has an empty tally, a reachable state with an open poll: there `endMapVote` has no map to
pick (`topMaps` is empty and the remainder `random() % topMaps.size()` is undefined), for an
administrator as for the server, so no restart is armed. -/
theorem close_without_candidates :
    bz_Load (MapVoteHandler.init []) (some []) =
      some (0, MapVoteHandler.init [],
        [bz_eEventType.bz_eUnknownSlashCommand, bz_eEventType.bz_eGetWorldEvent,
          bz_eEventType.bz_eGameEndEvent]) ∧
    run Sample.api (MapVoteHandler.init []) [(Sample.host 4 0, .gameEnd)] =
      some { MapVoteHandler.init [] with votingOpen := true } ∧
    ({ MapVoteHandler.init [] with votingOpen := true } : MapVoteHandler).votingOpen = true ∧
    (Sample.host 4 0).admin 0 = true ∧
    pickMap ({ MapVoteHandler.init [] with votingOpen := true } : MapVoteHandler).voteTally
      (Sample.host 4 0).random = none ∧
    endMapVote Sample.api (Sample.host 4 0)
      { MapVoteHandler.init [] with votingOpen := true } 0 = none ∧
    endMapVote Sample.api (Sample.host 4 0)
      { MapVoteHandler.init [] with votingOpen := true } Sample.api.BZ_SERVER = none ∧
    process Sample.api (Sample.host 4 0) { MapVoteHandler.init [] with votingOpen := true }
      (.unknownSlashCommand 0 "/endmapvote".toList) = none := by
  decide

/-! ## The majority -/

theorem StdMap.mem_of_find {V : Type} (m : StdMap V) (k : CppString) (v : V)
    (hf : StdMap.find m k = some v) : (k, v) ∈ m := by
  induction m with
  | nil => simp only [StdMap.find] at hf; exact absurd hf (by simp)
  | cons e m ih =>
    obtain ⟨k0, v0⟩ := e
    by_cases h : k = k0
    · simp only [StdMap.find, h, if_true, Option.some.injEq] at hf
      rw [h, ← hf]
      exact List.mem_cons_self _ _
    · simp only [StdMap.find, h, if_false] at hf
      exact List.mem_cons_of_mem _ (ih hf)

theorem tallySum_nonneg (t : StdMap Int) (hnn : NonNegative t) : 0 ≤ tallySum t := by
  induction t with
  | nil => simp [tallySum]
  | cons e t ih =>
    have h0 : 0 ≤ e.2 := hnn e (List.mem_cons_self _ _)
    have ht := ih (fun x hx => hnn x (List.mem_cons_of_mem _ hx))
    simp only [tallySum] at ht
    simp only [tallySum, List.map_cons, List.sum_cons]
    omega

theorem single_le_tallySum (t : StdMap Int) (hnn : NonNegative t) (a : CppString × Int)
    (ha : a ∈ t) : a.2 ≤ tallySum t := by
  induction t with
  | nil => simp at ha
  | cons e t ih =>
    have h0 : 0 ≤ e.2 := hnn e (List.mem_cons_self _ _)
    have hnt : NonNegative t := fun x hx => hnn x (List.mem_cons_of_mem _ hx)
    have hs := tallySum_nonneg t hnt
    simp only [tallySum] at hs
    simp only [tallySum, List.map_cons, List.sum_cons]
    rcases List.mem_cons.1 ha with rfl | ha
    · omega
    · have := ih hnt ha
      simp only [tallySum] at this
      omega

/-- Two different entries of a tally with non-negative counts hold together at most all the
votes. -/
theorem pair_le_tallySum (t : StdMap Int) (hnn : NonNegative t) (a b : CppString × Int)
    (ha : a ∈ t) (hb : b ∈ t) (hab : a ≠ b) : a.2 + b.2 ≤ tallySum t := by
  induction t with
  | nil => simp at ha
  | cons e t ih =>
    have h0 : 0 ≤ e.2 := hnn e (List.mem_cons_self _ _)
    have hnt : NonNegative t := fun x hx => hnn x (List.mem_cons_of_mem _ hx)
    have hsum : tallySum (e :: t) = e.2 + tallySum t := by
      simp [tallySum]
    rw [hsum]
    rcases List.mem_cons.1 ha with hae | ha
    · rcases List.mem_cons.1 hb with hbe | hb
      · exact absurd (hae.trans hbe.symm) hab
      · have := single_le_tallySum t hnt b hb
        rw [hae]
        omega
    · rcases List.mem_cons.1 hb with hbe | hb
      · have := single_le_tallySum t hnt a ha
        rw [hbe]
        omega
      · have := ih hnt ha hb
        omega

/-- A map with more than half of at least as many votes as the tally holds is the only one
that `endMapVote` can pick. -/
theorem pickMap_majority (t : StdMap Int) (hnn : NonNegative t) (mapName : CppString)
    (votes n : Int) (hmem : (mapName, votes) ∈ t) (hsum : tallySum t ≤ n)
    (hmaj : n < 2 * votes) (random : Nat) :
    (∀ e ∈ t, e.1 ≠ mapName → e.2 < votes) ∧ pickMap t random = some mapName := by
  have hothers : ∀ e ∈ t, e ≠ (mapName, votes) → e.2 < votes := by
    intro e he hne
    have := pair_le_tallySum t hnn e (mapName, votes) he hmem hne
    simp only at this
    omega
  have hne : t ≠ [] := List.ne_nil_of_mem hmem
  obtain ⟨hb, ⟨e0, he0, hmax⟩, hc, _⟩ := tallyVotes_spec t hne hnn
  have hM : (tallyVotes t).1 = votes := by
    have h1 : votes ≤ (tallyVotes t).1 := hb (mapName, votes) hmem
    by_cases heq : e0 = (mapName, votes)
    · rw [← hmax, heq]
    · have := hothers e0 he0 heq
      omega
  obtain ⟨winner, hpick⟩ := pickMap_isSome t hne hnn random
  have hw : winner ∈ tiedAt t (tallyVotes t).1 := by
    rw [← hc]
    rw [pickMap_eq_getElem] at hpick
    exact List.getElem?_mem hpick
  simp only [tiedAt, List.mem_map, List.mem_filter, decide_eq_true_eq] at hw
  obtain ⟨e, ⟨he, hev⟩, hname⟩ := hw
  have hwin : winner = mapName := by
    by_cases heq : e = (mapName, votes)
    · rw [← hname, heq]
    · have := hothers e he heq
      omega
  refine ⟨?_, hwin ▸ hpick⟩
  intro e he hk
  exact hothers e he (fun heq => hk (by rw [heq]))

/-- C20: for every reachable state with an open poll and every accepted vote, with `n` the
number of players minus the number of observers, `n ≥ 0`, and no more players having voted
after the vote than `n`: if after the vote the count of the map voted for is greater than
`n / 2` (truncating division), then every other map of the tally has fewer votes, the vote
closes the poll, and `nextMap` is the path the map list gives for the map voted for,
whatever the value of `random()`. -/
theorem majority_vote_wins (api : Api) (host : Host) (mapList : StdMap CppString)
    (h : MapVoteHandler) (mapName : CppString) (voterID votes : Int)
    (hr : Reachable api mapList h)
    (hopen : h.votingOpen = true)
    (hobs : host.team voterID ≠ api.eObservers)
    (hnv : voterID ∉ h.playersVoted)
    (hfind : StdMap.find h.voteTally mapName = some votes)
    (hn : 0 ≤ (host.playerIndexListSize : Int) - host.teamCount api.eObservers)
    (hvoters : ((insert voterID h.playersVoted).card : Int) ≤
      (host.playerIndexListSize : Int) - host.teamCount api.eObservers)
    (hmaj : votes + 1 >
      Int.tdiv ((host.playerIndexListSize : Int) - host.teamCount api.eObservers) 2) :
    (∀ e ∈ StdMap.increment h.voteTally mapName, e.1 ≠ mapName → e.2 < votes + 1) ∧
    StdMap.find (StdMap.increment h.voteTally mapName) mapName = some (votes + 1) ∧
    pickMap (StdMap.increment h.voteTally mapName) host.random = some mapName ∧
    ∃ path h1 effects,
      StdMap.find mapList mapName = some path ∧
      voteMap api host h (VOTEMAP_COMMAND ++ ' ' :: mapName) voterID = some (h1, effects) ∧
      h1.votingOpen = false ∧
      h1.nextMap = path ∧
      h1.restartTime = host.currentTime + RESTART_WAIT_TIME ∧
      Effect.registerEvent ∈ effects := by
  have hP := reachable_consistent api mapList h hr
  have hrec := consistent_vote mapList h mapName voterID votes hP hopen hnv hfind
  obtain ⟨hml, _, _, hkeys, hnn, hsum⟩ := hrec
  simp only at hkeys hnn hsum
  have hfind1 : StdMap.find (StdMap.increment h.voteTally mapName) mapName =
      some (votes + 1) := by
    simp [StdMap.find_increment_self, hfind]
  have hmem := StdMap.mem_of_find _ _ _ hfind1
  have h2 : (host.playerIndexListSize : Int) - host.teamCount api.eObservers <
      2 * (votes + 1) := by
    rw [Int.tdiv_eq_ediv hn (by decide)] at hmaj
    omega
  obtain ⟨hothers, hpick⟩ := pickMap_majority _ hnn mapName (votes + 1) _ hmem
    (hsum ▸ hvoters) h2 host.random
  have hk : mapName ∈ StdMap.keys h.mapList := by
    rw [hP.1]
    refine hkeys mapName ?_
    simp only [StdMap.keys, List.mem_map]
    exact ⟨_, hmem, rfl⟩
  obtain ⟨_, hpath⟩ := StdMap.index_of_mem_keys h.mapList mapName hk
  have hidx := find_first_of_keyword VOTEMAP_COMMAND mapName votemap_command_no_space
  have hsub := substr_keyword VOTEMAP_COMMAND mapName
  have hfind2 : StdMap.find h.voteTally
      (substr (VOTEMAP_COMMAND ++ ' ' :: mapName) (VOTEMAP_COMMAND.length + 1)) = some votes := by
    rw [hsub]; exact hfind
  have hv := voteMap_accepted api host h _ voterID _ votes hobs hopen hnv hidx hfind2
  rw [hsub] at hv
  have hc : voteEndsPoll (insert voterID h.playersVoted).card (votes + 1)
      ((host.playerIndexListSize : Int) - host.teamCount api.eObservers) = true := by
    simp only [voteEndsPoll, Bool.or_eq_true, decide_eq_true_eq]
    exact Or.inr hmaj
  rw [if_pos hc, endMapVote_server] at hv
  simp only [hpick] at hv
  refine ⟨hothers, hfind1, hpick, (StdMap.index h.mapList mapName).1, _, _, ?_, hv, rfl, rfl,
    rfl, by simp⟩
  rw [← hP.1]
  exact hpath

theorem majority_vote_wins_witness :
    Reachable Sample.api Sample.maps (Sample.poll 2 0 {2, 1}) ∧
    (Sample.poll 2 0 {2, 1}).votingOpen = true ∧
    (Sample.host 4 5).team 3 ≠ Sample.api.eObservers ∧
    (3 : Int) ∉ (Sample.poll 2 0 {2, 1}).playersVoted ∧
    StdMap.find (Sample.poll 2 0 {2, 1}).voteTally "A".toList = some 2 ∧
    0 ≤ ((Sample.host 4 5).playerIndexListSize : Int) -
      (Sample.host 4 5).teamCount Sample.api.eObservers ∧
    ((insert (3 : Int) (Sample.poll 2 0 {2, 1}).playersVoted).card : Int) ≤
      ((Sample.host 4 5).playerIndexListSize : Int) -
        (Sample.host 4 5).teamCount Sample.api.eObservers ∧
    (2 : Int) + 1 >
      Int.tdiv (((Sample.host 4 5).playerIndexListSize : Int) -
        (Sample.host 4 5).teamCount Sample.api.eObservers) 2 ∧
    ((∀ e ∈ StdMap.increment (Sample.poll 2 0 {2, 1}).voteTally "A".toList,
        e.1 ≠ "A".toList → e.2 < 2 + 1) ∧
      StdMap.find (StdMap.increment (Sample.poll 2 0 {2, 1}).voteTally "A".toList)
        "A".toList = some (2 + 1) ∧
      pickMap (StdMap.increment (Sample.poll 2 0 {2, 1}).voteTally "A".toList)
        (Sample.host 4 5).random = some "A".toList ∧
      ∃ path h1 effects,
        StdMap.find Sample.maps "A".toList = some path ∧
        voteMap Sample.api (Sample.host 4 5) (Sample.poll 2 0 {2, 1})
          (VOTEMAP_COMMAND ++ ' ' :: "A".toList) 3 = some (h1, effects) ∧
        h1.votingOpen = false ∧
        h1.nextMap = path ∧
        h1.restartTime = (Sample.host 4 5).currentTime + RESTART_WAIT_TIME ∧
        Effect.registerEvent ∈ effects) ∧
    (voteMap Sample.api (Sample.host 1 0) (Sample.poll 3 0 {3, 2, 1}) "/votemap B".toList 4).map
        (fun r => (r.1.votingOpen, r.1.nextMap)) =
      some (false, "/m/A.bzw".toList) :=
  ⟨⟨[(Sample.host 4 0, .unknownSlashCommand 0 "/startmapvote B A".toList),
      (Sample.host 4 0, .unknownSlashCommand 1 "/votemap A".toList),
      (Sample.host 4 0, .unknownSlashCommand 2 "/votemap A".toList)], by decide⟩,
    by decide, by decide, by decide, by decide, by decide, by decide, by decide,
    majority_vote_wins Sample.api (Sample.host 4 5) Sample.maps (Sample.poll 2 0 {2, 1})
      "A".toList 3 2
      ⟨[(Sample.host 4 0, .unknownSlashCommand 0 "/startmapvote B A".toList),
        (Sample.host 4 0, .unknownSlashCommand 1 "/votemap A".toList),
        (Sample.host 4 0, .unknownSlashCommand 2 "/votemap A".toList)], by decide⟩
      (by decide) (by decide) (by decide) (by decide) (by decide) (by decide) (by decide),
    by decide⟩

/-- Where `endMapVote` has a map to pick, in a consistent state with a tally that is not
empty, it arms the restart: `nextMap` is the path of a map with the greatest count,
`restartTime` is five seconds ahead, and the poll is closed and empty. -/
theorem endMapVote_arms_restart (api : Api) (host : Host) (mapList : StdMap CppString)
    (h : MapVoteHandler) (requestor : Int) (hP : Consistent mapList h)
    (hopen : h.votingOpen = true) (hne : h.voteTally ≠ [])
    (hreq : requestor = api.BZ_SERVER ∨ host.admin requestor = true ∨
      host.op requestor = true) :
    ∃ winner votes path h1 effects,
      endMapVote api host h requestor = some (h1, effects) ∧
      (winner, votes) ∈ h.voteTally ∧ (∀ e ∈ h.voteTally, e.2 ≤ votes) ∧
      StdMap.find mapList winner = some path ∧
      h1 = { mapList := mapList, votingOpen := false, voteTally := [], playersVoted := ∅,
             restartTime := host.currentTime + 5, nextMap := path } ∧
      Effect.registerEvent ∈ effects := by
  obtain ⟨hml, _, _, hkeys, hnn, _⟩ := hP
  obtain ⟨hb, _, hc, hlen⟩ := tallyVotes_spec h.voteTally hne hnn
  obtain ⟨winner, hpick⟩ := pickMap_isSome h.voteTally hne hnn host.random
  have hw : winner ∈ tiedAt h.voteTally (tallyVotes h.voteTally).1 := by
    rw [← hc]
    rw [pickMap_eq_getElem] at hpick
    exact List.getElem?_mem hpick
  simp only [tiedAt, List.mem_map, List.mem_filter, decide_eq_true_eq] at hw
  obtain ⟨e, ⟨he, hev⟩, hname⟩ := hw
  have hk : winner ∈ StdMap.keys h.mapList := by
    rw [hml]
    exact hkeys winner (pickMap_mem_keys _ _ _ hpick)
  obtain ⟨hsame, hpath⟩ := StdMap.index_of_mem_keys h.mapList winner hk
  have h1 : ¬ (requestor ≠ api.BZ_SERVER ∧ (verifyAdminOp api host requestor).1 = false) :=
    startMapVote_allowed api host requestor hreq
  have h2 : ¬ (requestor ≠ api.BZ_SERVER ∧ (verifyVotingOpen api h requestor).1 = false) := by
    simp [verifyVotingOpen, hopen]
  have hend : endMapVote api host h requestor =
      some (
        { resetVoting { h with
            nextMap := (StdMap.index h.mapList winner).1,
            mapList := (StdMap.index h.mapList winner).2 } with
          restartTime := host.currentTime + RESTART_WAIT_TIME },
        (if requestor ≠ api.BZ_SERVER then
          [Effect.sendTextMessage api.BZ_SERVER api.BZ_ALLUSERS
            ("MapVote: ".toList ++ getCallsign host requestor ++
              " ended the map voting.".toList)]
         else []) ++
        [Effect.sendTextMessagef api.BZ_SERVER api.BZ_ALLUSERS
          ("MapVote: ".toList ++ winner ++
            " has won the map vote! Server will restart in %d seconds.".toList)
          RESTART_WAIT_TIME,
         Effect.registerEvent]) := by
    unfold endMapVote
    rw [if_neg h1, if_neg h2]
    simp only [hpick]
  refine ⟨winner, (tallyVotes h.voteTally).1, (StdMap.index h.mapList winner).1, _, _, hend,
    ?_, hb, ?_, ?_, ?_⟩
  · rw [← hname, ← hev]
    exact he
  · rw [← hml]; exact hpath
  · rw [hml] at hsame
    simp only [resetVoting, hml, hsame, RESTART_WAIT_TIME]
  · simp

/-! ## Reading the map to load -/

theorem mapNameOf_separator (path : CppString) (h : mapNameOf path ≠ MapName.giveUp) :
    '/' ∈ path ∨ '\\' ∈ path := by
  by_contra hno
  simp only [not_or] at hno
  exact h (mapNameOf_no_separator path hno.1 hno.2)

/-- Every path that `loadMaplist` puts in the map list has a directory separator. -/
theorem loadMaplistLoop_paths :
    ∀ (words : List CppString) (mapList : StdMap CppString) (r : Bool × StdMap CppString),
      (∀ e ∈ mapList, '/' ∈ e.2 ∨ '\\' ∈ e.2) →
      loadMaplistLoop words mapList = some r →
      ∀ e ∈ r.2, '/' ∈ e.2 ∨ '\\' ∈ e.2 := by
  intro words
  induction words with
  | nil =>
    intro mapList r hall hr
    simp only [loadMaplistLoop, Option.some.injEq] at hr
    rw [← hr]
    exact hall
  | cons p rest ih =>
    intro mapList r hall hr
    simp only [loadMaplistLoop] at hr
    split at hr
    · simp only [Option.some.injEq] at hr
      rw [← hr]
      exact hall
    · simp at hr
    · rename_i n hn
      refine ih _ r ?_ hr
      intro e he
      rcases StdMap.mem_assign _ _ _ _ he with rfl | he
      · exact mapNameOf_separator p (by rw [hn]; simp)
      · exact hall e he

/-- C15: the map to load is read once.  A world-generation event resets `nextMap` to
`MAPVOTE_NOMAP` whatever it was; when a map is armed (`nextMap` is not `MAPVOTE_NOMAP`, as
after `endMapVote` or `changeMap`) the event receives exactly that map as world file; and a
later world-generation event, after any events handled without arming a restart (none of
them registers for tick events, which `endMapVote` and `changeMap` do), receives no world
file.  A path of a loaded map list is never `MAPVOTE_NOMAP`, so a map armed from the list
is always handed over. -/
theorem nextMap_read_once (api : Api) (h : MapVoteHandler)
    (events : List (Host × bz_EventData)) (h1 : MapVoteHandler) (effects : List Effect)
    (hrun : runLog api (loadMap h).1 events = some (h1, effects))
    (hquiet : Effect.registerEvent ∉ effects) :
    (loadMap h).1 = { h with nextMap := MAPVOTE_NOMAP } ∧
    (h.nextMap ≠ MAPVOTE_NOMAP → (loadMap h).2 = [Effect.worldFile h.nextMap]) ∧
    (h.nextMap = MAPVOTE_NOMAP → (loadMap h).2 = []) ∧
    h1.nextMap = MAPVOTE_NOMAP ∧
    (loadMap h1).2 = [] ∧
    (loadMap h1).1.nextMap = MAPVOTE_NOMAP ∧
    (∀ (words : List CppString) (h0 : MapVoteHandler) (mapName path : CppString),
      loadMaplist (MapVoteHandler.init []) (some words) = some (true, h0) →
      StdMap.find h0.mapList mapName = some path → path ≠ MAPVOTE_NOMAP) := by
  have hn : h1.nextMap = MAPVOTE_NOMAP :=
    runLog_nextMap api events (loadMap h).1 h1 effects hrun hquiet rfl
  refine ⟨rfl, ?_, ?_, hn, ?_, rfl, ?_⟩
  · intro hne
    simp [loadMap, hne]
  · intro he
    simp [loadMap, he]
  · simp [loadMap, hn]
  · intro words h0 mapName path hload hfind hpath
    simp only [loadMaplist] at hload
    split at hload
    · simp at hload
    · rename_i result mapList1 hloop
      simp only [Option.some.injEq, Prod.mk.injEq] at hload
      have hmem := StdMap.mem_of_find _ _ _ hfind
      rw [← hload.2] at hmem
      have hsep := loadMaplistLoop_paths words (MapVoteHandler.init []).mapList
        (result, mapList1) (by simp [MapVoteHandler.init]) hloop (mapName, path) hmem
      rw [hpath] at hsep
      have hnomap : ¬ ('/' ∈ MAPVOTE_NOMAP ∨ '\\' ∈ MAPVOTE_NOMAP) := by decide
      exact hnomap hsep

theorem nextMap_read_once_witness :
    runLog Sample.api (loadMap Sample.armed).1
        [(Sample.host 4 0, bz_EventData.tick 101), (Sample.host 4 0, bz_EventData.gameEnd)] =
      some (Sample.pollAfterRestart,
            [Effect.sendTextMessage (-2) (-1)
              "MapVote: initiating new map poll with all maps.".toList]) ∧
    Effect.registerEvent ∉
      [Effect.sendTextMessage (-2) (-1)
        "MapVote: initiating new map poll with all maps.".toList] ∧
    ((loadMap Sample.armed).1 = { Sample.armed with nextMap := MAPVOTE_NOMAP } ∧
      (Sample.armed.nextMap ≠ MAPVOTE_NOMAP →
        (loadMap Sample.armed).2 = [Effect.worldFile Sample.armed.nextMap]) ∧
      (Sample.armed.nextMap = MAPVOTE_NOMAP → (loadMap Sample.armed).2 = []) ∧
      Sample.pollAfterRestart.nextMap = MAPVOTE_NOMAP ∧
      (loadMap Sample.pollAfterRestart).2 = [] ∧
      (loadMap Sample.pollAfterRestart).1.nextMap = MAPVOTE_NOMAP ∧
      (∀ (words : List CppString) (h0 : MapVoteHandler) (mapName path : CppString),
        loadMaplist (MapVoteHandler.init []) (some words) = some (true, h0) →
        StdMap.find h0.mapList mapName = some path → path ≠ MAPVOTE_NOMAP)) ∧
    (loadMap Sample.armed).2 = [Effect.worldFile "/m/A.bzw".toList] :=
  ⟨by decide, by decide,
    nextMap_read_once Sample.api Sample.armed
      [(Sample.host 4 0, bz_EventData.tick 101), (Sample.host 4 0, bz_EventData.gameEnd)]
      Sample.pollAfterRestart
      [Effect.sendTextMessage (-2) (-1)
        "MapVote: initiating new map poll with all maps.".toList]
      (by decide) (by decide),
    by decide⟩

/-! ## Positions on a build -/

/-- On a build whose `size_type` is wider than `unsigned int`, no value of an
`unsigned int` variable that holds a position is `string::npos`. -/
theorem position_lp64 (found : Option Nat) :
    Build.lp64.position found ≤ 4294967295 ∧
    Build.lp64.position found ≠ Build.lp64.npos := by
  cases found with
  | none => decide
  | some i =>
    simp only [Build.position, Build.toUnsigned, Build.lp64]
    omega

/-- On a build whose `size_type` is wider than `unsigned int`, the position after the one
found is within the command. -/
theorem position_lp64_next (command : CppString) (pos : Nat) :
    (Build.lp64.position (find_first_of command ' ' pos) + 1) % 4294967296 ≤
      command.length := by
  cases hf : find_first_of command ' ' pos with
  | none => simp [Build.position, Build.toUnsigned, Build.lp64]
  | some p =>
    obtain ⟨_, hlt⟩ := find_first_of_lt command pos p hf
    simp only [Build.position, Build.toUnsigned, Build.lp64]
    omega

/-- On a build whose `size_type` is wider than `unsigned int`, the loop of `startMapVote`
does not end: whatever the number of turns, it is still running. -/
theorem startMapVoteLoopOn_lp64 (api : Api) (mapList : StdMap CppString)
    (command : CppString) (requestor : Int) :
    ∀ (fuel index : Nat) (acc : StdMap Int × List Effect),
      index ≤ 4294967295 → (index + 1) % 4294967296 ≤ command.length →
      startMapVoteLoopOn Build.lp64 api mapList command requestor fuel index acc =
        Outcome.running := by
  intro fuel
  induction fuel with
  | zero =>
    intro index acc h1 h2
    have hne : index ≠ Build.lp64.npos := by
      simp only [Build.lp64]
      omega
    simp only [startMapVoteLoopOn, if_neg hne]
  | succ fuel ih =>
    intro index acc h1 h2
    have hne : index ≠ Build.lp64.npos := by
      simp only [Build.lp64]
      omega
    have hpos := position_lp64 (find_first_of command ' ' (Build.lp64.toUnsigned (index + 1)))
    have hle : Build.lp64.toUnsigned (index + 1) ≤ command.length := h2
    simp only [startMapVoteLoopOn, if_neg hne, if_pos hpos.2, substrFromN, if_pos hle]
    exact ih _ _ hpos.1 (position_lp64_next command _)

/-- On a build whose `size_type` is wider than `unsigned int`, a call of `startMapVote` that
passes the checks of the requestor and of the open poll does not return: whatever the number
of turns of its loop, it is still running. -/
theorem startMapVoteOn_lp64 (api : Api) (host : Host) (h : MapVoteHandler)
    (command : CppString) (requestor : Int) (fuel : Nat)
    (hallow : ¬ (requestor ≠ api.BZ_SERVER ∧ (verifyAdminOp api host requestor).1 = false))
    (hnoop : ¬ (h.votingOpen = true ∧ requestor = api.BZ_SERVER)) :
    startMapVoteOn Build.lp64 api host h command requestor fuel = Outcome.running := by
  have hpos := position_lp64 (find_first_of command ' ' 0)
  unfold startMapVoteOn
  rw [if_neg hallow, if_neg hnoop]
  simp only [if_neg hpos.2]
  rw [startMapVoteLoopOn_lp64 api _ command requestor fuel _ _ hpos.1
    (position_lp64_next command 0)]

/-- A position found by `find_last_of` is within the string. -/
theorem find_last_of_lt (s : CppString) (c : Char) (index : Nat)
    (h : find_last_of s c = some index) : index < s.length := by
  unfold find_last_of at h
  split at h
  · rename_i hc
    have hpos : 0 < s.length := List.length_pos_of_mem hc
    simp only [Option.some.injEq] at h
    omega
  · simp at h

/-- On a build whose `size_type` is as wide as `unsigned int`, the variable holds the
position found. -/
theorem position_ilp32_some (index : Nat) (h : index < 4294967295) :
    Build.ilp32.position (some index) = index ∧ index ≠ Build.ilp32.npos := by
  simp only [Build.position, Build.toUnsigned, Build.ilp32]
  omega

/-- On a build whose `size_type` is as wide as `unsigned int`, the variable holds
`string::npos` when nothing is found. -/
theorem position_ilp32_none : Build.ilp32.position none = Build.ilp32.npos := by
  decide

/-- On a build whose `size_type` is as wide as `unsigned int`, what `loadMaplist` does with
a path once a separator is found at `index` is what `mapNameOf` does. -/
theorem mapNameOfOn_ilp32_cut (mapPath : CppString) (index : Nat)
    (hi : index < mapPath.length) (hlen : mapPath.length < 4294967295) :
    (match substrFrom mapPath (Build.ilp32.toUnsigned (index + 1)) with
      | none => MapName.outOfRange
      | some mapName =>
        match eraseFrom mapName (Build.ilp32.position (find_last_of mapName '.')) with
        | none => MapName.outOfRange
        | some mapName => MapName.name mapName) =
    (match erase (substr mapPath (index + 1))
        (find_last_of (substr mapPath (index + 1)) '.') with
      | none => MapName.outOfRange
      | some mapName => MapName.name mapName) := by
  have h1 : Build.ilp32.toUnsigned (index + 1) = index + 1 := by
    simp only [Build.toUnsigned, Build.ilp32]
    omega
  have h2 : index + 1 ≤ mapPath.length := hi
  have hlen2 : (substr mapPath (index + 1)).length < 4294967295 := by
    simp only [substr, List.length_drop]
    omega
  simp only [h1, substrFrom, if_pos h2]
  change (match eraseFrom (substr mapPath (index + 1))
      (Build.ilp32.position (find_last_of (substr mapPath (index + 1)) '.')) with
      | none => MapName.outOfRange
      | some mapName => MapName.name mapName) = _
  cases hf : find_last_of (substr mapPath (index + 1)) '.' with
  | none =>
    have hno : ¬ Build.ilp32.npos ≤ (substr mapPath (index + 1)).length := by
      simp only [Build.ilp32]
      omega
    simp only [position_ilp32_none, eraseFrom, if_neg hno, erase]
  | some j =>
    have hj := find_last_of_lt _ _ _ hf
    have hp := (position_ilp32_some j (by omega)).1
    simp only [hp, eraseFrom, erase]

/-- On a build whose `size_type` is as wide as `unsigned int`, and for a path shorter than
`string::npos`, the name derived from a path is the one `mapNameOf` gives. -/
theorem mapNameOfOn_ilp32 (mapPath : CppString) (hlen : mapPath.length < 4294967295) :
    mapNameOfOn Build.ilp32 mapPath = mapNameOf mapPath := by
  unfold mapNameOfOn mapNameOf
  cases hf : find_last_of mapPath '/' with
  | some i =>
    have hi := find_last_of_lt _ _ _ hf
    have hp := position_ilp32_some i (by omega)
    simp only [hp.1, if_neg hp.2]
    exact mapNameOfOn_ilp32_cut mapPath i hi hlen
  | none =>
    simp only [position_ilp32_none, if_true]
    cases hg : find_last_of mapPath '\\' with
    | some i =>
      have hi := find_last_of_lt _ _ _ hg
      have hp := position_ilp32_some i (by omega)
      simp only [hp.1, if_neg hp.2]
      exact mapNameOfOn_ilp32_cut mapPath i hi hlen
    | none =>
      simp only [position_ilp32_none, if_true]

/-- On a build whose `size_type` is as wide as `unsigned int`, the loop of `loadMaplist`
over paths shorter than `string::npos` is `loadMaplistLoop`. -/
theorem loadMaplistLoopOn_ilp32 :
    ∀ (words : List CppString) (mapList : StdMap CppString),
      (∀ w ∈ words, w.length < 4294967295) →
      loadMaplistLoopOn Build.ilp32 words mapList = loadMaplistLoop words mapList := by
  intro words
  induction words with
  | nil => intro mapList _; rfl
  | cons w rest ih =>
    intro mapList hw
    have h1 := mapNameOfOn_ilp32 w (hw w (List.mem_cons_self _ _))
    have h2 : ∀ m, loadMaplistLoopOn Build.ilp32 rest m = loadMaplistLoop rest m :=
      fun m => ih m (fun x hx => hw x (List.mem_cons_of_mem _ hx))
    simp only [loadMaplistLoopOn, loadMaplistLoop, h1, h2]

/-- On a build whose `size_type` is as wide as `unsigned int`, `loadMaplist` and `bz_Load`
on a file of paths shorter than `string::npos` are the functions of those names above. -/
theorem loadMaplistOn_ilp32 (h : MapVoteHandler) (file : Option (List CppString))
    (hfile : ∀ words, file = some words → ∀ w ∈ words, w.length < 4294967295) :
    loadMaplistOn Build.ilp32 h file = loadMaplist h file ∧
    bz_LoadOn Build.ilp32 h file = bz_Load h file := by
  have h1 : loadMaplistOn Build.ilp32 h file = loadMaplist h file := by
    cases file with
    | none => rfl
    | some words =>
      simp only [loadMaplistOn, loadMaplist, loadMaplistLoopOn_ilp32 words h.mapList
        (hfile words rfl)]
  exact ⟨h1, by simp only [bz_LoadOn, bz_Load, h1]⟩

/-- On a build whose `size_type` is as wide as `unsigned int`, the loop of `startMapVote`
on a command shorter than `string::npos` is `startMapVoteLoop`, the position `none`
standing for `string::npos`. -/
theorem startMapVoteLoopOn_ilp32 (api : Api) (mapList : StdMap CppString)
    (command : CppString) (requestor : Int) (hlen : command.length < 4294967295) :
    ∀ (fuel : Nat) (index : Option Nat) (acc : StdMap Int × List Effect),
      (∀ i, index = some i → i < command.length) →
      startMapVoteLoopOn Build.ilp32 api mapList command requestor fuel
        (Build.ilp32.position index) acc =
      Outcome.ofFuel (startMapVoteLoop api mapList command requestor fuel index acc) := by
  intro fuel
  induction fuel with
  | zero =>
    intro index acc hi
    cases index with
    | none => simp only [position_ilp32_none, startMapVoteLoopOn, if_true, startMapVoteLoop,
        Outcome.ofFuel]
    | some i =>
      have hp := position_ilp32_some i (by have := hi i rfl; omega)
      simp only [hp.1, startMapVoteLoopOn, if_neg hp.2, startMapVoteLoop, Outcome.ofFuel]
  | succ fuel ih =>
    intro index acc hi
    cases index with
    | none => simp only [position_ilp32_none, startMapVoteLoopOn, if_true, startMapVoteLoop,
        Outcome.ofFuel]
    | some i =>
      have hil := hi i rfl
      have hp := position_ilp32_some i (by omega)
      have h1 : Build.ilp32.toUnsigned (i + 1) = i + 1 := by
        simp only [Build.toUnsigned, Build.ilp32]
        omega
      have h2 : i + 1 ≤ command.length := hil
      rw [startMapVoteLoop_succ]
      simp only [hp.1, startMapVoteLoopOn, if_neg hp.2, h1]
      cases hf : find_first_of command ' ' (i + 1) with
      | none =>
        simp only [position_ilp32_none, ne_eq, not_true_eq_false, if_false, substrFrom,
          if_pos h2]
        have := ih none (startMapVoteStep api mapList requestor acc (substr command (i + 1)))
          (fun _ hx => by simp at hx)
        rw [position_ilp32_none] at this
        exact this
      | some n =>
        obtain ⟨hle, hlt⟩ := find_first_of_lt command (i + 1) n hf
        have hn := position_ilp32_some n (by omega)
        have h3 : Build.ilp32.toUnsigned (n + (Build.ilp32.UINT_MAX + 1) - (i + 1)) =
            n - (i + 1) := by
          simp only [Build.toUnsigned, Build.ilp32]
          omega
        simp only [hn.1, ne_eq, hn.2, not_false_eq_true, if_true, substrFromN, if_pos h2, h3]
        have := ih (some n)
          (startMapVoteStep api mapList requestor acc (substrN command (i + 1) (n - (i + 1))))
          (fun x hx => by simp only [Option.some.injEq] at hx; omega)
        rw [hn.1] at this
        exact this

/-- On a build whose `size_type` is as wide as `unsigned int`, `startMapVote` on a command
shorter than `string::npos`, its loop given one turn per character and one more, is
`startMapVote` above, and it returns. -/
theorem startMapVoteOn_ilp32 (api : Api) (host : Host) (h : MapVoteHandler)
    (command : CppString) (requestor : Int) (hlen : command.length < 4294967295) :
    startMapVoteOn Build.ilp32 api host h command requestor (command.length + 1) =
      Outcome.ofFuel (startMapVote api host h command requestor) ∧
    ∃ result, startMapVoteOn Build.ilp32 api host h command requestor (command.length + 1) =
      Outcome.returned result := by
  have heq : startMapVoteOn Build.ilp32 api host h command requestor (command.length + 1) =
      Outcome.ofFuel (startMapVote api host h command requestor) := by
    unfold startMapVoteOn startMapVote
    split
    · rfl
    · split
      · rfl
      · dsimp only
        cases hf : find_first_of command ' ' 0 with
        | none =>
          simp only [position_ilp32_none, if_true, Outcome.ofFuel]
        | some i =>
          obtain ⟨_, hlt⟩ := find_first_of_lt command 0 i hf
          have hp := position_ilp32_some i (by omega)
          have hloop := startMapVoteLoopOn_ilp32 api
            (if h.votingOpen = true then resetVoting h else h).mapList command requestor hlen
            (command.length + 1) (some i)
            ((if h.votingOpen = true then resetVoting h else h).voteTally, [])
            (fun x hx => by simp only [Option.some.injEq] at hx; omega)
          rw [hp.1] at hloop
          simp only [hp.1, if_neg hp.2, hloop]
          cases startMapVoteLoop api (if h.votingOpen = true then resetVoting h else h).mapList
              command requestor (command.length + 1) (some i)
              ((if h.votingOpen = true then resetVoting h else h).voteTally, []) with
          | none => rfl
          | some r =>
            obtain ⟨voteTally, effects⟩ := r
            simp only [Outcome.ofFuel]
            split <;> rfl
  refine ⟨heq, ?_⟩
  have hsome := startMapVote_isSome api host h command requestor
  cases hr : startMapVote api host h command requestor with
  | none => rw [hr] at hsome; simp at hsome
  | some result => exact ⟨result, by rw [heq, hr]; rfl⟩

/-- On a build whose `size_type` is wider than `unsigned int`, `loadMaplist` does not give
up on any path. -/
theorem mapNameOfOn_lp64_ne_giveUp (mapPath : CppString) :
    mapNameOfOn Build.lp64 mapPath ≠ MapName.giveUp := by
  have h1 := (position_lp64 (find_last_of mapPath '/')).2
  unfold mapNameOfOn
  simp only [if_neg h1]
  split
  · exact MapName.noConfusion
  · split
    · exact MapName.noConfusion
    · exact MapName.noConfusion

/-- On a build whose `size_type` is wider than `unsigned int`, a path without `/` is not
cut, whatever `\` it has: its map name is the whole path up to its last dot. -/
theorem mapNameOfOn_lp64_no_slash (mapPath : CppString) (h : '/' ∉ mapPath) :
    mapNameOfOn Build.lp64 mapPath =
      match eraseFrom mapPath (Build.lp64.position (find_last_of mapPath '.')) with
      | none => MapName.outOfRange
      | some mapName => MapName.name mapName := by
  have h1 : Build.lp64.position none ≠ Build.lp64.npos := by decide
  have h2 : Build.lp64.toUnsigned (Build.lp64.position none + 1) = 0 := by decide
  unfold mapNameOfOn
  simp only [find_last_of_none mapPath '/' h, if_neg h1, h2, substrFrom, Nat.zero_le, if_true,
    List.drop_zero]

/-- On a build whose `size_type` is wider than `unsigned int`, the name derived from a path
shorter than `UINT_MAX` that ends in `/`, a name and an extension is that name. -/
theorem mapNameOfOn_lp64_slash (dir name ext : CppString)
    (h1 : '/' ∉ name) (h2 : '/' ∉ ext) (hext : '.' ∉ ext)
    (hlen : (dir ++ '/' :: (name ++ '.' :: ext)).length < 4294967295) :
    mapNameOfOn Build.lp64 (dir ++ '/' :: (name ++ '.' :: ext)) = MapName.name name := by
  have hno : '/' ∉ name ++ '.' :: ext := by
    simp only [List.mem_append, List.mem_cons, not_or]
    exact ⟨h1, by decide, h2⟩
  simp only [List.length_append, List.length_cons] at hlen
  have hp1 : Build.lp64.position (some dir.length) = dir.length := by
    simp only [Build.position, Build.toUnsigned, Build.lp64]
    omega
  have hne : dir.length ≠ Build.lp64.npos := by
    simp only [Build.lp64]
    omega
  have hu : Build.lp64.toUnsigned (dir.length + 1) = dir.length + 1 := by
    simp only [Build.toUnsigned, Build.lp64]
    omega
  have hle : dir.length + 1 ≤ (dir ++ '/' :: (name ++ '.' :: ext)).length := by
    simp only [List.length_append, List.length_cons]
    omega
  have hdrop : List.drop (dir.length + 1) (dir ++ '/' :: (name ++ '.' :: ext)) =
      name ++ '.' :: ext := by
    simp
  have hp2 : Build.lp64.position (some name.length) = name.length := by
    simp only [Build.position, Build.toUnsigned, Build.lp64]
    omega
  have herase : eraseFrom (name ++ '.' :: ext) name.length = some name := by
    simp [eraseFrom]
  unfold mapNameOfOn
  simp only [find_last_of_append dir _ '/' hno, hp1, if_neg hne, hu, substrFrom, if_pos hle,
    hdrop, find_last_of_append name ext '.' hext, hp2, herase]

/-- On a build whose `size_type` is wider than `unsigned int`, `loadMaplist` never returns
`false` once the file is open. -/
theorem loadMaplistLoopOn_lp64_true :
    ∀ (words : List CppString) (mapList mapList1 : StdMap CppString) (result : Bool),
      loadMaplistLoopOn Build.lp64 words mapList = some (result, mapList1) →
      result = true := by
  intro words
  induction words with
  | nil =>
    intro mapList mapList1 result h
    simp only [loadMaplistLoopOn, Option.some.injEq, Prod.mk.injEq] at h
    exact h.1.symm
  | cons w rest ih =>
    intro mapList mapList1 result h
    have hg := mapNameOfOn_lp64_ne_giveUp w
    unfold loadMaplistLoopOn at h
    split at h
    · rename_i hw
      exact absurd hw hg
    · simp at h
    · exact ih _ _ _ h

/-! ## Polls and map lists on a build with 64-bit `size_type` -/

/-- C9: on a build with 64-bit `size_type`, the request for a poll on all maps does not
return.  With the three sample maps and a closed poll, `gameEnded` (the request of the
server at the end of a game) and `/startmapvote` from an administrator are still in the
loop of `startMapVote` after any number of turns, the poll not open; on a build with 32-bit
`size_type` the same request of the server returns without a turn of the loop, the poll
open on the three maps. -/
theorem all_maps_request_never_returns (fuel : Nat) :
    gameEndedOn Build.lp64 Sample.api (Sample.host 4 0) (MapVoteHandler.init Sample.maps) fuel =
      Outcome.running ∧
    startMapVoteOn Build.lp64 Sample.api (Sample.host 4 0) (MapVoteHandler.init Sample.maps)
      STARTVOTE_COMMAND 0 fuel = Outcome.running ∧
    gameEndedOn Build.ilp32 Sample.api (Sample.host 4 0) (MapVoteHandler.init Sample.maps) 0 =
      Outcome.returned
        ({ MapVoteHandler.init Sample.maps with
            votingOpen := true
            voteTally := [("A".toList, 0), ("B".toList, 0), ("C".toList, 0)] },
          [Effect.sendTextMessage Sample.api.BZ_SERVER Sample.api.BZ_ALLUSERS
            "MapVote: initiating new map poll with all maps.".toList]) :=
  ⟨startMapVoteOn_lp64 Sample.api (Sample.host 4 0) (MapVoteHandler.init Sample.maps) []
      Sample.api.BZ_SERVER fuel (by decide) (by decide),
    startMapVoteOn_lp64 Sample.api (Sample.host 4 0) (MapVoteHandler.init Sample.maps)
      STARTVOTE_COMMAND 0 fuel (by decide) (by decide),
    by decide⟩

/-- C10: on a build with 64-bit `size_type`, the request for a poll on listed maps does not
return.  With the three sample maps and a closed poll, `/startmapvote B A` (two maps of the
list) and `/startmapvote A` (one) from an administrator are still in the loop of
`startMapVote` after any number of turns, the poll neither opened nor rejected; on a build
with 32-bit `size_type` the first returns after two turns, the poll open on `A` and `B`. -/
theorem listed_maps_request_never_returns (fuel : Nat) :
    startMapVoteOn Build.lp64 Sample.api (Sample.host 4 0) (MapVoteHandler.init Sample.maps)
      "/startmapvote B A".toList 0 fuel = Outcome.running ∧
    startMapVoteOn Build.lp64 Sample.api (Sample.host 4 0) (MapVoteHandler.init Sample.maps)
      "/startmapvote A".toList 0 fuel = Outcome.running ∧
    startMapVoteOn Build.ilp32 Sample.api (Sample.host 4 0) (MapVoteHandler.init Sample.maps)
      "/startmapvote B A".toList 0 2 =
      Outcome.returned
        (Sample.poll 0 0 ∅,
          [Effect.sendTextMessage Sample.api.BZ_SERVER Sample.api.BZ_ALLUSERS
            "MapVote: player initiated a new map vote with the following maps:".toList,
           Effect.sendTextMessage Sample.api.BZ_SERVER Sample.api.BZ_ALLUSERS "A".toList,
           Effect.sendTextMessage Sample.api.BZ_SERVER Sample.api.BZ_ALLUSERS "B".toList]) :=
  ⟨startMapVoteOn_lp64 Sample.api (Sample.host 4 0) (MapVoteHandler.init Sample.maps) _ 0 fuel
      (by decide) (by decide),
    startMapVoteOn_lp64 Sample.api (Sample.host 4 0) (MapVoteHandler.init Sample.maps) _ 0 fuel
      (by decide) (by decide),
    by decide⟩

/-- C17: on a build with 64-bit `size_type`, the path `C:\maps\Keep.bzw`, whose part after
the last directory separator is `Keep.bzw`, gives the map name `C:\maps\Keep`; after
loading it the map list has no entry for `Keep`.  On a build with 32-bit `size_type` the
name is `Keep`, and `/data/maps/Castle.bzw` gives `Castle` on both. -/
theorem backslash_path_keeps_directories :
    mapNameOfOn Build.lp64 "C:\\maps\\Keep.bzw".toList =
      MapName.name "C:\\maps\\Keep".toList ∧
    loadMaplistOn Build.lp64 (MapVoteHandler.init []) (some ["C:\\maps\\Keep.bzw".toList]) =
      some (true,
        MapVoteHandler.init [("C:\\maps\\Keep".toList, "C:\\maps\\Keep.bzw".toList)]) ∧
    StdMap.find
      (MapVoteHandler.init [("C:\\maps\\Keep".toList, "C:\\maps\\Keep.bzw".toList)]).mapList
      "Keep".toList = none ∧
    mapNameOfOn Build.ilp32 "C:\\maps\\Keep.bzw".toList = MapName.name "Keep".toList ∧
    mapNameOfOn Build.lp64 "/data/maps/Castle.bzw".toList = MapName.name "Castle".toList ∧
    mapNameOfOn Build.ilp32 "/data/maps/Castle.bzw".toList = MapName.name "Castle".toList := by
  decide

/-- C18: on a build with 64-bit `size_type`, loading the paths `/m/A.bzw` and `B.bzw`, the
second without a directory separator, does not fail: `loadMaplist` returns `true`, the
map list has both entries, `B.bzw` under the name `B`, and `bz_Load` returns 0 and
registers the handler.  On a build with 32-bit `size_type` `loadMaplist` returns `false`
and `bz_Load` returns 1, the map list keeping the entry of the first path. -/
theorem path_without_separator_is_loaded :
    '/' ∉ "B.bzw".toList ∧ '\\' ∉ "B.bzw".toList ∧
    loadMaplistOn Build.lp64 (MapVoteHandler.init [])
        (some ["/m/A.bzw".toList, "B.bzw".toList]) =
      some (true, MapVoteHandler.init
        [("A".toList, "/m/A.bzw".toList), ("B".toList, "B.bzw".toList)]) ∧
    bz_LoadOn Build.lp64 (MapVoteHandler.init [])
        (some ["/m/A.bzw".toList, "B.bzw".toList]) =
      some (0, MapVoteHandler.init
        [("A".toList, "/m/A.bzw".toList), ("B".toList, "B.bzw".toList)],
        [bz_eEventType.bz_eUnknownSlashCommand, bz_eEventType.bz_eGetWorldEvent,
          bz_eEventType.bz_eGameEndEvent]) ∧
    loadMaplistOn Build.ilp32 (MapVoteHandler.init [])
        (some ["/m/A.bzw".toList, "B.bzw".toList]) =
      some (false, MapVoteHandler.init [("A".toList, "/m/A.bzw".toList)]) ∧
    bz_LoadOn Build.ilp32 (MapVoteHandler.init [])
        (some ["/m/A.bzw".toList, "B.bzw".toList]) =
      some (1, MapVoteHandler.init [("A".toList, "/m/A.bzw".toList)], []) := by
  decide

end MapVote
